import Mathlib

/-!
# VP9 coefficient token decoder (`vp9/decoder/vp9_detokenize.c`)

A shallow embedding of `decode_coefs` and of the macros it is written with
(`INCREMENT_COUNT`, `WRITE_COEF_CONTINUE`, `ADJUST_COEF`), followed by theorems
about it.

Conventions of the embedding.

* Everything `decode_coefs` only reads during one call (tables, the dequant
  pair, scan and neighbour tables, the frame-parallel flag, the transform size)
  is collected in `Env`.  Tables, helper functions and token constants that
  are declared outside this source file are fields of `Env`, so every theorem
  holds for all their possible values; `PIVOT_NODE` and `TX_32X32`, whose
  values the specification gives, are definitions.
* The boolean decoder `vp9_reader` is external: `Reader σ` packages its two
  entry points over an arbitrary reader state `σ`.  `scripted` is the reader
  that plays back a fixed sequence of decisions.
* The local variables and the memory written by the function form `State`.
  Arrays are functions from indices; a pointer into a table is the table
  together with an offset.
* C `int` values are mathematical integers (`Nat` for the magnitude `val`
  and the index `c`, which are never negative, `Int` for the dequantised
  value `v` and the buffer entries): the run of `decode_coefs` covers the
  executions in which no signed C integer overflows and `v` fits the buffer's
  element type `tran_low_t`, which is declared outside this source file.
  Nothing in the function reads `v` or the buffer back, so the width bears on
  the stored values only: `store_value` gives lines 49 and 50 in machine
  arithmetic (32-bit `int`, a buffer element of `w` bits), and the theorem on
  the stored values (C2) is stated for the values in range, where the two
  agree.  `>>` on a signed value is the arithmetic shift.  The counters are
  `unsigned int` and are incremented modulo `2 ^ 32`.
* The loops are driven by a fuel argument: running out of fuel yields `none`.
  The only loop whose length is not bounded by the code itself is the
  category-6 loop, which runs until it loads a zero table entry.
* `State.trace` is a ghost log (most recent event first) of the reads, table
  loads, context derivations and resolved tokens; it never influences the run.
-/

namespace Vp9

/-! ## Constants defined in the source file -/

def EOB_CONTEXT_NODE : Nat := 0
def ZERO_CONTEXT_NODE : Nat := 1
def ONE_CONTEXT_NODE : Nat := 2
def LOW_VAL_CONTEXT_NODE : Nat := 0
def TWO_CONTEXT_NODE : Nat := 1
def THREE_CONTEXT_NODE : Nat := 2
def HIGH_LOW_CONTEXT_NODE : Nat := 3
def CAT_ONE_CONTEXT_NODE : Nat := 4
def CAT_THREEFOUR_CONTEXT_NODE : Nat := 5
def CAT_THREE_CONTEXT_NODE : Nat := 6
def CAT_FIVE_CONTEXT_NODE : Nat := 7

def CAT1_MIN_VAL : Nat := 5
def CAT2_MIN_VAL : Nat := 7
def CAT3_MIN_VAL : Nat := 11
def CAT4_MIN_VAL : Nat := 19
def CAT5_MIN_VAL : Nat := 35
def CAT6_MIN_VAL : Nat := 67

/-! ## Constants declared outside the source file -/

/-- Modelled from the spec: the constant `PIVOT_NODE`, whose declaration is not
part of the source tree.  The spec says the pareto row is "indexed by
`prob[2]-1`", the third base-node probability. -/
def PIVOT_NODE : Nat := 2

/-- Modelled from the spec: the constant `TX_32X32`, whose declaration is not
part of the source tree.  The spec numbers the four transform sizes 0 to 3
(`maxEob` 16, 64, 256, 1024) and the 32x32 transform is the largest. -/
def TX_32X32 : Nat := 3

/-! ## Data model -/

/-- Origin of the probability handed to `vp9_read`. -/
inductive Src where
  /-- Entry `coef_probs[band][ctx][node]`. -/
  | coef (band ctx node : Nat)
  /-- Entry `vp9_pareto8_full[row][node]`. -/
  | pareto (row : Int) (node : Nat)
  /-- Entry `catK_ptr[i]`. -/
  | cat (k i : Nat)
  /-- The unconditional sign bit, `vp9_read_bit`. -/
  | bit
  deriving DecidableEq, Repr

/-- Ghost events recorded while decoding. -/
inductive Event where
  /-- A boolean was read at running index `c`; `b` is the decision. -/
  | read (c : Nat) (src : Src) (b : Bool)
  /-- The statement `band = *band_translate++` loaded table entry `i`. -/
  | band (i : Nat)
  /-- The call `get_coef_context(nb, token_cache, c)`. -/
  | context (c : Nat)
  /-- The test `*cat6` loaded entry `i` of the category-6 table. -/
  | cat6 (i : Nat)
  /-- An EOB token was resolved at running index `c`. -/
  | eob (c : Nat)
  /-- A ZERO token was resolved at running index `c`. -/
  | zero (c : Nat)
  /-- The macro `WRITE_COEF_CONTINUE(val, token)` ran at running index `c`: the
  sign bit read was `sign` and `dqcoeff[pos] = x` was executed. -/
  | coef (c val token : Nat) (sign : Bool) (pos : Nat) (x : Int)
  deriving DecidableEq, Repr

/-- The boolean decoder, external to this file: `vp9_read(r, prob)` and
`vp9_read_bit(r)` return a decision and advance the reader. -/
structure Reader (σ : Type) where
  vp9_read : σ → Nat → Bool × σ
  vp9_read_bit : σ → Bool × σ

/-- Everything `decode_coefs` reads but never writes during one call. -/
structure Env where
  /-- The argument `tx_size`. -/
  tx_size : Nat
  /-- The flag `cm->frame_parallel_decoding_mode`. -/
  frame_parallel_decoding_mode : Bool
  /-- The slice `fc->coef_probs[tx_size][type][ref]`, indexed by band, context
  and node. -/
  coef_probs : Nat → Nat → Nat → Nat
  /-- The argument `dq`: `dq 0` is the DC factor, `dq 1` the AC factor. -/
  dq : Nat → Int
  /-- The argument `scan`. -/
  scan : Nat → Nat
  /-- The argument `nb`. -/
  nb : Nat → Nat
  /-- The helper `get_band_translate`, declared outside this file: the band
  table of a transform size. -/
  get_band_translate : Nat → Nat → Nat
  /-- The helper `get_coef_context`, declared outside this file. -/
  get_coef_context : (Nat → Nat) → (Nat → Nat) → Nat → Nat
  /-- The table `vp9_pt_energy_class`, declared outside this file. -/
  vp9_pt_energy_class : Nat → Nat
  /-- The table `vp9_pareto8_full`, declared outside this file.  The row index
  computed by the code is a signed integer; the function also says what a load
  outside the table would return. -/
  vp9_pareto8_full : Int → Nat → Nat
  /-- Number of rows of `vp9_pareto8_full` (`COEFF_PROB_MODELS`). -/
  COEFF_PROB_MODELS : Nat
  /-- The selected extra-bit probability tables `cat1_ptr` to `cat6_ptr`
  (declared outside this file); a table is the memory from its first entry
  on. -/
  cat1_ptr : Nat → Nat
  cat2_ptr : Nat → Nat
  cat3_ptr : Nat → Nat
  cat4_ptr : Nat → Nat
  cat5_ptr : Nat → Nat
  cat6_ptr : Nat → Nat
  /-- The token constants, declared outside this file. -/
  EOB_MODEL_TOKEN : Nat
  ZERO_TOKEN : Nat
  ONE_TOKEN : Nat
  TWO_TOKEN : Nat
  THREE_TOKEN : Nat
  FOUR_TOKEN : Nat
  CATEGORY1_TOKEN : Nat
  CATEGORY2_TOKEN : Nat
  CATEGORY3_TOKEN : Nat
  CATEGORY4_TOKEN : Nat
  CATEGORY5_TOKEN : Nat
  CATEGORY6_TOKEN : Nat

/-- Local variables of `decode_coefs` and the memory it writes. -/
structure State (σ : Type) where
  /-- The running index `c`. -/
  c : Nat
  /-- The context bucket `ctx`. -/
  ctx : Nat
  /-- The variable `band`. -/
  band : Nat
  /-- Offset of the pointer `band_translate` from the start of its table. -/
  band_translate : Nat
  /-- The row `prob` points to. -/
  prob : Nat → Nat
  /-- The variable `dqv`. -/
  dqv : Int
  /-- The variable `v`. -/
  v : Int
  /-- The coefficient buffer `dqcoeff`. -/
  dqcoeff : Nat → Int
  /-- The local array `token_cache`. -/
  token_cache : Nat → Nat
  /-- The slice `counts->coef[tx_size][type][ref]`. -/
  coef_counts : Nat → Nat → Nat → Nat
  /-- The slice `counts->eob_branch[tx_size][type][ref]`. -/
  eob_branch_count : Nat → Nat → Nat
  /-- The reader `r`. -/
  r : σ
  /-- Ghost log, most recent event first. -/
  trace : List Event

/-- What a call receives besides `Env`: the entry context, the contents of the
memory the call may write, the (uninitialised) contents of the local array and
the reader. -/
structure Input (σ : Type) where
  ctx : Nat
  dqcoeff : Nat → Int
  token_cache : Nat → Nat
  coef_counts : Nat → Nat → Nat → Nat
  eob_branch_count : Nat → Nat → Nat
  r : σ

/-- A reader that plays back the decisions `bits 0, bits 1, ...`; `pos` is the
number of decisions consumed so far. -/
structure Script where
  bits : Nat → Bool
  pos : Nat

/-- Take the next scripted decision. -/
def Script.next (r : Script) : Bool × Script :=
  (r.bits r.pos, { r with pos := r.pos + 1 })

/-- The scripted reader ignores the probability. -/
def scripted : Reader Script where
  vp9_read := fun r _ => r.next
  vp9_read_bit := fun r => r.next

/-! ## The embedded code -/

variable {σ : Type}

/-- The constant `max_eob = 16 << (tx_size << 1)`. -/
def max_eob (E : Env) : Nat := 16 <<< (E.tx_size <<< 1)

/-- The constant `dq_shift = (tx_size == TX_32X32)`. -/
def dq_shift (E : Env) : Nat := if E.tx_size = TX_32X32 then 1 else 0

/-- The call `vp9_read(r, p)`, logged. -/
def rd (R : Reader σ) (src : Src) (p : Nat) (s : State σ) : Bool × State σ :=
  ((R.vp9_read s.r p).1,
   { s with r := (R.vp9_read s.r p).2,
            trace := Event.read s.c src (R.vp9_read s.r p).1 :: s.trace })

/-- The statement `++a[i][j][k]` on an array of `unsigned int`. -/
def incr3 (a : Nat → Nat → Nat → Nat) (i j k : Nat) : Nat → Nat → Nat → Nat :=
  fun x y z => if x = i ∧ y = j ∧ z = k then (a x y z + 1) % 2 ^ 32 else a x y z

/-- The statement `++a[i][j]` on an array of `unsigned int`. -/
def incr2 (a : Nat → Nat → Nat) (i j : Nat) : Nat → Nat → Nat :=
  fun x y => if x = i ∧ y = j then (a x y + 1) % 2 ^ 32 else a x y

/-- The macro `INCREMENT_COUNT(token)`. -/
def INCREMENT_COUNT (E : Env) (token : Nat) (s : State σ) : State σ :=
  if E.frame_parallel_decoding_mode then s
  else { s with coef_counts := incr3 s.coef_counts s.band s.ctx token }

/-- The statements `band = *band_translate++; prob = coef_probs[band][ctx];`. -/
def next_band (E : Env) (s : State σ) : State σ :=
  { s with band := E.get_band_translate E.tx_size s.band_translate,
           band_translate := s.band_translate + 1,
           prob := E.coef_probs (E.get_band_translate E.tx_size s.band_translate) s.ctx,
           trace := Event.band s.band_translate :: s.trace }

/-- The statements `if (!cm->frame_parallel_decoding_mode)
++eob_branch_count[band][ctx];`. -/
def count_eob_branch (E : Env) (s : State σ) : State σ :=
  if E.frame_parallel_decoding_mode then s
  else { s with eob_branch_count := incr2 s.eob_branch_count s.band s.ctx }

/-- The macro `WRITE_COEF_CONTINUE(val, token)` up to its `continue`.  The
value `v` and the stored cell are mathematical integers; `store_value` is the
same arithmetic in 32-bit `int` with the store narrowed to `tran_low_t`. -/
def WRITE_COEF_CONTINUE (R : Reader σ) (E : Env) (val token : Nat) (s : State σ) :
    State σ :=
  let v : Int := ((val : Int) * s.dqv) >>> dq_shift E
  let sign := R.vp9_read_bit s.r
  let x : Int := if sign.1 then -v else v
  let cache := Function.update s.token_cache (E.scan s.c) (E.vp9_pt_energy_class token)
  { s with v := v,
           dqcoeff := Function.update s.dqcoeff (E.scan s.c) x,
           token_cache := cache,
           c := s.c + 1,
           ctx := E.get_coef_context E.nb cache (s.c + 1),
           dqv := E.dq 1,
           r := sign.2,
           trace := Event.context (s.c + 1) :: Event.coef s.c val token sign.1 (E.scan s.c) x ::
             Event.read s.c Src.bit sign.1 :: s.trace }

/-- The macro `ADJUST_COEF(prob, bits_count)` applied to entry `i` of the
category-`k` table: `val += (vp9_read(r, prob) << bits_count)`. -/
def ADJUST_COEF (R : Reader σ) (k i prob bits_count : Nat) (x : Nat × State σ) :
    Nat × State σ :=
  (x.1 + ((rd R (Src.cat k i) prob x.2).1.toNat <<< bits_count),
   (rd R (Src.cat k i) prob x.2).2)

/-- The loop `while (*cat6) val = (val << 1) | vp9_read(r, *cat6++);` with the
pointer `cat6` at offset `i`. -/
def cat6_loop (R : Reader σ) (E : Env) : Nat → Nat → Nat → State σ → Option (Nat × State σ)
  | 0, _, _, _ => none
  | fuel + 1, i, val, s =>
    if E.cat6_ptr i ≠ 0 then
      cat6_loop R E fuel (i + 1)
        ((val <<< 1) ||| (rd R (Src.cat 6 i) (E.cat6_ptr i)
          { s with trace := Event.cat6 i :: s.trace }).1.toNat)
        (rd R (Src.cat 6 i) (E.cat6_ptr i) { s with trace := Event.cat6 i :: s.trace }).2
    else some (val, { s with trace := Event.cat6 i :: s.trace })

/-- Category 1 to 6: the part of the loop body from the read of
`HIGH_LOW_CONTEXT_NODE` on, up to the arguments of the closing
`WRITE_COEF_CONTINUE(val, token)`. -/
def category (R : Reader σ) (E : Env) (fuel : Nat) (row : Int) (s : State σ) :
    Option (Nat × Nat × State σ) :=
  let hl := rd R (Src.pareto row HIGH_LOW_CONTEXT_NODE) (s.prob HIGH_LOW_CONTEXT_NODE) s
  if !hl.1 then
    let c1 := rd R (Src.pareto row CAT_ONE_CONTEXT_NODE) (hl.2.prob CAT_ONE_CONTEXT_NODE) hl.2
    if !c1.1 then
      let a := ADJUST_COEF R 1 0 (E.cat1_ptr 0) 0 (CAT1_MIN_VAL, c1.2)
      some (a.1, E.CATEGORY1_TOKEN, a.2)
    else
      let a := ADJUST_COEF R 2 1 (E.cat2_ptr 1) 0
        (ADJUST_COEF R 2 0 (E.cat2_ptr 0) 1 (CAT2_MIN_VAL, c1.2))
      some (a.1, E.CATEGORY2_TOKEN, a.2)
  else
    let c34 := rd R (Src.pareto row CAT_THREEFOUR_CONTEXT_NODE)
      (hl.2.prob CAT_THREEFOUR_CONTEXT_NODE) hl.2
    if !c34.1 then
      let c3 := rd R (Src.pareto row CAT_THREE_CONTEXT_NODE)
        (c34.2.prob CAT_THREE_CONTEXT_NODE) c34.2
      if !c3.1 then
        let a := ADJUST_COEF R 3 2 (E.cat3_ptr 2) 0
          (ADJUST_COEF R 3 1 (E.cat3_ptr 1) 1
            (ADJUST_COEF R 3 0 (E.cat3_ptr 0) 2 (CAT3_MIN_VAL, c3.2)))
        some (a.1, E.CATEGORY3_TOKEN, a.2)
      else
        let a := ADJUST_COEF R 4 3 (E.cat4_ptr 3) 0
          (ADJUST_COEF R 4 2 (E.cat4_ptr 2) 1
            (ADJUST_COEF R 4 1 (E.cat4_ptr 1) 2
              (ADJUST_COEF R 4 0 (E.cat4_ptr 0) 3 (CAT4_MIN_VAL, c3.2))))
        some (a.1, E.CATEGORY4_TOKEN, a.2)
    else
      let c5 := rd R (Src.pareto row CAT_FIVE_CONTEXT_NODE)
        (c34.2.prob CAT_FIVE_CONTEXT_NODE) c34.2
      if !c5.1 then
        let a := ADJUST_COEF R 5 4 (E.cat5_ptr 4) 0
          (ADJUST_COEF R 5 3 (E.cat5_ptr 3) 1
            (ADJUST_COEF R 5 2 (E.cat5_ptr 2) 2
              (ADJUST_COEF R 5 1 (E.cat5_ptr 1) 3
                (ADJUST_COEF R 5 0 (E.cat5_ptr 0) 4 (CAT5_MIN_VAL, c5.2)))))
        some (a.1, E.CATEGORY5_TOKEN, a.2)
      else
        match cat6_loop R E fuel 0 0 c5.2 with
        | none => none
        | some a => some (a.1 + CAT6_MIN_VAL, E.CATEGORY6_TOKEN, a.2)

/-- The part of the loop body from the read of `ONE_CONTEXT_NODE` on: the
magnitude `val` and the `token` that the closing `WRITE_COEF_CONTINUE(val,
token)` receives, and the state in which it runs. -/
def token_tree (R : Reader σ) (E : Env) (fuel : Nat) (s : State σ) :
    Option (Nat × Nat × State σ) :=
  let one := rd R (Src.coef s.band s.ctx ONE_CONTEXT_NODE) (s.prob ONE_CONTEXT_NODE) s
  if !one.1 then
    some (1, E.ONE_TOKEN, INCREMENT_COUNT E E.ONE_TOKEN one.2)
  else
    let s1 := INCREMENT_COUNT E E.TWO_TOKEN one.2
    let row : Int := (s1.prob PIVOT_NODE : Int) - 1
    let s2 : State σ := { s1 with prob := E.vp9_pareto8_full row }
    let low := rd R (Src.pareto row LOW_VAL_CONTEXT_NODE) (s2.prob LOW_VAL_CONTEXT_NODE) s2
    if !low.1 then
      let two := rd R (Src.pareto row TWO_CONTEXT_NODE) (low.2.prob TWO_CONTEXT_NODE) low.2
      if !two.1 then
        some (2, E.TWO_TOKEN, two.2)
      else
        let three := rd R (Src.pareto row THREE_CONTEXT_NODE)
          (two.2.prob THREE_CONTEXT_NODE) two.2
        if !three.1 then some (3, E.THREE_TOKEN, three.2)
        else some (4, E.FOUR_TOKEN, three.2)
    else category R E fuel row low.2

/-- Outcome of the zero-run loop. -/
inductive ZeroRun (σ : Type) where
  /-- The loop condition failed: `ZERO_CONTEXT_NODE` read true. -/
  | token (s : State σ)
  /-- The statement `return c` inside the loop ran. -/
  | ret (s : State σ)

/-- Top of the outer loop body, lines 124 to 128: load the band, select
`prob`, count the eob branch and read `prob[EOB_CONTEXT_NODE]`. -/
def loop_head (R : Reader σ) (E : Env) (s : State σ) : Bool × State σ :=
  rd R (Src.coef (next_band E s).band (next_band E s).ctx EOB_CONTEXT_NODE)
    ((next_band E s).prob EOB_CONTEXT_NODE) (count_eob_branch E (next_band E s))

/-- Line 129, before the `break`: `INCREMENT_COUNT(EOB_MODEL_TOKEN)`. -/
def eob_token (E : Env) (s : State σ) : State σ :=
  { INCREMENT_COUNT E E.EOB_MODEL_TOKEN s with trace := Event.eob s.c :: s.trace }

/-- Condition of the zero-run loop, line 133: read `prob[ZERO_CONTEXT_NODE]`. -/
def zero_read (R : Reader σ) (s : State σ) : Bool × State σ :=
  rd R (Src.coef s.band s.ctx ZERO_CONTEXT_NODE) (s.prob ZERO_CONTEXT_NODE) s

/-- Lines 134 to 137: `INCREMENT_COUNT(ZERO_TOKEN); dqv = dq[1];
token_cache[scan[c]] = 0; ++c;`. -/
def zero_token (E : Env) (s : State σ) : State σ :=
  { INCREMENT_COUNT E E.ZERO_TOKEN s with
      dqv := E.dq 1,
      token_cache := Function.update s.token_cache (E.scan s.c) 0,
      c := s.c + 1,
      trace := Event.zero s.c :: s.trace }

/-- Lines 140 to 142: `ctx = get_coef_context(nb, token_cache, c); band =
*band_translate++; prob = coef_probs[band][ctx];`. -/
def zero_next (E : Env) (s : State σ) : State σ :=
  next_band E
    { s with ctx := E.get_coef_context E.nb s.token_cache s.c,
             trace := Event.context s.c :: s.trace }

/-- The loop `while (!vp9_read(r, prob[ZERO_CONTEXT_NODE])) { ... }`. -/
def zero_run (R : Reader σ) (E : Env) : Nat → State σ → Option (ZeroRun σ)
  | 0, _ => none
  | fuel + 1, s =>
    if !(zero_read R s).1 then
      if (zero_token E (zero_read R s).2).c ≥ max_eob E then
        some (ZeroRun.ret (zero_token E (zero_read R s).2))
      else zero_run R E fuel (zero_next E (zero_token E (zero_read R s).2))
    else some (ZeroRun.token (zero_read R s).2)

/-- The loop `while (c < max_eob) { ... }`; the result is the state in which
`decode_coefs` returns `c`. -/
def decode_loop (R : Reader σ) (E : Env) : Nat → State σ → Option (State σ)
  | 0, _ => none
  | fuel + 1, s =>
    if s.c < max_eob E then
      if !(loop_head R E s).1 then some (eob_token E (loop_head R E s).2)
      else
        match zero_run R E fuel (loop_head R E s).2 with
        | none => none
        | some (ZeroRun.ret s1) => some s1
        | some (ZeroRun.token s1) =>
          match token_tree R E fuel s1 with
          | none => none
          | some t => decode_loop R E fuel (WRITE_COEF_CONTINUE R E t.1 t.2.1 t.2.2)
    else some s

/-- The state after the declarations at the top of `decode_coefs`.  The
locals `band`, `prob` and `v` are not initialised by the code; each is assigned
before it is read, and they start at 0 here. -/
def Input.start (E : Env) (inp : Input σ) : State σ where
  c := 0
  ctx := inp.ctx
  band := 0
  band_translate := 0
  prob := fun _ => 0
  dqv := E.dq 0
  v := 0
  dqcoeff := inp.dqcoeff
  token_cache := inp.token_cache
  coef_counts := inp.coef_counts
  eob_branch_count := inp.eob_branch_count
  r := inp.r
  trace := []

/-- The function `decode_coefs`: the returned `c` and the final state. -/
def decode_coefs (R : Reader σ) (E : Env) (fuel : Nat) (inp : Input σ) :
    Option (Nat × State σ) :=
  (decode_loop R E fuel (inp.start E)).map fun s => (s.c, s)

/-! ## A concrete environment -/

/-- A concrete environment for evaluating the model: a 4x4 transform with the
band table, energy classes, token numbering, extra-bit tables and row count of
the codec, a flat pareto table, the identity scan and dequant pair (3, 5). -/
def sample_env : Env where
  tx_size := 0
  frame_parallel_decoding_mode := false
  coef_probs := fun _ _ _ => 128
  dq := fun i => if i = 0 then 3 else 5
  scan := fun i => i
  nb := fun _ => 0
  get_band_translate := fun _ i => [0, 1, 1, 2, 2, 2, 3, 3, 3, 3, 4, 4, 4, 5, 5, 5].getD i 5
  get_coef_context := fun nb cache c => (1 + cache (nb (2 * c)) + cache (nb (2 * c + 1))) >>> 1
  vp9_pt_energy_class := fun t => [0, 1, 2, 3, 3, 4, 4, 5, 5, 5, 5, 5].getD t 0
  vp9_pareto8_full := fun _ _ => 128
  COEFF_PROB_MODELS := 255
  cat1_ptr := fun i => [159, 0].getD i 0
  cat2_ptr := fun i => [165, 145, 0].getD i 0
  cat3_ptr := fun i => [173, 148, 140, 0].getD i 0
  cat4_ptr := fun i => [176, 155, 140, 135, 0].getD i 0
  cat5_ptr := fun i => [180, 157, 141, 134, 130, 0].getD i 0
  cat6_ptr := fun i =>
    [254, 254, 254, 252, 249, 243, 230, 196, 177, 153, 140, 133, 130, 129, 0].getD i 0
  EOB_MODEL_TOKEN := 3
  ZERO_TOKEN := 0
  ONE_TOKEN := 1
  TWO_TOKEN := 2
  THREE_TOKEN := 3
  FOUR_TOKEN := 4
  CATEGORY1_TOKEN := 5
  CATEGORY2_TOKEN := 6
  CATEGORY3_TOKEN := 7
  CATEGORY4_TOKEN := 8
  CATEGORY5_TOKEN := 9
  CATEGORY6_TOKEN := 10

/-- The sample environment with a 32x32 transform. -/
def sample_env32 : Env := { sample_env with tx_size := 3 }

/-- An input with zeroed buffer, cache and counters, entry context 0 and the
scripted decisions `bits` (false once the list is exhausted). -/
def sample_input (bits : List Bool) : Input Script where
  ctx := 0
  dqcoeff := fun _ => 0
  token_cache := fun _ => 0
  coef_counts := fun _ _ _ => 0
  eob_branch_count := fun _ _ => 0
  r := { bits := fun i => bits.getD i false, pos := 0 }

/-! ## Vocabulary of the statements -/

/-- The log `T'` extends the log `T` by events that all satisfy `ok`. -/
inductive Extends (ok : Event → Prop) (T : List Event) : List Event → Prop where
  | refl : Extends ok T T
  | cons {e : Event} {T' : List Event} : ok e → Extends ok T T' → Extends ok T (e :: T')

/-- The state `s'` differs from `s` at most in the reader, the selected
probability row, the token counters and the log, and the log grew by events
satisfying `ok`. -/
structure Frame (ok : Event → Prop) (s s' : State σ) : Prop where
  c : s'.c = s.c
  ctx : s'.ctx = s.ctx
  band : s'.band = s.band
  band_translate : s'.band_translate = s.band_translate
  dqv : s'.dqv = s.dqv
  v : s'.v = s.v
  dqcoeff : s'.dqcoeff = s.dqcoeff
  token_cache : s'.token_cache = s.token_cache
  eob_branch_count : s'.eob_branch_count = s.eob_branch_count
  trace : Extends ok s.trace s'.trace

/-- Events the token tree can log when it is entered in state `s`. -/
def tree_event (s : State σ) (e : Event) : Prop :=
  (∃ i, e = Event.cat6 i) ∨
  ∃ src b, e = Event.read s.c src b ∧
    (src = Src.coef s.band s.ctx ONE_CONTEXT_NODE ∨
     (∃ node, node < 8 ∧ src = Src.pareto ((s.prob PIVOT_NODE : Int) - 1) node) ∨
     ∃ k i, src = Src.cat k i)

/-- Effect of the token tree entered in state `s` and left in state `s'` with
magnitude `val`. -/
structure TreeFrame (E : Env) (s : State σ) (val : Nat) (s' : State σ) : Prop where
  frame : Frame (tree_event s) s s'
  val_pos : 1 ≤ val
  counts : s'.coef_counts =
    (INCREMENT_COUNT E (if val = 1 then E.ONE_TOKEN else E.TWO_TOKEN) s).coef_counts

/-- What is observed of a run of the token tree: the magnitude and token it
hands to `WRITE_COEF_CONTINUE`, the number of decisions consumed from the
script, the row `prob` points to, and the log. -/
def observe (t : Nat × Nat × State Script) : Nat × Nat × Nat × (Nat → Nat) × List Event :=
  (t.1, t.2.1, t.2.2.r.pos, t.2.2.prob, t.2.2.trace)

/-- The binary number formed by the `k` scripted decisions `bits p`, ...,
`bits (p + k - 1)`, most significant bit first. -/
def msb_value (bits : Nat → Bool) (p : Nat) : Nat → Nat
  | 0 => 0
  | k + 1 => 2 * msb_value bits p k + (bits (p + k)).toNat

/-- The log entries of reading entries `0` to `n - 1` of the category-`k`
extra-bit table at running index `c`, the decisions being `bits p`, ...,
`bits (p + n - 1)`; most recent first. -/
def extra_reads (c k : Nat) (bits : Nat → Bool) (p : Nat) : Nat → List Event
  | 0 => []
  | n + 1 => Event.read c (Src.cat k n) (bits (p + n)) :: extra_reads c k bits p n

/-- The log entries of the reads that lead from the ONE node to the category
nodes: ONE and LOW_VAL both read true. -/
def escalate (s : State Script) : List Event :=
  [Event.read s.c (Src.pareto ((s.prob 2 : Int) - 1) LOW_VAL_CONTEXT_NODE) true,
   Event.read s.c (Src.coef s.band s.ctx ONE_CONTEXT_NODE) true]

/-- The log entries of the category-6 loop over entries `0` to `n - 1`: each
entry is loaded, found nonzero and used for one read; most recent first. -/
def cat6_reads (c : Nat) (bits : Nat → Bool) (p : Nat) : Nat → List Event
  | 0 => []
  | n + 1 => Event.read c (Src.cat 6 n) (bits (p + n)) :: Event.cat6 n :: cat6_reads c bits p n

/-- Whether a log entry is a read of the EOB node. -/
def is_eob_read : Event → Bool
  | Event.read _ (Src.coef _ _ node) _ => node == EOB_CONTEXT_NODE
  | _ => false

/-- The invariant behind C8: logged coefficients lie below the running index,
at their scan position, with a magnitude of at least 1, and every buffer entry
at which no coefficient was logged still has its initial value `d0`. -/
def write_inv (E : Env) (d0 : Nat → Int) (s : State σ) : Prop :=
  (∀ i m tok sg pos x, Event.coef i m tok sg pos x ∈ s.trace →
    i < s.c ∧ pos = E.scan i ∧ 1 ≤ m) ∧
  (∀ pos, (∀ i m tok sg x, Event.coef i m tok sg pos x ∉ s.trace) → s.dqcoeff pos = d0 pos)

/-- Every pareto read in the log `T` uses a row of the table. -/
def pareto_reads_in_bounds (E : Env) (T : List Event) : Prop :=
  ∀ c row node b, Event.read c (Src.pareto row node) b ∈ T →
    0 ≤ row ∧ row < (E.COEFF_PROB_MODELS : Int)

/-- The invariant behind C10: every pareto read in the log uses one of the
eight nodes of the row `prob[PIVOT_NODE] - 1` of some context. -/
def pareto_inv (E : Env) (s : State σ) : Prop :=
  ∀ c row node b, Event.read c (Src.pareto row node) b ∈ s.trace →
    node < 8 ∧ ∃ band ctx, row = (E.coef_probs band ctx PIVOT_NODE : Int) - 1

/-- The sample environment with a third base-node probability of 0. -/
def zero_pivot_env : Env :=
  { sample_env with coef_probs := fun _ _ node => if node = 2 then 0 else 128 }

/-- The sample environment in frame-parallel decoding mode. -/
def sample_env_parallel : Env := { sample_env with frame_parallel_decoding_mode := true }

/-- Scripted decisions: EOB true, ZERO false twice, ZERO true, ONE false, sign
bit set, EOB false. -/
def sample_bits : List Bool := [true, false, false, true, false, true, false]

/-- The state in which the token tree is entered at scan index 0 of the sample
environment (EOB and ZERO have read true), the decisions `bits` lying ahead. -/
def sample_tree_state (bits : List Bool) : State Script :=
  (zero_read scripted
    (loop_head scripted sample_env ((sample_input (true :: true :: bits)).start sample_env)).2).2

/-- Decisions selecting category 6 whose fourteen extra bits have the value
`0b101`. -/
def sample_cat6_bits : List Bool :=
  [true, true, true, true, true,
   false, false, false, false, false, false, false, false, false, false, false,
   true, false, true]

/-- What C19 says of a log: the band table was loaded only at indices below
`max_eob`, every base-node read at running index `c` used the row of band
`band_translate[c]`, and every pareto read at running index `c` used the row
selected by `prob[PIVOT_NODE]` of a row of that band. -/
def band_in_step (E : Env) (T : List Event) : Prop :=
  (∀ i, Event.band i ∈ T → i < max_eob E) ∧
  (∀ c band ctx node b, Event.read c (Src.coef band ctx node) b ∈ T →
    band = E.get_band_translate E.tx_size c) ∧
  (∀ c row node b, Event.read c (Src.pareto row node) b ∈ T →
    ∃ ctx, row = (E.coef_probs (E.get_band_translate E.tx_size c) ctx PIVOT_NODE : Int) - 1)

/-- The band cursor at the top of the outer loop: it points at entry `c`. -/
def band_inv_top (E : Env) (s : State σ) : Prop :=
  s.band_translate = s.c ∧ band_in_step E s.trace

/-- The band cursor inside the zero-run loop: entry `c` has been loaded into
`band` and selects `prob`. -/
def band_inv_zero (E : Env) (s : State σ) : Prop :=
  s.band_translate = s.c + 1 ∧ s.band = E.get_band_translate E.tx_size s.c ∧
  s.prob = E.coef_probs s.band s.ctx ∧ band_in_step E s.trace

/-- The invariant behind C15: ZERO tokens sit at indices below `c`; and when
`scan` is injective below `max_eob`, the buffer entries at scan indices from
`c` on and at the indices of ZERO tokens still hold their initial value `d0`,
and the token cache holds 0 at the positions of ZERO tokens. -/
def zero_inv (E : Env) (d0 : Nat → Int) (s : State σ) : Prop :=
  s.c ≤ max_eob E ∧
  (∀ c, Event.zero c ∈ s.trace → c < s.c) ∧
  ((∀ i j, i < max_eob E → j < max_eob E → E.scan i = E.scan j → i = j) →
    (∀ j, s.c ≤ j → j < max_eob E → s.dqcoeff (E.scan j) = d0 (E.scan j)) ∧
    (∀ c, Event.zero c ∈ s.trace →
      s.dqcoeff (E.scan c) = d0 (E.scan c) ∧ s.token_cache (E.scan c) = 0))

/-- Decisions for a block with a ZERO token at index 0, a token of magnitude 1
at index 1 and an EOB token. -/
def zero_then_one_bits : List Bool := [true, false, true, false, false, false]

/-- The sample input with the coefficient buffer holding 7 everywhere. -/
def sample_input_dirty (bits : List Bool) : Input Script :=
  { sample_input bits with dqcoeff := fun _ => 7 }

/-- Whether a log entry is a boolean read of the category-6 loop. -/
def is_cat6_read : Event → Bool
  | Event.read _ (Src.cat k _) _ => decide (k = 6)
  | _ => false

/-- Number of boolean reads of the category-6 loop in the log `T`. -/
def cat6_read_count (T : List Event) : Nat := T.countP is_cat6_read

/-- The sample environment with a category-6 table of length 15 whose last
entry, the terminator, is 1 instead of 0; the two cells that follow the table in
memory hold 77 and 0. -/
def unterminated_env : Env :=
  { sample_env with
    cat6_ptr := fun i =>
      [254, 254, 254, 252, 249, 243, 230, 196, 177, 153, 140, 133, 130, 129, 1, 77, 0].getD i 0 }

/-- Decisions that reach category 6 at scan index 0 and supply extra bits. -/
def cat6_overrun_bits : List Bool :=
  [true, true, true, true, true, true, true,
   true, false, true, false, true, false, true, false, true, false, true, false, true, false,
   true, true, false, false]

/-- Whether a log entry is a boolean read (`vp9_read` or `vp9_read_bit`). -/
def is_read : Event → Bool
  | Event.read _ _ _ => true
  | _ => false

/-- Number of boolean reads in the log `T`. -/
def read_count (T : List Event) : Nat := T.countP is_read

/-- The running index of a log entry that reads node `node` of a base
probability row `coef_probs[band][ctx]`. -/
def node_index (node : Nat) : Event → Option Nat
  | Event.read c (Src.coef _ _ n) _ => if n = node then some c else none
  | _ => none

/-- The running indices at which node `node` of a base probability row was
read, most recent first. -/
def node_reads (node : Nat) (T : List Event) : List Nat := T.filterMap (node_index node)

/-- The sample environment with an empty category-6 table: its first entry is
the zero terminator. -/
def short_cat6_env : Env := { sample_env with cat6_ptr := fun _ => 0 }

/-- Decisions for sixteen category-5 tokens in a row: per token EOB true, ZERO
true, ONE, LOW_VAL, HIGH_LOW, CAT_THREEFOUR true, CAT_FIVE false, five extra
bits and the sign. -/
def cat5_block_bits : List Bool :=
  (List.replicate 16 [true, true, true, true, true, true, false,
    false, false, false, false, false, false]).flatten

/-- The invariant behind C16 at the top of the outer loop, with `M` the bound
on the reads per unit of progress of `c`. -/
def progress_top (E : Env) (M : Nat) (s : State σ) : Prop :=
  s.c ≤ max_eob E ∧ read_count s.trace ≤ s.c * M ∧
  (∀ i ∈ node_reads EOB_CONTEXT_NODE s.trace, i < s.c) ∧
  (∀ i ∈ node_reads ZERO_CONTEXT_NODE s.trace, i < s.c) ∧
  (node_reads EOB_CONTEXT_NODE s.trace).Pairwise (fun a b => b < a) ∧
  (node_reads ZERO_CONTEXT_NODE s.trace).Pairwise (fun a b => b < a) ∧
  (node_reads EOB_CONTEXT_NODE s.trace).length ≤ s.c

/-- The invariant behind C16 before each read of the ZERO node. -/
def progress_zero (M : Nat) (s : State σ) : Prop :=
  read_count s.trace ≤ s.c * M + 1 ∧
  (∀ i ∈ node_reads EOB_CONTEXT_NODE s.trace, i ≤ s.c) ∧
  (∀ i ∈ node_reads ZERO_CONTEXT_NODE s.trace, i < s.c) ∧
  (node_reads EOB_CONTEXT_NODE s.trace).Pairwise (fun a b => b < a) ∧
  (node_reads ZERO_CONTEXT_NODE s.trace).Pairwise (fun a b => b < a) ∧
  (node_reads EOB_CONTEXT_NODE s.trace).length ≤ s.c + 1

/-- What C16 states of the log of a finished decode: the running index strictly
increases from one read of the EOB node to the next and from one read of the
ZERO node to the next, the EOB node is read at most `max_eob` times, and there
are at most `max_eob * M` boolean reads. -/
def progress_final (E : Env) (M : Nat) (T : List Event) : Prop :=
  read_count T ≤ max_eob E * M ∧
  (node_reads EOB_CONTEXT_NODE T).Pairwise (fun a b => b < a) ∧
  (node_reads ZERO_CONTEXT_NODE T).Pairwise (fun a b => b < a) ∧
  (node_reads EOB_CONTEXT_NODE T).length ≤ max_eob E

/-- The counters after the increments `++a[k.1][k.2.1][k.2.2]` for the keys `k`
of the list, the last key of the list first. -/
def count_keys (keys : List (Nat × Nat × Nat)) (a : Nat → Nat → Nat → Nat) :
    Nat → Nat → Nat → Nat :=
  keys.foldr (fun k b => incr3 b k.1 k.2.1 k.2.2) a

/-- Whether a log entry records a resolved symbol: a ZERO token, a nonzero token
or the EOB token. -/
def is_token : Event → Bool
  | Event.zero _ => true
  | Event.coef _ _ _ _ _ _ => true
  | Event.eob _ => true
  | _ => false

/-- The resolved symbols of the log `T`, most recent first. -/
def tokens (T : List Event) : List Event := T.filter is_token

/-- Whether the log ends with the EOB token. -/
def ends_on_eob : List Event → Bool
  | Event.eob _ :: _ => true
  | _ => false

/-- The counter `k = (band, ctx, token)` that belongs to the resolved symbol
`e` in the log `T`: the band and context bucket are those of the base row read
at the symbol's scan index, and the token is `ZERO_TOKEN` for a ZERO token,
`ONE_TOKEN` for magnitude 1, `TWO_TOKEN` for every larger magnitude and
`EOB_MODEL_TOKEN` for the EOB token. -/
def counted (E : Env) (T : List Event) (e : Event) (k : Nat × Nat × Nat) : Prop :=
  match e with
  | Event.zero c => k.2.2 = E.ZERO_TOKEN ∧
      Event.read c (Src.coef k.1 k.2.1 ZERO_CONTEXT_NODE) false ∈ T
  | Event.coef c val _ _ _ _ => k.2.2 = (if val = 1 then E.ONE_TOKEN else E.TWO_TOKEN) ∧
      Event.read c (Src.coef k.1 k.2.1 ZERO_CONTEXT_NODE) true ∈ T
  | Event.eob c => k.2.2 = E.EOB_MODEL_TOKEN ∧
      Event.read c (Src.coef k.1 k.2.1 EOB_CONTEXT_NODE) false ∈ T
  | _ => False

/-- The sum of the counters with index in `K`. -/
def total (K : Finset (Nat × Nat × Nat)) (a : Nat → Nat → Nat → Nat) : Nat :=
  K.sum fun k => a k.1 k.2.1 k.2.2

/-- The invariant behind C17: one counter per resolved symbol so far. -/
def count_inv (E : Env) (a0 : Nat → Nat → Nat → Nat) (s : State σ) : Prop :=
  s.c ≤ max_eob E ∧ ends_on_eob s.trace = false ∧ (tokens s.trace).length = s.c ∧
  ∃ keys, List.Forall₂ (counted E s.trace) (tokens s.trace) keys ∧
    s.coef_counts = count_keys keys a0

/-- What C17 states of the final state: the resolved symbols are `eob` tokens,
and the EOB token when the decode ends on it and not by reaching `max_eob`;
each has its own counter, and the counters are the initial ones after one
increment per symbol. -/
def count_inv_final (E : Env) (a0 : Nat → Nat → Nat → Nat) (s : State σ) : Prop :=
  s.c ≤ max_eob E ∧ (ends_on_eob s.trace = false → s.c = max_eob E) ∧
  (tokens s.trace).length = s.c + (if ends_on_eob s.trace then 1 else 0) ∧
  ∃ keys, List.Forall₂ (counted E s.trace) (tokens s.trace) keys ∧
    s.coef_counts = count_keys keys a0

/-- The environment `E` with the frame-parallel flag set to `b`. -/
def with_flag (E : Env) (b : Bool) : Env := { E with frame_parallel_decoding_mode := b }

/-- The state `s` with other token counters, eob-branch counters and
coefficient buffer. -/
def with_aux (a : Nat → Nat → Nat → Nat) (e : Nat → Nat → Nat) (d : Nat → Int)
    (s : State σ) : State σ :=
  { s with coef_counts := a, eob_branch_count := e, dqcoeff := d }

/-- The states `s` and `s'` agree on everything but the token counters, the
eob-branch counters and the coefficient buffer. -/
def same_core (s s' : State σ) : Prop := ∃ a e d, s' = with_aux a e d s

/-- The buffer `d` after the stores logged in `T` (most recent first). -/
def replay : List Event → (Nat → Int) → Nat → Int
  | [], d => d
  | Event.coef _ _ _ _ pos x :: T, d => Function.update (replay T d) pos x
  | Event.read _ _ _ :: T, d => replay T d
  | Event.band _ :: T, d => replay T d
  | Event.context _ :: T, d => replay T d
  | Event.cat6 _ :: T, d => replay T d
  | Event.eob _ :: T, d => replay T d
  | Event.zero _ :: T, d => replay T d

/-- The value most recently stored at position `p` according to the log `T`. -/
def last_write : List Event → Nat → Option Int
  | [], _ => none
  | Event.coef _ _ _ _ pos x :: T, p => if p = pos then some x else last_write T p
  | Event.read _ _ _ :: T, p => last_write T p
  | Event.band _ :: T, p => last_write T p
  | Event.context _ :: T, p => last_write T p
  | Event.cat6 _ :: T, p => last_write T p
  | Event.eob _ :: T, p => last_write T p
  | Event.zero _ :: T, p => last_write T p

/-- Claim C20's numbering of the paths of the magnitude tree, read off the
scripted decisions `bits p, bits (p + 1), ...`: 0 to 3 for ONE, TWO, THREE,
FOUR and 4 to 9 for the categories 1 to 6. -/
def spec_leaf (bits : Nat → Bool) (p : Nat) : Nat :=
  if !bits p then 0
  else if !bits (p + 1) then
    (if !bits (p + 2) then 1 else if !bits (p + 3) then 2 else 3)
  else if !bits (p + 2) then (if !bits (p + 3) then 4 else 5)
  else if !bits (p + 3) then (if !bits (p + 4) then 6 else 7)
  else if !bits (p + 4) then 8 else 9

/-- The smallest magnitude of each path as claim C20 lists them: 1, 2, 3, 4, 5,
7, 11, 19, 35, 67. -/
def spec_min : Nat → Nat
  | 0 => 1
  | 1 => 2
  | 2 => 3
  | 3 => 4
  | 4 => 5
  | 5 => 7
  | 6 => 11
  | 7 => 19
  | 8 => 35
  | _ => 67

/-- The node decisions that select each path. -/
def spec_ctrl : Nat → List Bool
  | 0 => [false]
  | 1 => [true, false, false]
  | 2 => [true, false, true, false]
  | 3 => [true, false, true, true]
  | 4 => [true, true, false, false]
  | 5 => [true, true, false, true]
  | 6 => [true, true, true, false, false]
  | 7 => [true, true, true, false, true]
  | 8 => [true, true, true, true, false]
  | _ => [true, true, true, true, true]

/-- The number of extra bits of each path, `n6` for category 6. -/
def spec_extra (n6 : Nat) : Nat → Nat
  | 0 => 0
  | 1 => 0
  | 2 => 0
  | 3 => 0
  | 4 => 1
  | 5 => 2
  | 6 => 3
  | 7 => 4
  | 8 => 5
  | _ => n6

/-- The prefix code of claim C20: the magnitude decoded from the scripted
decisions from position `p` on, and the number of decisions it uses. -/
def spec_code (n6 : Nat) (bits : Nat → Bool) (p : Nat) : Nat × Nat :=
  (spec_min (spec_leaf bits p) +
     msb_value bits (p + (spec_ctrl (spec_leaf bits p)).length)
       (spec_extra n6 (spec_leaf bits p)),
   (spec_ctrl (spec_leaf bits p)).length + spec_extra n6 (spec_leaf bits p))

/-- What the magnitude tree of the code yields on a script: the magnitude handed
to `WRITE_COEF_CONTINUE` and the number of decisions consumed. -/
def tree_code (E : Env) (fuel : Nat) (s : State Script) : Option (Nat × Nat) :=
  (token_tree scripted E fuel s).map (fun t => (t.1, t.2.2.r.pos - s.r.pos))

/-- A state whose reader plays back `bits` from position 0; the other fields
are zero. -/
def script_state (bits : Nat → Bool) : State Script where
  c := 0
  ctx := 0
  band := 0
  band_translate := 0
  prob := fun _ => 0
  dqv := 0
  v := 0
  dqcoeff := fun _ => 0
  token_cache := fun _ => 0
  coef_counts := fun _ _ _ => 0
  eob_branch_count := fun _ _ => 0
  r := { bits := bits, pos := 0 }
  trace := []

/-- The stream whose first decisions are `ctrl` and whose next `k` decisions
are the `k` low bits of `x`, most significant first. -/
def code_stream (ctrl : List Bool) (k x : Nat) : Nat → Bool :=
  fun j => if j < ctrl.length then ctrl.getD j false else x.testBit (ctrl.length + k - 1 - j)

theorem max_eob_pos (E : Env) : 0 < max_eob E := by
  unfold max_eob
  rw [Nat.shiftLeft_eq]
  positivity

theorem cat6_loop_some (R : Reader σ) (E : Env) (n6 : Nat) (h6 : E.cat6_ptr n6 = 0) :
    ∀ (fuel i val : Nat) (s : State σ), i ≤ n6 → n6 + 1 ≤ fuel + i →
      ∃ out, cat6_loop R E fuel i val s = some out := by
  intro fuel
  induction fuel with
  | zero => intro i val s hi hf; omega
  | succ fuel ih =>
    intro i val s hi hf
    unfold cat6_loop
    by_cases hz : E.cat6_ptr i = 0
    · simp [hz]
    · have hne : i ≠ n6 := fun h => hz (h ▸ h6)
      simp only [ne_eq, hz, not_false_eq_true, if_true]
      exact ih _ _ _ (by omega) (by omega)

theorem category_some (R : Reader σ) (E : Env) (n6 : Nat) (h6 : E.cat6_ptr n6 = 0)
    (fuel : Nat) (hf : n6 + 1 ≤ fuel) (row : Int) (s : State σ) :
    ∃ t, category R E fuel row s = some t := by
  unfold category
  obtain ⟨out, hout⟩ := cat6_loop_some R E n6 h6 fuel 0 0
    (rd R (Src.pareto row CAT_FIVE_CONTEXT_NODE)
      ((rd R (Src.pareto row CAT_THREEFOUR_CONTEXT_NODE)
        ((rd R (Src.pareto row HIGH_LOW_CONTEXT_NODE) (s.prob HIGH_LOW_CONTEXT_NODE) s).2.prob
          CAT_THREEFOUR_CONTEXT_NODE)
        (rd R (Src.pareto row HIGH_LOW_CONTEXT_NODE) (s.prob HIGH_LOW_CONTEXT_NODE) s).2).2.prob
        CAT_FIVE_CONTEXT_NODE)
      (rd R (Src.pareto row CAT_THREEFOUR_CONTEXT_NODE)
        ((rd R (Src.pareto row HIGH_LOW_CONTEXT_NODE) (s.prob HIGH_LOW_CONTEXT_NODE) s).2.prob
          CAT_THREEFOUR_CONTEXT_NODE)
        (rd R (Src.pareto row HIGH_LOW_CONTEXT_NODE) (s.prob HIGH_LOW_CONTEXT_NODE) s).2).2).2
    (Nat.zero_le _) (by omega)
  simp only []
  split_ifs <;> simp [hout]

theorem token_tree_some (R : Reader σ) (E : Env) (n6 : Nat) (h6 : E.cat6_ptr n6 = 0)
    (fuel : Nat) (hf : n6 + 1 ≤ fuel) (s : State σ) :
    ∃ t, token_tree R E fuel s = some t := by
  unfold token_tree
  simp only []
  split_ifs
  · exact ⟨_, rfl⟩
  · exact ⟨_, rfl⟩
  · exact ⟨_, rfl⟩
  · exact ⟨_, rfl⟩
  · exact category_some R E n6 h6 fuel hf _ _

/-! ## Frame lemmas -/

theorem Extends.comp {ok : Event → Prop} {T T' T'' : List Event}
    (h : Extends ok T T') (h' : Extends ok T' T'') : Extends ok T T'' := by
  induction h' with
  | refl => exact h
  | cons he _ ih => exact Extends.cons he ih

theorem Extends.mono {ok ok' : Event → Prop} {T T' : List Event}
    (h : Extends ok T T') (himp : ∀ e, ok e → ok' e) : Extends ok' T T' := by
  induction h with
  | refl => exact Extends.refl
  | cons he _ ih => exact Extends.cons (himp _ he) ih

theorem Extends.forall_mem {ok Q : Event → Prop} {T T' : List Event}
    (h : Extends ok T T') (himp : ∀ e, ok e → Q e) (hT : ∀ e ∈ T, Q e) :
    ∀ e ∈ T', Q e := by
  induction h with
  | refl => exact hT
  | cons he _ ih =>
    intro e hmem
    rcases List.mem_cons.mp hmem with rfl | hmem
    · exact himp _ he
    · exact ih e hmem

theorem Extends.exists_append {ok : Event → Prop} {T T' : List Event}
    (h : Extends ok T T') : ∃ evs, T' = evs ++ T ∧ ∀ e ∈ evs, ok e := by
  induction h with
  | refl => exact ⟨[], rfl, by simp⟩
  | cons he _ ih =>
    obtain ⟨evs, rfl, hall⟩ := ih
    exact ⟨_ :: evs, rfl, by
      intro e hmem
      rcases List.mem_cons.mp hmem with rfl | hmem
      · exact he
      · exact hall e hmem⟩

theorem cat6_loop_frame (R : Reader σ) (E : Env) (ok : Event → Prop) (c : Nat)
    (h6 : ∀ i, ok (Event.cat6 i)) (hr : ∀ i b, ok (Event.read c (Src.cat 6 i) b)) :
    ∀ (fuel i val : Nat) (s : State σ) (out : Nat × State σ), s.c = c →
      cat6_loop R E fuel i val s = some out →
      Frame ok s out.2 ∧ out.2.coef_counts = s.coef_counts := by
  intro fuel
  induction fuel with
  | zero => intro i val s out _ h; simp [cat6_loop] at h
  | succ fuel ih =>
    intro i val s out hc h
    unfold cat6_loop at h
    by_cases hz : E.cat6_ptr i = 0
    · simp only [ne_eq, hz, not_true_eq_false, if_false, Option.some.injEq] at h
      subst h
      exact ⟨⟨rfl, rfl, rfl, rfl, rfl, rfl, rfl, rfl, rfl, Extends.cons (h6 _) Extends.refl⟩, rfl⟩
    · simp only [ne_eq, hz, not_false_eq_true, if_true] at h
      obtain ⟨hf, hcc⟩ := ih _ _ _ out (by simpa [rd] using hc) h
      refine ⟨⟨hf.c, hf.ctx, hf.band, hf.band_translate, hf.dqv, hf.v, hf.dqcoeff,
        hf.token_cache, hf.eob_branch_count, ?_⟩, hcc⟩
      refine Extends.comp ?_ hf.trace
      exact Extends.cons (by simpa [rd, hc] using hr i _) (Extends.cons (h6 _) Extends.refl)

theorem tree_event_cat6 (s : State σ) (i : Nat) : tree_event s (Event.cat6 i) :=
  Or.inl ⟨i, rfl⟩

theorem tree_event_cat (s : State σ) (k i : Nat) (b : Bool) :
    tree_event s (Event.read s.c (Src.cat k i) b) :=
  Or.inr ⟨_, _, rfl, Or.inr (Or.inr ⟨k, i, rfl⟩)⟩

theorem tree_event_one (s : State σ) (b : Bool) :
    tree_event s (Event.read s.c (Src.coef s.band s.ctx ONE_CONTEXT_NODE) b) :=
  Or.inr ⟨_, _, rfl, Or.inl rfl⟩

theorem tree_event_pareto (s : State σ) (node : Nat) (hn : node < 8) (b : Bool) :
    tree_event s (Event.read s.c (Src.pareto ((s.prob PIVOT_NODE : Int) - 1) node) b) :=
  Or.inr ⟨_, _, rfl, Or.inr (Or.inl ⟨node, hn, rfl⟩)⟩

section fields
variable (E : Env) (tok : Nat) (s : State σ)

@[simp]
theorem INCREMENT_COUNT_c : (INCREMENT_COUNT E tok s).c = s.c := by
  unfold INCREMENT_COUNT; split <;> rfl
@[simp]
theorem INCREMENT_COUNT_ctx : (INCREMENT_COUNT E tok s).ctx = s.ctx := by
  unfold INCREMENT_COUNT; split <;> rfl
@[simp]
theorem INCREMENT_COUNT_band : (INCREMENT_COUNT E tok s).band = s.band := by
  unfold INCREMENT_COUNT; split <;> rfl
@[simp]
theorem INCREMENT_COUNT_band_translate :
    (INCREMENT_COUNT E tok s).band_translate = s.band_translate := by
  unfold INCREMENT_COUNT; split <;> rfl
@[simp]
theorem INCREMENT_COUNT_prob : (INCREMENT_COUNT E tok s).prob = s.prob := by
  unfold INCREMENT_COUNT; split <;> rfl
@[simp]
theorem INCREMENT_COUNT_dqv : (INCREMENT_COUNT E tok s).dqv = s.dqv := by
  unfold INCREMENT_COUNT; split <;> rfl
@[simp]
theorem INCREMENT_COUNT_v : (INCREMENT_COUNT E tok s).v = s.v := by
  unfold INCREMENT_COUNT; split <;> rfl
@[simp]
theorem INCREMENT_COUNT_dqcoeff : (INCREMENT_COUNT E tok s).dqcoeff = s.dqcoeff := by
  unfold INCREMENT_COUNT; split <;> rfl
@[simp]
theorem INCREMENT_COUNT_token_cache :
    (INCREMENT_COUNT E tok s).token_cache = s.token_cache := by
  unfold INCREMENT_COUNT; split <;> rfl
@[simp]
theorem INCREMENT_COUNT_eob_branch_count :
    (INCREMENT_COUNT E tok s).eob_branch_count = s.eob_branch_count := by
  unfold INCREMENT_COUNT; split <;> rfl
@[simp]
theorem INCREMENT_COUNT_r : (INCREMENT_COUNT E tok s).r = s.r := by
  unfold INCREMENT_COUNT; split <;> rfl
@[simp]
theorem INCREMENT_COUNT_trace : (INCREMENT_COUNT E tok s).trace = s.trace := by
  unfold INCREMENT_COUNT; split <;> rfl

@[simp]
theorem count_eob_branch_c : (count_eob_branch E s).c = s.c := by
  unfold count_eob_branch; split <;> rfl
@[simp]
theorem count_eob_branch_ctx : (count_eob_branch E s).ctx = s.ctx := by
  unfold count_eob_branch; split <;> rfl
@[simp]
theorem count_eob_branch_band : (count_eob_branch E s).band = s.band := by
  unfold count_eob_branch; split <;> rfl
@[simp]
theorem count_eob_branch_band_translate :
    (count_eob_branch E s).band_translate = s.band_translate := by
  unfold count_eob_branch; split <;> rfl
@[simp]
theorem count_eob_branch_prob : (count_eob_branch E s).prob = s.prob := by
  unfold count_eob_branch; split <;> rfl
@[simp]
theorem count_eob_branch_dqv : (count_eob_branch E s).dqv = s.dqv := by
  unfold count_eob_branch; split <;> rfl
@[simp]
theorem count_eob_branch_v : (count_eob_branch E s).v = s.v := by
  unfold count_eob_branch; split <;> rfl
@[simp]
theorem count_eob_branch_dqcoeff : (count_eob_branch E s).dqcoeff = s.dqcoeff := by
  unfold count_eob_branch; split <;> rfl
@[simp]
theorem count_eob_branch_token_cache :
    (count_eob_branch E s).token_cache = s.token_cache := by
  unfold count_eob_branch; split <;> rfl
@[simp]
theorem count_eob_branch_coef_counts :
    (count_eob_branch E s).coef_counts = s.coef_counts := by
  unfold count_eob_branch; split <;> rfl
@[simp]
theorem count_eob_branch_r : (count_eob_branch E s).r = s.r := by
  unfold count_eob_branch; split <;> rfl
@[simp]
theorem count_eob_branch_trace : (count_eob_branch E s).trace = s.trace := by
  unfold count_eob_branch; split <;> rfl

end fields

theorem Frame.refl (ok : Event → Prop) (s : State σ) : Frame ok s s :=
  ⟨rfl, rfl, rfl, rfl, rfl, rfl, rfl, rfl, rfl, Extends.refl⟩

theorem Frame.trans {ok : Event → Prop} {s s1 s2 : State σ} (h1 : Frame ok s s1)
    (h2 : Frame ok s1 s2) : Frame ok s s2 :=
  ⟨h2.c.trans h1.c, h2.ctx.trans h1.ctx, h2.band.trans h1.band,
    h2.band_translate.trans h1.band_translate, h2.dqv.trans h1.dqv, h2.v.trans h1.v,
    h2.dqcoeff.trans h1.dqcoeff, h2.token_cache.trans h1.token_cache,
    h2.eob_branch_count.trans h1.eob_branch_count, h1.trace.comp h2.trace⟩

theorem Frame.read {ok : Event → Prop} {s x : State σ} (R : Reader σ) (src : Src) (p : Nat)
    (hx : Frame ok s x) (hok : ∀ b, ok (Event.read s.c src b)) :
    Frame ok s (rd R src p x).2 :=
  ⟨hx.c, hx.ctx, hx.band, hx.band_translate, hx.dqv, hx.v, hx.dqcoeff, hx.token_cache,
    hx.eob_branch_count, Extends.cons (by rw [hx.c]; exact hok _) hx.trace⟩

theorem Frame.adjust {ok : Event → Prop} {s : State σ} {x : Nat × State σ} (R : Reader σ)
    (k i p n : Nat) (hx : Frame ok s x.2) (hok : ∀ b, ok (Event.read s.c (Src.cat k i) b)) :
    Frame ok s (ADJUST_COEF R k i p n x).2 :=
  Frame.read R _ _ hx hok

theorem Frame.increment {ok : Event → Prop} {s x : State σ} (E : Env) (tok : Nat)
    (hx : Frame ok s x) : Frame ok s (INCREMENT_COUNT E tok x) := by
  unfold INCREMENT_COUNT
  split
  · exact hx
  · exact ⟨hx.c, hx.ctx, hx.band, hx.band_translate, hx.dqv, hx.v, hx.dqcoeff,
      hx.token_cache, hx.eob_branch_count, hx.trace⟩

theorem Frame.with_prob {ok : Event → Prop} {s x : State σ} (q : Nat → Nat)
    (hx : Frame ok s x) : Frame ok s { x with prob := q } :=
  ⟨hx.c, hx.ctx, hx.band, hx.band_translate, hx.dqv, hx.v, hx.dqcoeff, hx.token_cache,
    hx.eob_branch_count, hx.trace⟩

@[simp]
theorem rd_coef_counts (R : Reader σ) (src : Src) (p : Nat) (s : State σ) :
    (rd R src p s).2.coef_counts = s.coef_counts := rfl

@[simp]
theorem rd_prob (R : Reader σ) (src : Src) (p : Nat) (s : State σ) :
    (rd R src p s).2.prob = s.prob := rfl

@[simp]
theorem rd_c (R : Reader σ) (src : Src) (p : Nat) (s : State σ) :
    (rd R src p s).2.c = s.c := rfl

@[simp]
theorem ADJUST_COEF_coef_counts (R : Reader σ) (k i p n : Nat) (x : Nat × State σ) :
    (ADJUST_COEF R k i p n x).2.coef_counts = x.2.coef_counts := rfl

theorem ADJUST_COEF_le (R : Reader σ) (k i p n : Nat) (x : Nat × State σ) {m : Nat}
    (h : m ≤ x.1) : m ≤ (ADJUST_COEF R k i p n x).1 :=
  le_trans h (Nat.le_add_right _ _)

theorem category_frame (R : Reader σ) (E : Env) (ok : Event → Prop) (row : Int)
    (fuel : Nat) (s : State σ) (t : Nat × Nat × State σ)
    (h6 : ∀ i, ok (Event.cat6 i)) (hcat : ∀ k i b, ok (Event.read s.c (Src.cat k i) b))
    (hp : ∀ node, node < 8 → ∀ b, ok (Event.read s.c (Src.pareto row node) b))
    (h : category R E fuel row s = some t) :
    Frame ok s t.2.2 ∧ t.2.2.coef_counts = s.coef_counts ∧ 5 ≤ t.1 := by
  unfold category at h
  lift_lets at h
  extract_lets hl c1 a1 a2 c34 c3 a3 a4 c5 a5 at h
  have fhl : Frame ok s hl.2 := Frame.read R _ _ (Frame.refl ok s) (hp _ (by decide))
  have fc1 : Frame ok s c1.2 := Frame.read R _ _ fhl (hp _ (by decide))
  have fc34 : Frame ok s c34.2 := Frame.read R _ _ fhl (hp _ (by decide))
  have fc3 : Frame ok s c3.2 := Frame.read R _ _ fc34 (hp _ (by decide))
  have fc5 : Frame ok s c5.2 := Frame.read R _ _ fc34 (hp _ (by decide))
  have fa1 : Frame ok s a1.2 := Frame.adjust R 1 0 _ 0 fc1 (hcat _ _)
  have fa2 : Frame ok s a2.2 :=
    Frame.adjust R 2 1 _ 0 (Frame.adjust R 2 0 _ 1 fc1 (hcat _ _)) (hcat _ _)
  have fa3 : Frame ok s a3.2 :=
    Frame.adjust R 3 2 _ 0 (Frame.adjust R 3 1 _ 1 (Frame.adjust R 3 0 _ 2 fc3 (hcat _ _))
      (hcat _ _)) (hcat _ _)
  have fa4 : Frame ok s a4.2 :=
    Frame.adjust R 4 3 _ 0 (Frame.adjust R 4 2 _ 1 (Frame.adjust R 4 1 _ 2
      (Frame.adjust R 4 0 _ 3 fc3 (hcat _ _)) (hcat _ _)) (hcat _ _)) (hcat _ _)
  have fa5 : Frame ok s a5.2 :=
    Frame.adjust R 5 4 _ 0 (Frame.adjust R 5 3 _ 1 (Frame.adjust R 5 2 _ 2
      (Frame.adjust R 5 1 _ 3 (Frame.adjust R 5 0 _ 4 fc5 (hcat _ _)) (hcat _ _))
      (hcat _ _)) (hcat _ _)) (hcat _ _)
  have v1 : 5 ≤ a1.1 := ADJUST_COEF_le R 1 0 _ 0 _ (by decide : 5 ≤ 5)
  have v2 : 5 ≤ a2.1 :=
    ADJUST_COEF_le R 2 1 _ 0 _ (ADJUST_COEF_le R 2 0 _ 1 _ (by decide : 5 ≤ 7))
  have v3 : 5 ≤ a3.1 :=
    ADJUST_COEF_le R 3 2 _ 0 _ (ADJUST_COEF_le R 3 1 _ 1 _
      (ADJUST_COEF_le R 3 0 _ 2 _ (by decide : 5 ≤ 11)))
  have v4 : 5 ≤ a4.1 :=
    ADJUST_COEF_le R 4 3 _ 0 _ (ADJUST_COEF_le R 4 2 _ 1 _ (ADJUST_COEF_le R 4 1 _ 2 _
      (ADJUST_COEF_le R 4 0 _ 3 _ (by decide : 5 ≤ 19))))
  have v5 : 5 ≤ a5.1 :=
    ADJUST_COEF_le R 5 4 _ 0 _ (ADJUST_COEF_le R 5 3 _ 1 _ (ADJUST_COEF_le R 5 2 _ 2 _
      (ADJUST_COEF_le R 5 1 _ 3 _ (ADJUST_COEF_le R 5 0 _ 4 _ (by decide : 5 ≤ 35)))))
  have k1 : c1.2.coef_counts = s.coef_counts := by
    simp only [c1, hl, rd_coef_counts]
  have k3 : c3.2.coef_counts = s.coef_counts := by
    simp only [c3, c34, hl, rd_coef_counts]
  have k5 : c5.2.coef_counts = s.coef_counts := by
    simp only [c5, c34, hl, rd_coef_counts]
  split_ifs at h
  · cases h
    exact ⟨fa1, by simp only [a1, ADJUST_COEF_coef_counts, k1], v1⟩
  · cases h
    exact ⟨fa2, by simp only [a2, ADJUST_COEF_coef_counts, k1], v2⟩
  · cases h
    exact ⟨fa3, by simp only [a3, ADJUST_COEF_coef_counts, k3], v3⟩
  · cases h
    exact ⟨fa4, by simp only [a4, ADJUST_COEF_coef_counts, k3], v4⟩
  · cases h
    exact ⟨fa5, by simp only [a5, ADJUST_COEF_coef_counts, k5], v5⟩
  · split at h
    · cases h
    · rename_i out h6l
      cases h
      obtain ⟨hf, hcc⟩ := cat6_loop_frame R E ok s.c h6 (hcat 6) fuel 0 0 _ out fc5.c h6l
      exact ⟨fc5.trans hf, hcc.trans k5, le_trans (by decide) (Nat.le_add_left _ _)⟩

theorem token_tree_frame (R : Reader σ) (E : Env) (fuel : Nat) (s : State σ)
    (t : Nat × Nat × State σ) (h : token_tree R E fuel s = some t) :
    TreeFrame E s t.1 t.2.2 := by
  unfold token_tree at h
  lift_lets at h
  extract_lets one s1 row s2 low two three at h
  have fone : Frame (tree_event s) s one.2 :=
    Frame.read R _ _ (Frame.refl _ s) (tree_event_one s)
  have fs2 : Frame (tree_event s) s s2 := Frame.with_prob _ (Frame.increment E _ fone)
  have hrow : row = (s.prob PIVOT_NODE : Int) - 1 := by
    simp only [row, s1, one, INCREMENT_COUNT_prob, rd_prob]
  have hpar : ∀ node, node < 8 → ∀ b,
      tree_event s (Event.read s.c (Src.pareto row node) b) := by
    intro node hn b
    rw [hrow]
    exact tree_event_pareto s node hn b
  have flow : Frame (tree_event s) s low.2 := Frame.read R _ _ fs2 (hpar _ (by decide))
  have ftwo : Frame (tree_event s) s two.2 := Frame.read R _ _ flow (hpar _ (by decide))
  have fthree : Frame (tree_event s) s three.2 := Frame.read R _ _ ftwo (hpar _ (by decide))
  have hcc2 : s2.coef_counts = (INCREMENT_COUNT E E.TWO_TOKEN s).coef_counts := by
    simp only [s2, s1, one, INCREMENT_COUNT, rd]
    split <;> rfl
  split_ifs at h
  · cases h
    refine ⟨Frame.increment E _ fone, le_refl _, ?_⟩
    show (INCREMENT_COUNT E E.ONE_TOKEN one.2).coef_counts =
      (INCREMENT_COUNT E (if 1 = 1 then E.ONE_TOKEN else E.TWO_TOKEN) s).coef_counts
    simp only [one, INCREMENT_COUNT, rd, if_true]
    split <;> rfl
  · cases h
    exact ⟨ftwo, (by decide : 1 ≤ 2), hcc2⟩
  · cases h
    exact ⟨fthree, (by decide : 1 ≤ 3), hcc2⟩
  · cases h
    exact ⟨fthree, (by decide : 1 ≤ 4), hcc2⟩
  · obtain ⟨hf, hcc, hval⟩ := category_frame R E (tree_event s) row fuel low.2 t
      (tree_event_cat6 s) (fun k i b => by rw [flow.c]; exact tree_event_cat s k i b)
      (fun node hn b => by rw [flow.c]; exact hpar node hn b) h
    refine ⟨flow.trans hf, by omega, ?_⟩
    rw [hcc, if_neg (by omega)]
    exact hcc2

/-! ## Invariant rule and termination of the loops -/

@[simp]
theorem loop_head_c (R : Reader σ) (E : Env) (s : State σ) :
    (loop_head R E s).2.c = s.c := by
  simp [loop_head, rd, next_band]

@[simp]
theorem zero_read_c (R : Reader σ) (s : State σ) : (zero_read R s).2.c = s.c := rfl

@[simp]
theorem zero_token_c (E : Env) (s : State σ) : (zero_token E s).c = s.c + 1 := rfl

@[simp]
theorem zero_next_c (E : Env) (s : State σ) : (zero_next E s).c = s.c := rfl

@[simp]
theorem WRITE_COEF_CONTINUE_c (R : Reader σ) (E : Env) (val token : Nat)
    (s : State σ) : (WRITE_COEF_CONTINUE R E val token s).c = s.c + 1 := rfl

/-- Invariant rule for the zero-run loop: `Z` holds whenever the loop condition
is about to be read, `P` when `decode_coefs` returns from inside the loop. -/
theorem zero_run_invariant (R : Reader σ) (E : Env) (P Z : State σ → Prop)
    (h_ret : ∀ s, s.c < max_eob E → Z s → (zero_read R s).1 = false →
      max_eob E ≤ s.c + 1 → P (zero_token E (zero_read R s).2))
    (h_next : ∀ s, s.c < max_eob E → Z s → (zero_read R s).1 = false →
      s.c + 1 < max_eob E → Z (zero_next E (zero_token E (zero_read R s).2))) :
    ∀ (fuel : Nat) (s : State σ) (out : ZeroRun σ), zero_run R E fuel s = some out →
      s.c < max_eob E → Z s →
      (∀ s', out = ZeroRun.token s' →
        ∃ s0, Z s0 ∧ s0.c < max_eob E ∧ (zero_read R s0).1 = true ∧ s' = (zero_read R s0).2) ∧
      (∀ s', out = ZeroRun.ret s' → P s') := by
  intro fuel
  induction fuel with
  | zero => intro s out h; simp [zero_run] at h
  | succ fuel ih =>
    intro s out h hc hZ
    unfold zero_run at h
    cases hz : (zero_read R s).1 with
    | true =>
      simp only [hz, Bool.not_true, Bool.false_eq_true, if_false, Option.some.injEq] at h
      subst h
      refine ⟨?_, ?_⟩
      · intro s' hs'
        cases hs'
        exact ⟨s, hZ, hc, hz, rfl⟩
      · intro s' hs'
        cases hs'
    | false =>
      simp only [hz, Bool.not_false, if_true] at h
      split_ifs at h with hge
      · simp only [Option.some.injEq] at h
        subst h
        refine ⟨?_, ?_⟩
        · intro s' hs'
          cases hs'
        · intro s' hs'
          cases hs'
          exact h_ret s hc hZ hz (by simpa using hge)
      · have hlt : s.c + 1 < max_eob E := by simpa using hge
        exact ih _ out h (by simpa using hlt) (h_next s hc hZ hz hlt)

/-- Invariant rule for `decode_loop`.  `P` holds at the top of the outer loop
and when the function returns, `Z` whenever the condition of the zero-run loop
is about to be read.  The five premises are the five ways through the loop
body: the EOB node reads true; it reads false; a ZERO token ends the block; a
ZERO token is followed by another read of the ZERO node; a nonzero token is
decoded and written. -/
theorem decode_loop_invariant (R : Reader σ) (E : Env) (P Z : State σ → Prop)
    (h_head : ∀ s, s.c < max_eob E → P s → (loop_head R E s).1 = true →
      Z (loop_head R E s).2)
    (h_eob : ∀ s, s.c < max_eob E → P s → (loop_head R E s).1 = false →
      P (eob_token E (loop_head R E s).2))
    (h_ret : ∀ s, s.c < max_eob E → Z s → (zero_read R s).1 = false →
      max_eob E ≤ s.c + 1 → P (zero_token E (zero_read R s).2))
    (h_next : ∀ s, s.c < max_eob E → Z s → (zero_read R s).1 = false →
      s.c + 1 < max_eob E → Z (zero_next E (zero_token E (zero_read R s).2)))
    (h_coef : ∀ s val token s', s.c < max_eob E → Z s → (zero_read R s).1 = true →
      TreeFrame E (zero_read R s).2 val s' → P (WRITE_COEF_CONTINUE R E val token s')) :
    ∀ (fuel : Nat) (s s' : State σ), decode_loop R E fuel s = some s' → P s → P s' := by
  intro fuel
  induction fuel with
  | zero => intro s s' h; simp [decode_loop] at h
  | succ fuel ih =>
    intro s s' h hP
    unfold decode_loop at h
    split_ifs at h with hc he
    · simp only [Option.some.injEq] at h
      subst h
      exact h_eob s hc hP (by simpa using he)
    · have he' : (loop_head R E s).1 = true := by simpa using he
      have hZ1 := h_head s hc hP he'
      have hc1 : (loop_head R E s).2.c < max_eob E := by simpa using hc
      split at h
      · cases h
      · rename_i s1 hz
        simp only [Option.some.injEq] at h
        subst h
        exact (zero_run_invariant R E P Z h_ret h_next fuel _ _ hz hc1 hZ1).2 _ rfl
      · rename_i s1 hz
        obtain ⟨s0, hZ0, hc0, hr0, rfl⟩ :=
          (zero_run_invariant R E P Z h_ret h_next fuel _ _ hz hc1 hZ1).1 _ rfl
        split at h
        · cases h
        · rename_i t ht
          exact ih _ s' h
            (h_coef s0 t.1 t.2.1 t.2.2 hc0 hZ0 hr0 (token_tree_frame R E fuel _ t ht))
    · simp only [Option.some.injEq] at h
      subst h
      exact hP

theorem zero_run_some (R : Reader σ) (E : Env) :
    ∀ (fuel : Nat) (s : State σ), s.c < max_eob E → max_eob E ≤ fuel + s.c →
      ∃ out, zero_run R E fuel s = some out := by
  intro fuel
  induction fuel with
  | zero => intro s hc hf; omega
  | succ fuel ih =>
    intro s hc hf
    unfold zero_run
    split_ifs with hz hge
    · exact ⟨_, rfl⟩
    · exact ih _ (by simpa using hge) (by simp; omega)
    · exact ⟨_, rfl⟩

theorem decode_loop_some (R : Reader σ) (E : Env) (n6 : Nat) (h6 : E.cat6_ptr n6 = 0) :
    ∀ (fuel : Nat) (s : State σ), s.c ≤ max_eob E → max_eob E + n6 + 2 ≤ fuel + s.c →
      ∃ s', decode_loop R E fuel s = some s' := by
  intro fuel
  induction fuel with
  | zero => intro s hc hf; omega
  | succ fuel ih =>
    intro s hc hf
    unfold decode_loop
    split_ifs with hlt he
    · exact ⟨_, rfl⟩
    · have hc1 : (loop_head R E s).2.c < max_eob E := by simpa using hlt
      obtain ⟨out, hout⟩ := zero_run_some R E fuel (loop_head R E s).2 hc1 (by simp; omega)
      rw [hout]
      cases out with
      | ret s1 => exact ⟨_, rfl⟩
      | token s1 =>
        obtain ⟨s0, hs0, hc0, _, rfl⟩ := (zero_run_invariant R E (fun _ => True)
          (fun x => s.c ≤ x.c) (fun _ _ _ _ _ => trivial)
          (fun x _ hx _ _ => by simp; omega) fuel _ _ hout hc1 (by simp)).1 s1 rfl
        have hs0' : s.c ≤ (zero_read R s0).2.c := by simpa using hs0
        have hc0' : (zero_read R s0).2.c < max_eob E := by simpa using hc0
        obtain ⟨t, ht⟩ := token_tree_some R E n6 h6 fuel (by omega) (zero_read R s0).2
        have hfr := (token_tree_frame R E fuel _ t ht).frame.c
        simp only [ht]
        exact ih _ (by simp only [WRITE_COEF_CONTINUE_c]; omega)
          (by simp only [WRITE_COEF_CONTINUE_c]; omega)
    · exact ⟨_, rfl⟩

theorem decode_coefs_some (R : Reader σ) (E : Env) (n6 : Nat) (h6 : E.cat6_ptr n6 = 0)
    (fuel : Nat) (hf : max_eob E + n6 + 2 ≤ fuel) (inp : Input σ) :
    ∃ s', decode_loop R E fuel (inp.start E) = some s' ∧
      decode_coefs R E fuel inp = some (s'.c, s') := by
  obtain ⟨s', hs'⟩ := decode_loop_some R E n6 h6 fuel (inp.start E) (Nat.zero_le _)
    (by simpa [Input.start] using hf)
  exact ⟨s', hs', by simp [decode_coefs, hs']⟩

section blocks

variable (R : Reader σ) (E : Env) (val token : Nat) (s : State σ)

@[simp]
theorem loop_head_dqv : (loop_head R E s).2.dqv = s.dqv := by
  simp [loop_head, rd, next_band]

@[simp]
theorem loop_head_dqcoeff : (loop_head R E s).2.dqcoeff = s.dqcoeff := by
  simp [loop_head, rd, next_band]

@[simp]
theorem loop_head_coef_counts : (loop_head R E s).2.coef_counts = s.coef_counts := by
  simp [loop_head, rd, next_band]

theorem loop_head_trace : (loop_head R E s).2.trace =
    Event.read s.c (Src.coef (E.get_band_translate E.tx_size s.band_translate) s.ctx
      EOB_CONTEXT_NODE) (loop_head R E s).1 :: Event.band s.band_translate :: s.trace := by
  simp [loop_head, rd, next_band]

@[simp]
theorem eob_token_c : (eob_token E s).c = s.c := by simp [eob_token]

@[simp]
theorem eob_token_dqv : (eob_token E s).dqv = s.dqv := by simp [eob_token]

@[simp]
theorem eob_token_dqcoeff : (eob_token E s).dqcoeff = s.dqcoeff := by simp [eob_token]

@[simp]
theorem eob_token_eob_branch_count :
    (eob_token E s).eob_branch_count = s.eob_branch_count := by simp [eob_token]

@[simp]
theorem eob_token_trace : (eob_token E s).trace = Event.eob s.c :: s.trace := by
  simp [eob_token]

@[simp]
theorem zero_read_dqv : (zero_read R s).2.dqv = s.dqv := rfl

@[simp]
theorem zero_read_dqcoeff : (zero_read R s).2.dqcoeff = s.dqcoeff := rfl

@[simp]
theorem zero_read_coef_counts : (zero_read R s).2.coef_counts = s.coef_counts := rfl

@[simp]
theorem zero_read_eob_branch_count :
    (zero_read R s).2.eob_branch_count = s.eob_branch_count := rfl

@[simp]
theorem zero_read_trace : (zero_read R s).2.trace =
    Event.read s.c (Src.coef s.band s.ctx ZERO_CONTEXT_NODE) (zero_read R s).1 :: s.trace := rfl

@[simp]
theorem zero_token_dqv : (zero_token E s).dqv = E.dq 1 := rfl

@[simp]
theorem zero_token_dqcoeff : (zero_token E s).dqcoeff = s.dqcoeff := by simp [zero_token]

@[simp]
theorem zero_token_eob_branch_count :
    (zero_token E s).eob_branch_count = s.eob_branch_count := by simp [zero_token]

@[simp]
theorem zero_token_trace : (zero_token E s).trace = Event.zero s.c :: s.trace := rfl

@[simp]
theorem zero_next_dqv : (zero_next E s).dqv = s.dqv := rfl

@[simp]
theorem zero_next_dqcoeff : (zero_next E s).dqcoeff = s.dqcoeff := rfl

@[simp]
theorem zero_next_coef_counts : (zero_next E s).coef_counts = s.coef_counts := rfl

@[simp]
theorem zero_next_eob_branch_count :
    (zero_next E s).eob_branch_count = s.eob_branch_count := rfl

@[simp]
theorem zero_next_trace : (zero_next E s).trace =
    Event.band s.band_translate :: Event.context s.c :: s.trace := rfl

@[simp]
theorem WRITE_COEF_CONTINUE_trace : (WRITE_COEF_CONTINUE R E val token s).trace =
    Event.context (s.c + 1) ::
    Event.coef s.c val token (R.vp9_read_bit s.r).1 (E.scan s.c)
      (if (R.vp9_read_bit s.r).1 then -(((val : Int) * s.dqv) >>> dq_shift E)
        else ((val : Int) * s.dqv) >>> dq_shift E) ::
    Event.read s.c Src.bit (R.vp9_read_bit s.r).1 :: s.trace := rfl

@[simp]
theorem WRITE_COEF_CONTINUE_dqcoeff : (WRITE_COEF_CONTINUE R E val token s).dqcoeff =
    Function.update s.dqcoeff (E.scan s.c)
      (if (R.vp9_read_bit s.r).1 then -(((val : Int) * s.dqv) >>> dq_shift E)
        else ((val : Int) * s.dqv) >>> dq_shift E) := rfl

@[simp]
theorem WRITE_COEF_CONTINUE_dqv : (WRITE_COEF_CONTINUE R E val token s).dqv = E.dq 1 := rfl

@[simp]
theorem WRITE_COEF_CONTINUE_coef_counts :
    (WRITE_COEF_CONTINUE R E val token s).coef_counts = s.coef_counts := rfl

@[simp]
theorem WRITE_COEF_CONTINUE_eob_branch_count :
    (WRITE_COEF_CONTINUE R E val token s).eob_branch_count = s.eob_branch_count := rfl

end blocks

theorem INCREMENT_COUNT_of_parallel (E : Env) (tok : Nat) (s : State σ)
    (h : E.frame_parallel_decoding_mode = true) : INCREMENT_COUNT E tok s = s := by
  simp [INCREMENT_COUNT, h]

theorem count_eob_branch_of_parallel (E : Env) (s : State σ)
    (h : E.frame_parallel_decoding_mode = true) : count_eob_branch E s = s := by
  simp [count_eob_branch, h]

theorem max_eob_eq (E : Env) : max_eob E = 16 <<< (2 * E.tx_size) := by
  unfold max_eob
  rw [Nat.shiftLeft_eq E.tx_size 1, pow_one, Nat.mul_comm]

/-- The running index never exceeds `max_eob`. -/
theorem decode_loop_c_le (R : Reader σ) (E : Env) (fuel : Nat) (s s' : State σ)
    (h : decode_loop R E fuel s = some s') (hc : s.c ≤ max_eob E) : s'.c ≤ max_eob E := by
  refine decode_loop_invariant R E (fun x => x.c ≤ max_eob E) (fun x => x.c ≤ max_eob E)
    ?_ ?_ ?_ ?_ ?_ fuel s s' h hc
  · intro x hx _ _
    simpa using hx.le
  · intro x hx _ _
    simpa using hx.le
  · intro x hx _ _ _
    simpa using hx
  · intro x hx _ _ hlt
    simpa using hlt.le
  · intro x val token x' hx _ _ hf
    simp only [WRITE_COEF_CONTINUE_c, hf.frame.c, zero_read_c]
    exact hx

/-- C1: for every transform size index, `max_eob = 16 << (2 * tx_size)`, that
is 16, 64, 256 and 1024 for the sizes 0 to 3, and for every reader (every
sequence of bit decisions) the `eob` returned by `decode_coefs` satisfies
`0 ≤ eob ≤ max_eob`.  Whatever the fuel, a result obeys the bound; and the
function does return once the fuel covers the longest run, which is finite
when the category-6 table has a zero entry. -/
theorem C1_eob_le_max_eob (R : Reader σ) (E : Env) (inp : Input σ) :
    max_eob E = 16 <<< (2 * E.tx_size) ∧
    (E.tx_size = 0 → max_eob E = 16) ∧ (E.tx_size = 1 → max_eob E = 64) ∧
    (E.tx_size = 2 → max_eob E = 256) ∧ (E.tx_size = 3 → max_eob E = 1024) ∧
    (∀ fuel res, decode_coefs R E fuel inp = some res → 0 ≤ res.1 ∧ res.1 ≤ max_eob E) ∧
    (∀ n6 fuel, E.cat6_ptr n6 = 0 → max_eob E + n6 + 2 ≤ fuel →
      ∃ res, decode_coefs R E fuel inp = some res ∧ 0 ≤ res.1 ∧ res.1 ≤ max_eob E) := by
  have hany : ∀ fuel res, decode_coefs R E fuel inp = some res →
      0 ≤ res.1 ∧ res.1 ≤ max_eob E := by
    intro fuel res hres
    unfold decode_coefs at hres
    cases hrun : decode_loop R E fuel (inp.start E) with
    | none => simp [hrun] at hres
    | some s' =>
      simp only [hrun, Option.map_some', Option.some.injEq] at hres
      subst hres
      exact ⟨Nat.zero_le _, decode_loop_c_le R E fuel _ s' hrun (Nat.zero_le _)⟩
  refine ⟨max_eob_eq E, ?_, ?_, ?_, ?_, hany, ?_⟩
  · intro h; simp [max_eob, h]
  · intro h; simp [max_eob, h]
  · intro h; simp [max_eob, h]
  · intro h; simp [max_eob, h]
  · intro n6 fuel h6 hfuel
    obtain ⟨s', _, hres⟩ := decode_coefs_some R E n6 h6 fuel hfuel inp
    exact ⟨_, hres, hany fuel _ hres⟩

/-- C1 at the sample environment: a 4x4 block whose first token is a
category-6 coefficient. -/
theorem C1_eob_le_max_eob_witness :
    sample_env.tx_size = 0 ∧ sample_env.cat6_ptr 14 = 0 ∧ max_eob sample_env + 14 + 2 ≤ 32 ∧
    max_eob sample_env = 16 ∧
    ∃ res, decode_coefs scripted sample_env 32
        (sample_input [true, true, true, true, true, true, true]) = some res ∧
      0 ≤ res.1 ∧ res.1 ≤ max_eob sample_env :=
  ⟨by decide, by decide, by decide,
    (C1_eob_le_max_eob scripted sample_env
      (sample_input [true, true, true, true, true, true, true])).2.1 (by decide),
    (C1_eob_le_max_eob scripted sample_env
      (sample_input [true, true, true, true, true, true, true])).2.2.2.2.2.2 14 32
      (by decide) (by decide)⟩

/-- C9: when `frame_parallel_decoding_mode` is set, `decode_coefs` leaves the
token counts `coef_counts` and the eob-branch counts unchanged, for every
input. -/
theorem C9_frame_parallel_counts_unchanged (R : Reader σ) (E : Env) (inp : Input σ)
    (n6 fuel : Nat) (h6 : E.cat6_ptr n6 = 0) (hfuel : max_eob E + n6 + 2 ≤ fuel)
    (hfp : E.frame_parallel_decoding_mode = true) :
    ∃ res, decode_coefs R E fuel inp = some res ∧
      res.2.coef_counts = inp.coef_counts ∧
      res.2.eob_branch_count = inp.eob_branch_count := by
  obtain ⟨s', hs', hres⟩ := decode_coefs_some R E n6 h6 fuel hfuel inp
  refine ⟨_, hres, ?_⟩
  refine decode_loop_invariant R E
    (fun x => x.coef_counts = inp.coef_counts ∧ x.eob_branch_count = inp.eob_branch_count)
    (fun x => x.coef_counts = inp.coef_counts ∧ x.eob_branch_count = inp.eob_branch_count)
    ?_ ?_ ?_ ?_ ?_ fuel _ s' hs' ⟨rfl, rfl⟩
  · intro x _ hx _
    simpa [loop_head, rd, count_eob_branch_of_parallel E _ hfp, next_band] using hx
  · intro x _ hx _
    simpa [eob_token, INCREMENT_COUNT_of_parallel E _ _ hfp, loop_head, rd,
      count_eob_branch_of_parallel E _ hfp, next_band] using hx
  · intro x _ hx _ _
    simpa [zero_token, INCREMENT_COUNT_of_parallel E _ _ hfp, zero_read, rd] using hx
  · intro x _ hx _ _
    simpa [zero_next, next_band, zero_token, INCREMENT_COUNT_of_parallel E _ _ hfp,
      zero_read, rd] using hx
  · intro x val token x' _ hx _ hf
    have h1 : x'.coef_counts = x.coef_counts := by
      rw [hf.counts, INCREMENT_COUNT_of_parallel E _ _ hfp]
      rfl
    have h2 : x'.eob_branch_count = x.eob_branch_count := hf.frame.eob_branch_count
    simpa [h1, h2] using hx

theorem TreeFrame.mem_trace {E : Env} {s s' : State σ} {val : Nat}
    (hf : TreeFrame E s val s') {e : Event} (he : e ∈ s'.trace) :
    e ∈ s.trace ∨ tree_event s e := by
  obtain ⟨evs, hevs, hall⟩ := hf.frame.trace.exists_append
  rw [hevs, List.mem_append] at he
  rcases he with he | he
  · exact Or.inr (hall e he)
  · exact Or.inl he

theorem not_tree_event_coef (s : State σ) (c m tok : Nat) (sg : Bool) (pos : Nat) (x : Int) :
    ¬ tree_event s (Event.coef c m tok sg pos x) := by
  rintro (⟨i, h⟩ | ⟨src, b, h, _⟩) <;> cases h

theorem TreeFrame.coef_mem {E : Env} {s s' : State σ} {val : Nat}
    (hf : TreeFrame E s val s') {c m tok : Nat} {sg : Bool} {pos : Nat} {x : Int}
    (he : Event.coef c m tok sg pos x ∈ s'.trace) : Event.coef c m tok sg pos x ∈ s.trace := by
  rcases hf.mem_trace he with h | h
  · exact h
  · exact absurd h (not_tree_event_coef s _ _ _ _ _ _)

/-- C5: in the token tree (entered after EOB and ZERO have read true), if ONE
reads false the magnitude is 1; otherwise `prob` switches to the pareto row
`prob[2] - 1` and, when LOW_VAL reads false, the magnitude is 2 if TWO reads
false, 3 if TWO reads true and THREE false, 4 if both read true.  The log
lists the nodes read: THREE is read only after TWO read true. -/
theorem C5_low_values (E : Env) (fuel : Nat) (s : State Script) :
    PIVOT_NODE = 2 ∧
    (s.r.bits s.r.pos = false →
      (token_tree scripted E fuel s).map observe =
        some (1, E.ONE_TOKEN, s.r.pos + 1, s.prob,
          Event.read s.c (Src.coef s.band s.ctx ONE_CONTEXT_NODE) false :: s.trace)) ∧
    (s.r.bits s.r.pos = true → s.r.bits (s.r.pos + 1) = false →
     s.r.bits (s.r.pos + 2) = false →
      (token_tree scripted E fuel s).map observe =
        some (2, E.TWO_TOKEN, s.r.pos + 3, E.vp9_pareto8_full ((s.prob 2 : Int) - 1),
          Event.read s.c (Src.pareto ((s.prob 2 : Int) - 1) TWO_CONTEXT_NODE) false ::
          Event.read s.c (Src.pareto ((s.prob 2 : Int) - 1) LOW_VAL_CONTEXT_NODE) false ::
          Event.read s.c (Src.coef s.band s.ctx ONE_CONTEXT_NODE) true :: s.trace)) ∧
    (s.r.bits s.r.pos = true → s.r.bits (s.r.pos + 1) = false →
     s.r.bits (s.r.pos + 2) = true → s.r.bits (s.r.pos + 3) = false →
      (token_tree scripted E fuel s).map observe =
        some (3, E.THREE_TOKEN, s.r.pos + 4, E.vp9_pareto8_full ((s.prob 2 : Int) - 1),
          Event.read s.c (Src.pareto ((s.prob 2 : Int) - 1) THREE_CONTEXT_NODE) false ::
          Event.read s.c (Src.pareto ((s.prob 2 : Int) - 1) TWO_CONTEXT_NODE) true ::
          Event.read s.c (Src.pareto ((s.prob 2 : Int) - 1) LOW_VAL_CONTEXT_NODE) false ::
          Event.read s.c (Src.coef s.band s.ctx ONE_CONTEXT_NODE) true :: s.trace)) ∧
    (s.r.bits s.r.pos = true → s.r.bits (s.r.pos + 1) = false →
     s.r.bits (s.r.pos + 2) = true → s.r.bits (s.r.pos + 3) = true →
      (token_tree scripted E fuel s).map observe =
        some (4, E.FOUR_TOKEN, s.r.pos + 4, E.vp9_pareto8_full ((s.prob 2 : Int) - 1),
          Event.read s.c (Src.pareto ((s.prob 2 : Int) - 1) THREE_CONTEXT_NODE) true ::
          Event.read s.c (Src.pareto ((s.prob 2 : Int) - 1) TWO_CONTEXT_NODE) true ::
          Event.read s.c (Src.pareto ((s.prob 2 : Int) - 1) LOW_VAL_CONTEXT_NODE) false ::
          Event.read s.c (Src.coef s.band s.ctx ONE_CONTEXT_NODE) true :: s.trace)) := by
  refine ⟨rfl, ?_, ?_, ?_, ?_⟩
  · intro h0
    simp [token_tree, observe, rd, scripted, Script.next, h0]
  · intro h0 h1 h2
    simp [token_tree, observe, rd, scripted, Script.next, h0, h1, h2, PIVOT_NODE]
  · intro h0 h1 h2 h3
    simp [token_tree, observe, rd, scripted, Script.next, h0, h1, h2, h3, PIVOT_NODE]
  · intro h0 h1 h2 h3
    simp [token_tree, observe, rd, scripted, Script.next, h0, h1, h2, h3, PIVOT_NODE]

/-- C3: once ONE and LOW_VAL have read true, categories 1 to 5 are selected
by the nested reads HIGH_LOW, CAT_ONE, CAT_THREEFOUR, CAT_THREE, CAT_FIVE as
the claim lists them, and the magnitude of category `k` is its minimum (5, 7,
11, 19, 35) plus the value of exactly `k` extra bits read most significant bit
first; category 1 with its extra bit set yields 6. -/
theorem C3_categories_one_to_five (E : Env) (fuel : Nat) (s : State Script)
    (hone : s.r.bits s.r.pos = true) (hlow : s.r.bits (s.r.pos + 1) = true) :
    (s.r.bits (s.r.pos + 2) = false → s.r.bits (s.r.pos + 3) = false →
      (token_tree scripted E fuel s).map observe =
        some (5 + msb_value s.r.bits (s.r.pos + 4) 1, E.CATEGORY1_TOKEN, s.r.pos + 4 + 1,
          E.vp9_pareto8_full ((s.prob 2 : Int) - 1),
          extra_reads s.c 1 s.r.bits (s.r.pos + 4) 1 ++
          Event.read s.c (Src.pareto ((s.prob 2 : Int) - 1) CAT_ONE_CONTEXT_NODE) false ::
          Event.read s.c (Src.pareto ((s.prob 2 : Int) - 1) HIGH_LOW_CONTEXT_NODE) false ::
          (escalate s ++ s.trace))) ∧
    (s.r.bits (s.r.pos + 2) = false → s.r.bits (s.r.pos + 3) = false →
      s.r.bits (s.r.pos + 4) = true →
      ((token_tree scripted E fuel s).map observe).map (fun o => o.1) = some 6) ∧
    (s.r.bits (s.r.pos + 2) = false → s.r.bits (s.r.pos + 3) = true →
      (token_tree scripted E fuel s).map observe =
        some (7 + msb_value s.r.bits (s.r.pos + 4) 2, E.CATEGORY2_TOKEN, s.r.pos + 4 + 2,
          E.vp9_pareto8_full ((s.prob 2 : Int) - 1),
          extra_reads s.c 2 s.r.bits (s.r.pos + 4) 2 ++
          Event.read s.c (Src.pareto ((s.prob 2 : Int) - 1) CAT_ONE_CONTEXT_NODE) true ::
          Event.read s.c (Src.pareto ((s.prob 2 : Int) - 1) HIGH_LOW_CONTEXT_NODE) false ::
          (escalate s ++ s.trace))) ∧
    (s.r.bits (s.r.pos + 2) = true → s.r.bits (s.r.pos + 3) = false →
      s.r.bits (s.r.pos + 4) = false →
      (token_tree scripted E fuel s).map observe =
        some (11 + msb_value s.r.bits (s.r.pos + 5) 3, E.CATEGORY3_TOKEN, s.r.pos + 5 + 3,
          E.vp9_pareto8_full ((s.prob 2 : Int) - 1),
          extra_reads s.c 3 s.r.bits (s.r.pos + 5) 3 ++
          Event.read s.c (Src.pareto ((s.prob 2 : Int) - 1) CAT_THREE_CONTEXT_NODE) false ::
          Event.read s.c (Src.pareto ((s.prob 2 : Int) - 1) CAT_THREEFOUR_CONTEXT_NODE) false ::
          Event.read s.c (Src.pareto ((s.prob 2 : Int) - 1) HIGH_LOW_CONTEXT_NODE) true ::
          (escalate s ++ s.trace))) ∧
    (s.r.bits (s.r.pos + 2) = true → s.r.bits (s.r.pos + 3) = false →
      s.r.bits (s.r.pos + 4) = true →
      (token_tree scripted E fuel s).map observe =
        some (19 + msb_value s.r.bits (s.r.pos + 5) 4, E.CATEGORY4_TOKEN, s.r.pos + 5 + 4,
          E.vp9_pareto8_full ((s.prob 2 : Int) - 1),
          extra_reads s.c 4 s.r.bits (s.r.pos + 5) 4 ++
          Event.read s.c (Src.pareto ((s.prob 2 : Int) - 1) CAT_THREE_CONTEXT_NODE) true ::
          Event.read s.c (Src.pareto ((s.prob 2 : Int) - 1) CAT_THREEFOUR_CONTEXT_NODE) false ::
          Event.read s.c (Src.pareto ((s.prob 2 : Int) - 1) HIGH_LOW_CONTEXT_NODE) true ::
          (escalate s ++ s.trace))) ∧
    (s.r.bits (s.r.pos + 2) = true → s.r.bits (s.r.pos + 3) = true →
      s.r.bits (s.r.pos + 4) = false →
      (token_tree scripted E fuel s).map observe =
        some (35 + msb_value s.r.bits (s.r.pos + 5) 5, E.CATEGORY5_TOKEN, s.r.pos + 5 + 5,
          E.vp9_pareto8_full ((s.prob 2 : Int) - 1),
          extra_reads s.c 5 s.r.bits (s.r.pos + 5) 5 ++
          Event.read s.c (Src.pareto ((s.prob 2 : Int) - 1) CAT_FIVE_CONTEXT_NODE) false ::
          Event.read s.c (Src.pareto ((s.prob 2 : Int) - 1) CAT_THREEFOUR_CONTEXT_NODE) true ::
          Event.read s.c (Src.pareto ((s.prob 2 : Int) - 1) HIGH_LOW_CONTEXT_NODE) true ::
          (escalate s ++ s.trace))) := by
  refine ⟨?_, ?_, ?_, ?_, ?_, ?_⟩
  · intro h2 h3
    simp [token_tree, category, ADJUST_COEF, observe, rd, scripted, Script.next, hone, hlow,
      h2, h3, PIVOT_NODE, msb_value, extra_reads, escalate, CAT1_MIN_VAL]
  · intro h2 h3 h4
    simp [token_tree, category, ADJUST_COEF, observe, rd, scripted, Script.next, hone, hlow,
      h2, h3, h4, CAT1_MIN_VAL]
  · intro h2 h3
    simp [token_tree, category, ADJUST_COEF, observe, rd, scripted, Script.next, hone, hlow,
      h2, h3, PIVOT_NODE, msb_value, extra_reads, escalate, CAT2_MIN_VAL]
    simp only [Nat.add_assoc, Nat.reduceAdd, Nat.shiftLeft_eq, Nat.reducePow]
    omega
  · intro h2 h3 h4
    simp [token_tree, category, ADJUST_COEF, observe, rd, scripted, Script.next, hone, hlow,
      h2, h3, h4, PIVOT_NODE, msb_value, extra_reads, escalate, CAT3_MIN_VAL]
    simp only [Nat.add_assoc, Nat.reduceAdd, Nat.shiftLeft_eq, Nat.reducePow]
    omega
  · intro h2 h3 h4
    simp [token_tree, category, ADJUST_COEF, observe, rd, scripted, Script.next, hone, hlow,
      h2, h3, h4, PIVOT_NODE, msb_value, extra_reads, escalate, CAT4_MIN_VAL]
    simp only [Nat.add_assoc, Nat.reduceAdd, Nat.shiftLeft_eq, Nat.reducePow]
    omega
  · intro h2 h3 h4
    simp [token_tree, category, ADJUST_COEF, observe, rd, scripted, Script.next, hone, hlow,
      h2, h3, h4, PIVOT_NODE, msb_value, extra_reads, escalate, CAT5_MIN_VAL]
    simp only [Nat.add_assoc, Nat.reduceAdd, Nat.shiftLeft_eq, Nat.reducePow]
    omega

theorem shift_or_bit (val : Nat) (b : Bool) : (val <<< 1) ||| b.toNat = 2 * val + b.toNat := by
  have hb : b.toNat < 2 ^ 1 := by cases b <;> simp
  rw [Nat.shiftLeft_eq, Nat.mul_comm, ← Nat.mul_add_lt_is_or hb val, pow_one]

theorem cat6_loop_scripted (E : Env) (n6 : Nat) (hnz : ∀ j, j < n6 → E.cat6_ptr j ≠ 0)
    (h6 : E.cat6_ptr n6 = 0) (bits : Nat → Bool) (p c : Nat) (T : List Event) :
    ∀ (fuel i : Nat) (s : State Script), i ≤ n6 → n6 + 1 ≤ fuel + i →
      s.r.bits = bits → s.r.pos = p + i → s.c = c → s.trace = cat6_reads c bits p i ++ T →
      (cat6_loop scripted E fuel i (msb_value bits p i) s).map
          (fun a => (a.1, a.2.r.pos, a.2.prob, a.2.trace)) =
        some (msb_value bits p n6, p + n6, s.prob,
          Event.cat6 n6 :: (cat6_reads c bits p n6 ++ T)) := by
  intro fuel
  induction fuel with
  | zero => intro i s hi hf; omega
  | succ fuel ih =>
    intro i s hi hf hbits hpos hc htr
    unfold cat6_loop
    by_cases hz : E.cat6_ptr i = 0
    · have hin : i = n6 := by
        by_contra hne
        exact hnz i (by omega) hz
      subst hin
      simp [hz, hpos, htr]
    · have hlt : i < n6 := by
        rcases Nat.lt_or_ge i n6 with h | h
        · exact h
        · exact absurd (by rw [show i = n6 by omega]; exact h6) hz
      simp only [ne_eq, hz, not_false_eq_true, if_true]
      have key := ih (i + 1)
        (rd scripted (Src.cat 6 i) (E.cat6_ptr i) { s with trace := Event.cat6 i :: s.trace }).2
        hlt (by omega) (by simpa [rd, scripted, Script.next] using hbits)
        (by simp [rd, scripted, Script.next, hpos]; omega)
        (by simpa [rd] using hc)
        (by simp [rd, scripted, Script.next, cat6_reads, htr, hbits, hpos, hc])
      have hval : (msb_value bits p i <<< 1) |||
          (rd scripted (Src.cat 6 i) (E.cat6_ptr i)
            { s with trace := Event.cat6 i :: s.trace }).1.toNat = msb_value bits p (i + 1) := by
        rw [shift_or_bit]
        simp [rd, scripted, Script.next, msb_value, hbits, hpos]
      rw [hval]
      simpa [rd] using key

/-- C4: when category 6 is selected (ONE, LOW_VAL, HIGH_LOW, CAT_THREEFOUR and
CAT_FIVE all read true) and the first zero entry of the category-6 table is
entry `n6`, the decoder reads one boolean for each of the entries `0` to
`n6 - 1` and none for the zero entry, and the magnitude is 67 plus the binary
number formed by those `n6` bits, most significant bit first; bits of value
`0b101` yield 72. -/
theorem C4_category_six (E : Env) (fuel n6 : Nat) (s : State Script)
    (hnz : ∀ j, j < n6 → E.cat6_ptr j ≠ 0) (h6 : E.cat6_ptr n6 = 0) (hfuel : n6 + 1 ≤ fuel)
    (hone : s.r.bits s.r.pos = true) (hlow : s.r.bits (s.r.pos + 1) = true)
    (hhl : s.r.bits (s.r.pos + 2) = true) (h34 : s.r.bits (s.r.pos + 3) = true)
    (h5 : s.r.bits (s.r.pos + 4) = true) :
    (token_tree scripted E fuel s).map observe =
      some (67 + msb_value s.r.bits (s.r.pos + 5) n6, E.CATEGORY6_TOKEN, s.r.pos + 5 + n6,
        E.vp9_pareto8_full ((s.prob 2 : Int) - 1),
        Event.cat6 n6 :: (cat6_reads s.c s.r.bits (s.r.pos + 5) n6 ++
          Event.read s.c (Src.pareto ((s.prob 2 : Int) - 1) CAT_FIVE_CONTEXT_NODE) true ::
          Event.read s.c (Src.pareto ((s.prob 2 : Int) - 1) CAT_THREEFOUR_CONTEXT_NODE) true ::
          Event.read s.c (Src.pareto ((s.prob 2 : Int) - 1) HIGH_LOW_CONTEXT_NODE) true ::
          (escalate s ++ s.trace))) ∧
    (msb_value s.r.bits (s.r.pos + 5) n6 = 0b101 →
      ((token_tree scripted E fuel s).map observe).map (fun o => o.1) = some 72) := by
  have main : (token_tree scripted E fuel s).map observe =
      some (67 + msb_value s.r.bits (s.r.pos + 5) n6, E.CATEGORY6_TOKEN, s.r.pos + 5 + n6,
        E.vp9_pareto8_full ((s.prob 2 : Int) - 1),
        Event.cat6 n6 :: (cat6_reads s.c s.r.bits (s.r.pos + 5) n6 ++
          Event.read s.c (Src.pareto ((s.prob 2 : Int) - 1) CAT_FIVE_CONTEXT_NODE) true ::
          Event.read s.c (Src.pareto ((s.prob 2 : Int) - 1) CAT_THREEFOUR_CONTEXT_NODE) true ::
          Event.read s.c (Src.pareto ((s.prob 2 : Int) - 1) HIGH_LOW_CONTEXT_NODE) true ::
          (escalate s ++ s.trace))) := by
    unfold token_tree category
    lift_lets
    extract_lets one s1 row s2 low two three hl c1 a1 a2 c34 c3 a3 a4 c5 a5
    have e1 : one.1 = true := by simp [one, rd, scripted, Script.next, hone]
    have e2 : low.1 = true := by
      simp [low, s2, s1, one, rd, scripted, Script.next, hlow]
    have e3 : hl.1 = true := by
      simp [hl, low, s2, s1, one, rd, scripted, Script.next, hhl]
    have e4 : c34.1 = true := by
      simp [c34, hl, low, s2, s1, one, rd, scripted, Script.next, h34]
    have e5 : c5.1 = true := by
      simp [c5, c34, hl, low, s2, s1, one, rd, scripted, Script.next, h5]
    have key := cat6_loop_scripted E n6 hnz h6 s.r.bits (s.r.pos + 5) s.c
      (Event.read s.c (Src.pareto ((s.prob 2 : Int) - 1) CAT_FIVE_CONTEXT_NODE) true ::
        Event.read s.c (Src.pareto ((s.prob 2 : Int) - 1) CAT_THREEFOUR_CONTEXT_NODE) true ::
        Event.read s.c (Src.pareto ((s.prob 2 : Int) - 1) HIGH_LOW_CONTEXT_NODE) true ::
        (escalate s ++ s.trace)) fuel 0 c5.2 (Nat.zero_le _) (by omega)
      (by simp [c5, c34, hl, low, s2, s1, one, rd, scripted, Script.next])
      (by simp [c5, c34, hl, low, s2, s1, one, rd, scripted, Script.next])
      (by simp [c5, c34, hl, low, s2, s1, one, rd])
      (by simp [c5, c34, hl, low, s2, s1, one, row, rd, scripted, Script.next, cat6_reads,
        escalate, PIVOT_NODE, hone, hlow, hhl, h34, h5])
    have hprob : c5.2.prob = E.vp9_pareto8_full ((s.prob 2 : Int) - 1) := by
      simp [c5, c34, hl, low, s2, s1, one, row, rd, PIVOT_NODE]
    simp only [e1, e2, e3, e4, e5, Bool.not_true, Bool.false_eq_true, if_false]
    cases hcl : cat6_loop scripted E fuel 0 0 c5.2 with
    | none => simp [hcl, msb_value] at key
    | some a =>
      simp only [hcl, msb_value, Option.map_some', Option.some.injEq, Prod.mk.injEq] at key
      obtain ⟨k1, k2, k3, k4⟩ := key
      simp only [Option.map_some', observe, k1, k2, k3, k4, hprob, CAT6_MIN_VAL,
        Nat.add_comm]
  refine ⟨main, ?_⟩
  intro h101
  rw [main, h101]
  rfl

/-- C6: if the first boolean read (the EOB node at scan index 0) is false,
`decode_coefs` returns `eob = 0`, has consumed exactly that one boolean (the
reader is left in the state after one `vp9_read`, and the log holds a single
read) and has written no entry of the coefficient buffer, so an all-zero
buffer stays all zero. -/
theorem C6_empty_block (R : Reader σ) (E : Env) (inp : Input σ) (fuel : Nat)
    (hfuel : 1 ≤ fuel)
    (hfalse : (R.vp9_read inp.r
      (E.coef_probs (E.get_band_translate E.tx_size 0) inp.ctx EOB_CONTEXT_NODE)).1 = false) :
    ∃ res, decode_coefs R E fuel inp = some res ∧ res.1 = 0 ∧
      res.2.r = (R.vp9_read inp.r
        (E.coef_probs (E.get_band_translate E.tx_size 0) inp.ctx EOB_CONTEXT_NODE)).2 ∧
      res.2.trace = [Event.eob 0,
        Event.read 0 (Src.coef (E.get_band_translate E.tx_size 0) inp.ctx EOB_CONTEXT_NODE)
          false,
        Event.band 0] ∧
      res.2.dqcoeff = inp.dqcoeff ∧
      ((∀ i, inp.dqcoeff i = 0) → ∀ i, res.2.dqcoeff i = 0) := by
  obtain ⟨k, rfl⟩ : ∃ k, fuel = k + 1 := ⟨fuel - 1, by omega⟩
  have hpos := max_eob_pos E
  have hl : (loop_head R E (inp.start E)).1 = false := by
    simpa [loop_head, rd, next_band, Input.start] using hfalse
  have hrun : decode_loop R E (k + 1) (inp.start E) =
      some (eob_token E (loop_head R E (inp.start E)).2) := by
    rw [decode_loop, if_pos (show (inp.start E).c < max_eob E from hpos), hl]
    rfl
  refine ⟨(0, eob_token E (loop_head R E (inp.start E)).2), ?_, rfl, ?_, ?_, ?_, ?_⟩
  · simp only [decode_coefs, hrun, Option.map_some', eob_token_c, loop_head_c]
    rfl
  · simp [eob_token, loop_head, rd, next_band, Input.start]
  · rw [eob_token_trace, loop_head_trace, hl, loop_head_c]
    rfl
  · simp [Input.start]
  · intro hz i
    simpa [Input.start] using hz i

theorem INCREMENT_COUNT_coef_counts_ne (E : Env) (tok tok' : Nat) (s : State σ)
    (h : tok' ≠ tok) (b x : Nat) :
    (INCREMENT_COUNT E tok s).coef_counts b x tok' = s.coef_counts b x tok' := by
  unfold INCREMENT_COUNT
  split
  · rfl
  · simp [incr3, h]

@[simp]
theorem zero_read_r (R : Reader σ) (s : State σ) :
    (zero_read R s).2.r = (R.vp9_read s.r (s.prob ZERO_CONTEXT_NODE)).2 := rfl

@[simp]
theorem zero_token_r (E : Env) (s : State σ) : (zero_token E s).r = s.r := by
  simp [zero_token]

@[simp]
theorem zero_next_r (E : Env) (s : State σ) : (zero_next E s).r = s.r := rfl

@[simp]
theorem zero_token_coef_counts (E : Env) (s : State σ) :
    (zero_token E s).coef_counts = (INCREMENT_COUNT E E.ZERO_TOKEN s).coef_counts := rfl

theorem zero_run_all_false (E : Env) :
    ∀ (fuel : Nat) (s : State Script), s.c < max_eob E → max_eob E ≤ fuel + s.c →
      (∀ i, i < max_eob E - s.c → s.r.bits (s.r.pos + i) = false) →
      ∃ s', zero_run scripted E fuel s = some (ZeroRun.ret s') ∧ s'.c = max_eob E ∧
        s'.r.pos = s.r.pos + (max_eob E - s.c) ∧ s'.dqcoeff = s.dqcoeff ∧
        s'.trace.countP is_eob_read = s.trace.countP is_eob_read ∧
        (∀ c, Event.eob c ∈ s'.trace → Event.eob c ∈ s.trace) ∧
        (E.EOB_MODEL_TOKEN ≠ E.ZERO_TOKEN → ∀ b x,
          s'.coef_counts b x E.EOB_MODEL_TOKEN = s.coef_counts b x E.EOB_MODEL_TOKEN) := by
  intro fuel
  induction fuel with
  | zero => intro s hc hf; omega
  | succ fuel ih =>
    intro s hc hf hbits
    have hz : (zero_read scripted s).1 = false := by
      simpa [zero_read, rd, scripted, Script.next] using hbits 0 (by omega)
    rw [zero_run]
    simp only [hz, Bool.not_false, if_true]
    split_ifs with hge
    · refine ⟨_, rfl, ?_, ?_, ?_, ?_, ?_, ?_⟩
      · have : max_eob E ≤ s.c + 1 := by simpa using hge
        simp only [zero_token_c, zero_read_c]
        omega
      · have : max_eob E ≤ s.c + 1 := by simpa using hge
        simp only [zero_token_r, zero_read_r, scripted, Script.next]
        omega
      · simp
      · simp [is_eob_read, hz, ZERO_CONTEXT_NODE, EOB_CONTEXT_NODE]
      · intro c hmem
        simpa using hmem
      · intro hne b x
        simp only [zero_token_coef_counts]
        rw [INCREMENT_COUNT_coef_counts_ne E _ _ _ hne]
        rfl
    · have hlt : s.c + 1 < max_eob E := by simpa using hge
      obtain ⟨s', h1, h2, h3, h4, h5, h6, h7⟩ :=
        ih (zero_next E (zero_token E (zero_read scripted s).2)) (by simpa using hlt)
          (by simp only [zero_next_c, zero_token_c, zero_read_c]; omega)
          (by
            intro i hi
            have := hbits (i + 1) (by
              simp only [zero_next_c, zero_token_c, zero_read_c] at hi
              omega)
            simpa [scripted, Script.next, Nat.add_assoc, Nat.add_comm 1 i] using this)
      refine ⟨s', h1, h2, ?_, ?_, ?_, ?_, ?_⟩
      · rw [h3]
        simp only [zero_next_r, zero_token_r, zero_read_r, zero_next_c, zero_token_c,
          zero_read_c, scripted, Script.next]
        omega
      · rw [h4]
        simp
      · rw [h5]
        simp [is_eob_read, hz, ZERO_CONTEXT_NODE, EOB_CONTEXT_NODE]
      · intro c hmem
        simpa using h6 c hmem
      · intro hne b x
        rw [h7 hne]
        simp only [zero_next_coef_counts, zero_token_coef_counts]
        rw [INCREMENT_COUNT_coef_counts_ne E _ _ _ hne]
        rfl

/-- C7: if the first EOB-node read is true and the next `max_eob` reads (all
of the ZERO node) are false, `decode_coefs` returns `eob = max_eob` after
exactly `1 + max_eob` reads, of which exactly one is a read of the EOB node,
leaves the coefficient buffer unchanged (all zero when it was zero), resolves
no EOB token and does not increment an EOB token counter. -/
theorem C7_trailing_zero_run (E : Env) (inp : Input Script) (fuel : Nat)
    (hfuel : max_eob E + 1 ≤ fuel) (hfirst : inp.r.bits inp.r.pos = true)
    (hzero : ∀ i, i < max_eob E → inp.r.bits (inp.r.pos + 1 + i) = false) :
    ∃ res, decode_coefs scripted E fuel inp = some res ∧ res.1 = max_eob E ∧
      res.2.r.pos = inp.r.pos + 1 + max_eob E ∧
      res.2.trace.countP is_eob_read = 1 ∧
      res.2.dqcoeff = inp.dqcoeff ∧
      ((∀ i, inp.dqcoeff i = 0) → ∀ i, res.2.dqcoeff i = 0) ∧
      (∀ c, Event.eob c ∉ res.2.trace) ∧
      (E.EOB_MODEL_TOKEN ≠ E.ZERO_TOKEN → ∀ b x,
        res.2.coef_counts b x E.EOB_MODEL_TOKEN = inp.coef_counts b x E.EOB_MODEL_TOKEN) := by
  obtain ⟨k, rfl⟩ : ∃ k, fuel = k + 1 := ⟨fuel - 1, by omega⟩
  have hpos := max_eob_pos E
  have hl : (loop_head scripted E (inp.start E)).1 = true := by
    simpa [loop_head, rd, next_band, Input.start, scripted, Script.next] using hfirst
  have hr : (loop_head scripted E (inp.start E)).2.r = { inp.r with pos := inp.r.pos + 1 } := by
    simp [loop_head, rd, next_band, Input.start, scripted, Script.next]
  obtain ⟨s', h1, h2, h3, h4, h5, h6, h7⟩ :=
    zero_run_all_false E k (loop_head scripted E (inp.start E)).2
      (by simpa [Input.start] using hpos) (by simp [Input.start]; omega)
      (by
        intro i hi
        rw [hr]
        exact hzero i (by simpa [Input.start] using hi))
  have hrun : decode_loop scripted E (k + 1) (inp.start E) = some s' := by
    rw [decode_loop, if_pos (show (inp.start E).c < max_eob E from hpos), hl]
    simp only [Bool.not_true, Bool.false_eq_true, if_false, h1]
  refine ⟨(s'.c, s'), by simp only [decode_coefs, hrun, Option.map_some'], h2, ?_, ?_, ?_, ?_,
    ?_, ?_⟩
  · show s'.r.pos = _
    rw [h3, hr]
    simp [Input.start]
  · show s'.trace.countP is_eob_read = 1
    rw [h5, loop_head_trace]
    simp [is_eob_read, Input.start]
  · show s'.dqcoeff = _
    rw [h4]
    simp [Input.start]
  · intro hz i
    show s'.dqcoeff i = 0
    rw [h4]
    simpa [Input.start] using hz i
  · intro c hmem
    have := h6 c hmem
    rw [loop_head_trace] at this
    simp [Input.start] at this
  · intro hne b x
    show s'.coef_counts b x _ = _
    rw [h7 hne]
    simp [Input.start]

theorem TreeFrame.trace_subset {E : Env} {s s' : State σ} {val : Nat}
    (hf : TreeFrame E s val s') {e : Event} (he : e ∈ s.trace) : e ∈ s'.trace := by
  obtain ⟨evs, hevs, _⟩ := hf.frame.trace.exists_append
  rw [hevs]
  exact List.mem_append_right _ he

theorem decode_loop_write_inv (R : Reader σ) (E : Env) (d0 : Nat → Int) (fuel : Nat)
    (s s' : State σ) (h : decode_loop R E fuel s = some s') (hs : write_inv E d0 s) :
    write_inv E d0 s' := by
  refine decode_loop_invariant R E (write_inv E d0) (write_inv E d0) ?_ ?_ ?_ ?_ ?_
    fuel s s' h hs
  · intro x _ hx _
    refine ⟨?_, ?_⟩
    · intro i m tok sg pos y hmem
      simp only [loop_head_trace, List.mem_cons, reduceCtorEq, false_or] at hmem
      simpa using hx.1 i m tok sg pos y hmem
    · intro pos hno
      rw [loop_head_dqcoeff]
      refine hx.2 pos (fun i m tok sg y hmem => hno i m tok sg y ?_)
      simp [loop_head_trace, hmem]
  · intro x _ hx _
    refine ⟨?_, ?_⟩
    · intro i m tok sg pos y hmem
      simp only [eob_token_trace, loop_head_trace, List.mem_cons, reduceCtorEq,
        false_or] at hmem
      simpa using hx.1 i m tok sg pos y hmem
    · intro pos hno
      rw [eob_token_dqcoeff, loop_head_dqcoeff]
      refine hx.2 pos (fun i m tok sg y hmem => hno i m tok sg y ?_)
      simp [loop_head_trace, hmem]
  · intro x _ hx _ _
    refine ⟨?_, ?_⟩
    · intro i m tok sg pos y hmem
      simp only [zero_token_trace, zero_read_trace, List.mem_cons, reduceCtorEq,
        false_or] at hmem
      obtain ⟨h1, h2, h3⟩ := hx.1 i m tok sg pos y hmem
      exact ⟨by simp; omega, h2, h3⟩
    · intro pos hno
      rw [zero_token_dqcoeff, zero_read_dqcoeff]
      refine hx.2 pos (fun i m tok sg y hmem => hno i m tok sg y ?_)
      simp [hmem]
  · intro x _ hx _ _
    refine ⟨?_, ?_⟩
    · intro i m tok sg pos y hmem
      simp only [zero_next_trace, zero_token_trace, zero_read_trace, List.mem_cons,
        reduceCtorEq, false_or] at hmem
      obtain ⟨h1, h2, h3⟩ := hx.1 i m tok sg pos y hmem
      exact ⟨by simp; omega, h2, h3⟩
    · intro pos hno
      rw [zero_next_dqcoeff, zero_token_dqcoeff, zero_read_dqcoeff]
      refine hx.2 pos (fun i m tok sg y hmem => hno i m tok sg y ?_)
      simp [hmem]
  · intro x val token x' _ hx _ hf
    have hfc : x'.c = x.c := hf.frame.c
    have hfq : x'.dqcoeff = x.dqcoeff := hf.frame.dqcoeff
    refine ⟨?_, ?_⟩
    · intro i m tok sg pos y hmem
      rw [WRITE_COEF_CONTINUE_trace] at hmem
      simp only [List.mem_cons, Event.coef.injEq, reduceCtorEq, false_or] at hmem
      rcases hmem with ⟨rfl, rfl, rfl, rfl, rfl, rfl⟩ | hmem
      · exact ⟨by simp, rfl, hf.val_pos⟩
      · have hmem' : Event.coef i m tok sg pos y ∈ x.trace := by
          simpa using hf.coef_mem hmem
        obtain ⟨h1, h2, h3⟩ := hx.1 i m tok sg pos y hmem'
        exact ⟨by simp [hfc]; omega, h2, h3⟩
    · intro pos hno
      have hne : pos ≠ E.scan x'.c := by
        rintro rfl
        have hmem := List.mem_cons_of_mem (Event.context (x'.c + 1))
          (List.mem_cons_self (Event.coef x'.c val token (R.vp9_read_bit x'.r).1 (E.scan x'.c)
            (if (R.vp9_read_bit x'.r).1 then -(((val : Int) * x'.dqv) >>> dq_shift E)
              else ((val : Int) * x'.dqv) >>> dq_shift E))
            (Event.read x'.c Src.bit (R.vp9_read_bit x'.r).1 :: x'.trace))
        exact hno x'.c val token _ _ hmem
      rw [WRITE_COEF_CONTINUE_dqcoeff, Function.update_noteq hne, hfq]
      refine hx.2 pos (fun i m tok sg y hmem => hno i m tok sg y ?_)
      rw [WRITE_COEF_CONTINUE_trace]
      have : Event.coef i m tok sg pos y ∈ x'.trace :=
        hf.trace_subset (by simp [hmem])
      simp [this]

/-- C8: `decode_coefs` writes the coefficient buffer only at positions
`scan[i]` with `i < eob` at which a nonzero token (magnitude at least 1) was
decoded, and leaves every other entry unchanged; so in a zero-initialised
buffer every position that is not `scan[i]` for some `i < eob` holds zero
after the decode (injectivity of `scan` is not needed for this). -/
theorem C8_writes_only_at_decoded_positions (R : Reader σ) (E : Env) (inp : Input σ)
    (n6 fuel : Nat) (h6 : E.cat6_ptr n6 = 0) (hfuel : max_eob E + n6 + 2 ≤ fuel) :
    ∃ res, decode_coefs R E fuel inp = some res ∧
      (∀ i m tok sg pos x, Event.coef i m tok sg pos x ∈ res.2.trace →
        i < res.1 ∧ pos = E.scan i ∧ 1 ≤ m) ∧
      (∀ pos, (∀ i m tok sg x, Event.coef i m tok sg pos x ∉ res.2.trace) →
        res.2.dqcoeff pos = inp.dqcoeff pos) ∧
      (∀ pos, (∀ i, i < res.1 → pos ≠ E.scan i) → res.2.dqcoeff pos = inp.dqcoeff pos) ∧
      ((∀ p, inp.dqcoeff p = 0) →
        ∀ pos, (∀ i, i < res.1 → pos ≠ E.scan i) → res.2.dqcoeff pos = 0) := by
  obtain ⟨s', hs', hres⟩ := decode_coefs_some R E n6 h6 fuel hfuel inp
  have hinv : write_inv E inp.dqcoeff s' :=
    decode_loop_write_inv R E inp.dqcoeff fuel _ s' hs'
      ⟨by simp [Input.start], fun _ _ => rfl⟩
  have hother : ∀ pos, (∀ i, i < s'.c → pos ≠ E.scan i) → s'.dqcoeff pos = inp.dqcoeff pos := by
    intro pos hpos
    refine hinv.2 pos (fun i m tok sg x hmem => ?_)
    obtain ⟨h1, h2, _⟩ := hinv.1 i m tok sg pos x hmem
    exact hpos i h1 h2
  refine ⟨_, hres, hinv.1, hinv.2, hother, ?_⟩
  intro hz pos hpos
  exact (hother pos hpos).trans (hz pos)

@[simp]
theorem loop_head_prob (R : Reader σ) (E : Env) (s : State σ) :
    (loop_head R E s).2.prob = E.coef_probs (loop_head R E s).2.band (loop_head R E s).2.ctx := by
  simp [loop_head, rd, next_band]

theorem zero_next_prob (E : Env) (s : State σ) :
    (zero_next E s).prob = E.coef_probs (zero_next E s).band (zero_next E s).ctx := rfl

theorem decode_loop_pareto_inv (R : Reader σ) (E : Env) (fuel : Nat) (s s' : State σ)
    (h : decode_loop R E fuel s = some s') (hs : pareto_inv E s) : pareto_inv E s' := by
  refine decode_loop_invariant R E (pareto_inv E)
    (fun x => pareto_inv E x ∧ x.prob = E.coef_probs x.band x.ctx) ?_ ?_ ?_ ?_ ?_ fuel s s' h hs
  · intro x _ hx _
    refine ⟨?_, loop_head_prob R E x⟩
    intro c row node b hmem
    simp only [loop_head_trace, List.mem_cons, Event.read.injEq, reduceCtorEq, and_false,
      false_and, false_or] at hmem
    exact hx c row node b hmem
  · intro x _ hx _
    intro c row node b hmem
    simp only [eob_token_trace, loop_head_trace, List.mem_cons, Event.read.injEq,
      reduceCtorEq, and_false, false_and, false_or] at hmem
    exact hx c row node b hmem
  · intro x _ hx _ _
    intro c row node b hmem
    simp only [zero_token_trace, zero_read_trace, List.mem_cons, Event.read.injEq,
      reduceCtorEq, and_false, false_and, false_or] at hmem
    exact hx.1 c row node b hmem
  · intro x _ hx _ _
    refine ⟨?_, zero_next_prob E _⟩
    intro c row node b hmem
    simp only [zero_next_trace, zero_token_trace, zero_read_trace, List.mem_cons,
      Event.read.injEq, reduceCtorEq, and_false, false_and, false_or] at hmem
    exact hx.1 c row node b hmem
  · intro x val token x' _ hx _ hf
    intro c row node b hmem
    rw [WRITE_COEF_CONTINUE_trace] at hmem
    simp only [List.mem_cons, Event.read.injEq, reduceCtorEq, and_false, false_and,
      false_or] at hmem
    rcases hf.mem_trace hmem with hold | hnew
    · simp only [zero_read_trace, List.mem_cons, Event.read.injEq, reduceCtorEq, and_false,
        false_and, false_or] at hold
      exact hx.1 c row node b hold
    · rcases hnew with ⟨i, hi⟩ | ⟨src, b', he, hsrc⟩
      · cases hi
      · cases he
        rcases hsrc with hsrc | ⟨node', hn, hsrc⟩ | ⟨k, i, hsrc⟩
        · cases hsrc
        · cases hsrc
          exact ⟨hn, x.band, x.ctx, by
            show ((zero_read R x).2.prob PIVOT_NODE : Int) - 1 = _
            rw [show (zero_read R x).2.prob = x.prob from rfl, hx.2]⟩
        · cases hsrc

/-- C10, as stated, fails: with a third base-node probability of 0 the token
tree reads row `-1` of the pareto table, outside its rows. -/
theorem C10_counterexample :
    ∃ res, decode_coefs scripted zero_pivot_env 32 (sample_input [true, true, true]) = some res ∧
      ¬ pareto_reads_in_bounds zero_pivot_env res.2.trace := by
  refine ⟨_, rfl, ?_⟩
  intro hb
  have h := hb 0 (-1) LOW_VAL_CONTEXT_NODE false (by decide)
  exact absurd h.1 (by decide)

/-- C10 (amended): the pareto row used by `decode_coefs` is `prob[2] - 1`
unchanged, for the row `prob` of some band and context, and one of its eight
nodes is read; so when every third base-node probability of the context model
is at least 1 and at most the number of rows of the pareto table, every pareto
lookup is inside the table. -/
theorem C10_pareto_rows_in_bounds (R : Reader σ) (E : Env) (inp : Input σ)
    (n6 fuel : Nat) (h6 : E.cat6_ptr n6 = 0) (hfuel : max_eob E + n6 + 2 ≤ fuel)
    (hprob : ∀ band ctx, 1 ≤ E.coef_probs band ctx 2 ∧
      E.coef_probs band ctx 2 ≤ E.COEFF_PROB_MODELS) :
    ∃ res, decode_coefs R E fuel inp = some res ∧
      pareto_reads_in_bounds E res.2.trace ∧
      ∀ c row node b, Event.read c (Src.pareto row node) b ∈ res.2.trace →
        node < 8 ∧ ∃ band ctx, row = (E.coef_probs band ctx 2 : Int) - 1 := by
  obtain ⟨s', hs', hres⟩ := decode_coefs_some R E n6 h6 fuel hfuel inp
  have hinv : pareto_inv E s' :=
    decode_loop_pareto_inv R E fuel _ s' hs' (by simp [pareto_inv, Input.start])
  refine ⟨_, hres, ?_, hinv⟩
  intro c row node b hmem
  obtain ⟨_, band, ctx, rfl⟩ := hinv c row node b hmem
  have := hprob band ctx
  simp only [PIVOT_NODE]
  omega

/-- C10 (amended) at the sample environment, whose probabilities are all 128
and whose pareto table has 255 rows. -/
theorem C10_pareto_rows_in_bounds_witness :
    sample_env.cat6_ptr 14 = 0 ∧ max_eob sample_env + 14 + 2 ≤ 32 ∧
    (∀ band ctx, 1 ≤ sample_env.coef_probs band ctx 2 ∧
      sample_env.coef_probs band ctx 2 ≤ sample_env.COEFF_PROB_MODELS) ∧
    ∃ res, decode_coefs scripted sample_env 32 (sample_input [true, true, true]) = some res ∧
      pareto_reads_in_bounds sample_env res.2.trace ∧
      ∀ c row node b, Event.read c (Src.pareto row node) b ∈ res.2.trace →
        node < 8 ∧ ∃ band ctx, row = (sample_env.coef_probs band ctx 2 : Int) - 1 :=
  ⟨by decide, by decide, fun _ _ => (by decide : 1 ≤ 128 ∧ 128 ≤ 255),
    C10_pareto_rows_in_bounds scripted sample_env (sample_input [true, true, true]) 14 32
      (by decide) (by decide) (fun _ _ => (by decide : 1 ≤ 128 ∧ 128 ≤ 255))⟩

/-- C8 at the sample environment and the decisions `sample_bits`. -/
theorem C8_writes_only_at_decoded_positions_witness :
    sample_env.cat6_ptr 14 = 0 ∧ max_eob sample_env + 14 + 2 ≤ 32 ∧
    ∃ res, decode_coefs scripted sample_env 32 (sample_input sample_bits) = some res ∧
      (∀ i m tok sg pos x, Event.coef i m tok sg pos x ∈ res.2.trace →
        i < res.1 ∧ pos = sample_env.scan i ∧ 1 ≤ m) ∧
      (∀ pos, (∀ i m tok sg x, Event.coef i m tok sg pos x ∉ res.2.trace) →
        res.2.dqcoeff pos = (sample_input sample_bits).dqcoeff pos) ∧
      (∀ pos, (∀ i, i < res.1 → pos ≠ sample_env.scan i) →
        res.2.dqcoeff pos = (sample_input sample_bits).dqcoeff pos) ∧
      ((∀ p, (sample_input sample_bits).dqcoeff p = 0) →
        ∀ pos, (∀ i, i < res.1 → pos ≠ sample_env.scan i) → res.2.dqcoeff pos = 0) :=
  ⟨by decide, by decide,
    C8_writes_only_at_decoded_positions scripted sample_env (sample_input sample_bits) 14 32
      (by decide) (by decide)⟩

/-- C9 at the sample environment in frame-parallel mode. -/
theorem C9_frame_parallel_counts_unchanged_witness :
    sample_env_parallel.cat6_ptr 14 = 0 ∧ max_eob sample_env_parallel + 14 + 2 ≤ 32 ∧
    sample_env_parallel.frame_parallel_decoding_mode = true ∧
    ∃ res, decode_coefs scripted sample_env_parallel 32 (sample_input sample_bits) = some res ∧
      res.2.coef_counts = (sample_input sample_bits).coef_counts ∧
      res.2.eob_branch_count = (sample_input sample_bits).eob_branch_count :=
  ⟨by decide, by decide, by decide,
    C9_frame_parallel_counts_unchanged scripted sample_env_parallel (sample_input sample_bits)
      14 32 (by decide) (by decide) (by decide)⟩

/-- C6 at the sample environment: the first decision is false. -/
theorem C6_empty_block_witness :
    1 ≤ 1 ∧
    (scripted.vp9_read (sample_input [false]).r
      (sample_env.coef_probs (sample_env.get_band_translate sample_env.tx_size 0)
        (sample_input [false]).ctx EOB_CONTEXT_NODE)).1 = false ∧
    ∃ res, decode_coefs scripted sample_env 1 (sample_input [false]) = some res ∧ res.1 = 0 ∧
      res.2.r = (scripted.vp9_read (sample_input [false]).r
        (sample_env.coef_probs (sample_env.get_band_translate sample_env.tx_size 0)
          (sample_input [false]).ctx EOB_CONTEXT_NODE)).2 ∧
      res.2.trace = [Event.eob 0,
        Event.read 0 (Src.coef (sample_env.get_band_translate sample_env.tx_size 0)
          (sample_input [false]).ctx EOB_CONTEXT_NODE) false,
        Event.band 0] ∧
      res.2.dqcoeff = (sample_input [false]).dqcoeff ∧
      ((∀ i, (sample_input [false]).dqcoeff i = 0) → ∀ i, res.2.dqcoeff i = 0) :=
  ⟨by decide, by decide,
    C6_empty_block scripted sample_env (sample_input [false]) 1 (by decide) (by decide)⟩

/-- C7 at the sample environment: EOB true, then sixteen false decisions. -/
theorem C7_trailing_zero_run_witness :
    max_eob sample_env + 1 ≤ 17 ∧
    (sample_input [true]).r.bits (sample_input [true]).r.pos = true ∧
    (∀ i, i < max_eob sample_env →
      (sample_input [true]).r.bits ((sample_input [true]).r.pos + 1 + i) = false) ∧
    ∃ res, decode_coefs scripted sample_env 17 (sample_input [true]) = some res ∧
      res.1 = max_eob sample_env ∧
      res.2.r.pos = (sample_input [true]).r.pos + 1 + max_eob sample_env ∧
      res.2.trace.countP is_eob_read = 1 ∧
      res.2.dqcoeff = (sample_input [true]).dqcoeff ∧
      ((∀ i, (sample_input [true]).dqcoeff i = 0) → ∀ i, res.2.dqcoeff i = 0) ∧
      (∀ c, Event.eob c ∉ res.2.trace) ∧
      (sample_env.EOB_MODEL_TOKEN ≠ sample_env.ZERO_TOKEN → ∀ b x,
        res.2.coef_counts b x sample_env.EOB_MODEL_TOKEN =
          (sample_input [true]).coef_counts b x sample_env.EOB_MODEL_TOKEN) :=
  ⟨by decide, by decide, by decide,
    C7_trailing_zero_run sample_env (sample_input [true]) 17 (by decide) (by decide)
      (by decide)⟩

/-- C5 at the sample environment: ONE true, LOW_VAL false, TWO true, THREE
false yields magnitude 3. -/
theorem C5_low_values_witness :
    (sample_tree_state [true, false, true, false]).r.bits
      (sample_tree_state [true, false, true, false]).r.pos = true ∧
    (sample_tree_state [true, false, true, false]).r.bits
      ((sample_tree_state [true, false, true, false]).r.pos + 1) = false ∧
    (sample_tree_state [true, false, true, false]).r.bits
      ((sample_tree_state [true, false, true, false]).r.pos + 2) = true ∧
    (sample_tree_state [true, false, true, false]).r.bits
      ((sample_tree_state [true, false, true, false]).r.pos + 3) = false ∧
    (token_tree scripted sample_env 1 (sample_tree_state [true, false, true, false])).map observe =
      some (3, sample_env.THREE_TOKEN,
        (sample_tree_state [true, false, true, false]).r.pos + 4,
        sample_env.vp9_pareto8_full
          (((sample_tree_state [true, false, true, false]).prob 2 : Int) - 1),
        Event.read (sample_tree_state [true, false, true, false]).c
          (Src.pareto (((sample_tree_state [true, false, true, false]).prob 2 : Int) - 1)
            THREE_CONTEXT_NODE) false ::
        Event.read (sample_tree_state [true, false, true, false]).c
          (Src.pareto (((sample_tree_state [true, false, true, false]).prob 2 : Int) - 1)
            TWO_CONTEXT_NODE) true ::
        Event.read (sample_tree_state [true, false, true, false]).c
          (Src.pareto (((sample_tree_state [true, false, true, false]).prob 2 : Int) - 1)
            LOW_VAL_CONTEXT_NODE) false ::
        Event.read (sample_tree_state [true, false, true, false]).c
          (Src.coef (sample_tree_state [true, false, true, false]).band
            (sample_tree_state [true, false, true, false]).ctx ONE_CONTEXT_NODE) true ::
        (sample_tree_state [true, false, true, false]).trace) :=
  ⟨by decide, by decide, by decide, by decide,
    (C5_low_values sample_env 1 (sample_tree_state [true, false, true, false])).2.2.2.1
      (by decide) (by decide) (by decide) (by decide)⟩

/-- C3 at the sample environment: category 1 with its extra bit set yields 6. -/
theorem C3_categories_one_to_five_witness :
    (sample_tree_state [true, true, false, false, true]).r.bits
      (sample_tree_state [true, true, false, false, true]).r.pos = true ∧
    (sample_tree_state [true, true, false, false, true]).r.bits
      ((sample_tree_state [true, true, false, false, true]).r.pos + 1) = true ∧
    (sample_tree_state [true, true, false, false, true]).r.bits
      ((sample_tree_state [true, true, false, false, true]).r.pos + 2) = false ∧
    (sample_tree_state [true, true, false, false, true]).r.bits
      ((sample_tree_state [true, true, false, false, true]).r.pos + 3) = false ∧
    (sample_tree_state [true, true, false, false, true]).r.bits
      ((sample_tree_state [true, true, false, false, true]).r.pos + 4) = true ∧
    ((token_tree scripted sample_env 1
      (sample_tree_state [true, true, false, false, true])).map observe).map
        (fun o => o.1) = some 6 :=
  ⟨by decide, by decide, by decide, by decide, by decide,
    (C3_categories_one_to_five sample_env 1 (sample_tree_state [true, true, false, false, true])
      (by decide) (by decide)).2.1 (by decide) (by decide) (by decide)⟩

/-- C4 at the sample environment, whose category-6 table has fourteen entries
before its zero: extra bits of value `0b101` yield 72. -/
theorem C4_category_six_witness :
    (∀ j, j < 14 → sample_env.cat6_ptr j ≠ 0) ∧ sample_env.cat6_ptr 14 = 0 ∧ 14 + 1 ≤ 15 ∧
    (sample_tree_state sample_cat6_bits).r.bits (sample_tree_state sample_cat6_bits).r.pos = true ∧
    (sample_tree_state sample_cat6_bits).r.bits
      ((sample_tree_state sample_cat6_bits).r.pos + 1) = true ∧
    (sample_tree_state sample_cat6_bits).r.bits
      ((sample_tree_state sample_cat6_bits).r.pos + 2) = true ∧
    (sample_tree_state sample_cat6_bits).r.bits
      ((sample_tree_state sample_cat6_bits).r.pos + 3) = true ∧
    (sample_tree_state sample_cat6_bits).r.bits
      ((sample_tree_state sample_cat6_bits).r.pos + 4) = true ∧
    msb_value (sample_tree_state sample_cat6_bits).r.bits
      ((sample_tree_state sample_cat6_bits).r.pos + 5) 14 = 0b101 ∧
    ((token_tree scripted sample_env 15 (sample_tree_state sample_cat6_bits)).map observe).map
      (fun o => o.1) = some 72 :=
  ⟨by decide, by decide, by decide, by decide, by decide, by decide, by decide, by decide,
    by decide,
    (C4_category_six sample_env 15 14 (sample_tree_state sample_cat6_bits) (by decide)
      (by decide) (by decide) (by decide) (by decide) (by decide) (by decide) (by decide)).2
      (by decide)⟩

/-! ## A rule with its own exit predicate, and the invariants of the later claims -/

section more_fields

variable (R : Reader σ) (E : Env) (val token : Nat) (s : State σ)

@[simp]
theorem loop_head_band :
    (loop_head R E s).2.band = E.get_band_translate E.tx_size s.band_translate := by
  simp [loop_head, rd, next_band]

@[simp]
theorem loop_head_band_translate :
    (loop_head R E s).2.band_translate = s.band_translate + 1 := by
  simp [loop_head, rd, next_band]

@[simp]
theorem loop_head_ctx : (loop_head R E s).2.ctx = s.ctx := by
  simp [loop_head, rd, next_band]

@[simp]
theorem loop_head_token_cache : (loop_head R E s).2.token_cache = s.token_cache := by
  simp [loop_head, rd, next_band]

@[simp]
theorem zero_read_band : (zero_read R s).2.band = s.band := rfl

@[simp]
theorem zero_read_band_translate : (zero_read R s).2.band_translate = s.band_translate := rfl

@[simp]
theorem zero_read_ctx : (zero_read R s).2.ctx = s.ctx := rfl

@[simp]
theorem zero_read_prob : (zero_read R s).2.prob = s.prob := rfl

@[simp]
theorem zero_read_token_cache : (zero_read R s).2.token_cache = s.token_cache := rfl

@[simp]
theorem zero_token_band : (zero_token E s).band = s.band := by simp [zero_token]

@[simp]
theorem zero_token_band_translate : (zero_token E s).band_translate = s.band_translate := by
  simp [zero_token]

@[simp]
theorem zero_token_ctx : (zero_token E s).ctx = s.ctx := by simp [zero_token]

@[simp]
theorem zero_token_token_cache :
    (zero_token E s).token_cache = Function.update s.token_cache (E.scan s.c) 0 := rfl

@[simp]
theorem zero_next_band :
    (zero_next E s).band = E.get_band_translate E.tx_size s.band_translate := rfl

@[simp]
theorem zero_next_band_translate : (zero_next E s).band_translate = s.band_translate + 1 := rfl

@[simp]
theorem zero_next_ctx :
    (zero_next E s).ctx = E.get_coef_context E.nb s.token_cache s.c := rfl

@[simp]
theorem zero_next_token_cache : (zero_next E s).token_cache = s.token_cache := rfl

@[simp]
theorem WRITE_COEF_CONTINUE_band_translate :
    (WRITE_COEF_CONTINUE R E val token s).band_translate = s.band_translate := rfl

@[simp]
theorem WRITE_COEF_CONTINUE_ctx : (WRITE_COEF_CONTINUE R E val token s).ctx =
    E.get_coef_context E.nb
      (Function.update s.token_cache (E.scan s.c) (E.vp9_pt_energy_class token)) (s.c + 1) := rfl

@[simp]
theorem WRITE_COEF_CONTINUE_token_cache : (WRITE_COEF_CONTINUE R E val token s).token_cache =
    Function.update s.token_cache (E.scan s.c) (E.vp9_pt_energy_class token) := rfl

end more_fields

/-- General rule for `decode_loop`: `P` holds at the top of the outer loop,
`Z` whenever the condition of the zero-run loop is about to be read and `Q`
when the function returns.  The premise for a nonzero token receives the run
of the token tree itself. -/
theorem decode_loop_rule (R : Reader σ) (E : Env) (P Z Q : State σ → Prop)
    (h_exit : ∀ s, max_eob E ≤ s.c → P s → Q s)
    (h_head : ∀ s, s.c < max_eob E → P s → (loop_head R E s).1 = true →
      Z (loop_head R E s).2)
    (h_eob : ∀ s, s.c < max_eob E → P s → (loop_head R E s).1 = false →
      Q (eob_token E (loop_head R E s).2))
    (h_ret : ∀ s, s.c < max_eob E → Z s → (zero_read R s).1 = false →
      max_eob E ≤ s.c + 1 → Q (zero_token E (zero_read R s).2))
    (h_next : ∀ s, s.c < max_eob E → Z s → (zero_read R s).1 = false →
      s.c + 1 < max_eob E → Z (zero_next E (zero_token E (zero_read R s).2)))
    (h_coef : ∀ fuel s t, s.c < max_eob E → Z s → (zero_read R s).1 = true →
      token_tree R E fuel (zero_read R s).2 = some t →
      P (WRITE_COEF_CONTINUE R E t.1 t.2.1 t.2.2)) :
    ∀ (fuel : Nat) (s s' : State σ), decode_loop R E fuel s = some s' → P s → Q s' := by
  intro fuel
  induction fuel with
  | zero => intro s s' h; simp [decode_loop] at h
  | succ fuel ih =>
    intro s s' h hP
    unfold decode_loop at h
    split_ifs at h with hc he
    · simp only [Option.some.injEq] at h
      subst h
      exact h_eob s hc hP (by simpa using he)
    · have he' : (loop_head R E s).1 = true := by simpa using he
      have hZ1 := h_head s hc hP he'
      have hc1 : (loop_head R E s).2.c < max_eob E := by simpa using hc
      split at h
      · cases h
      · rename_i s1 hz
        simp only [Option.some.injEq] at h
        subst h
        exact (zero_run_invariant R E Q Z h_ret h_next fuel _ _ hz hc1 hZ1).2 _ rfl
      · rename_i s1 hz
        obtain ⟨s0, hZ0, hc0, hr0, rfl⟩ :=
          (zero_run_invariant R E Q Z h_ret h_next fuel _ _ hz hc1 hZ1).1 _ rfl
        split at h
        · cases h
        · rename_i t ht
          exact ih _ s' h (h_coef fuel s0 t hc0 hZ0 hr0 ht)
    · simp only [Option.some.injEq] at h
      subst h
      exact h_exit s (Nat.le_of_not_lt hc) hP

theorem band_in_step_cons (E : Env) (T : List Event) (e : Event) (hT : band_in_step E T)
    (h1 : ∀ i, e = Event.band i → i < max_eob E)
    (h2 : ∀ c band ctx node b, e = Event.read c (Src.coef band ctx node) b →
      band = E.get_band_translate E.tx_size c)
    (h3 : ∀ c row node b, e = Event.read c (Src.pareto row node) b →
      ∃ ctx, row = (E.coef_probs (E.get_band_translate E.tx_size c) ctx PIVOT_NODE : Int) - 1) :
    band_in_step E (e :: T) := by
  refine ⟨?_, ?_, ?_⟩
  · intro i hmem
    rcases List.mem_cons.mp hmem with h | h
    · exact h1 i h.symm
    · exact hT.1 i h
  · intro c band ctx node b hmem
    rcases List.mem_cons.mp hmem with h | h
    · exact h2 c band ctx node b h.symm
    · exact hT.2.1 c band ctx node b h
  · intro c row node b hmem
    rcases List.mem_cons.mp hmem with h | h
    · exact h3 c row node b h.symm
    · exact hT.2.2 c row node b h

theorem band_in_step_extends (E : Env) (ok : Event → Prop) (T T' : List Event)
    (hext : Extends ok T T') (hT : band_in_step E T)
    (h1 : ∀ i, ok (Event.band i) → i < max_eob E)
    (h2 : ∀ c band ctx node b, ok (Event.read c (Src.coef band ctx node) b) →
      band = E.get_band_translate E.tx_size c)
    (h3 : ∀ c row node b, ok (Event.read c (Src.pareto row node) b) →
      ∃ ctx, row = (E.coef_probs (E.get_band_translate E.tx_size c) ctx PIVOT_NODE : Int) - 1) :
    band_in_step E T' := by
  induction hext with
  | refl => exact hT
  | cons he _ ih =>
    refine band_in_step_cons E _ _ ih ?_ ?_ ?_
    · intro i h; exact h1 i (h ▸ he)
    · intro c band ctx node b h; exact h2 c band ctx node b (h ▸ he)
    · intro c row node b h; exact h3 c row node b (h ▸ he)

theorem decode_loop_band_inv (R : Reader σ) (E : Env) (fuel : Nat) (s s' : State σ)
    (h : decode_loop R E fuel s = some s') (hs : band_inv_top E s) : band_in_step E s'.trace := by
  refine decode_loop_rule R E (band_inv_top E) (band_inv_zero E)
    (fun x => band_in_step E x.trace) ?_ ?_ ?_ ?_ ?_ ?_ fuel s s' h hs
  · intro x _ hx
    exact hx.2
  · intro x hc hx _
    refine ⟨by simp [hx.1], by simp [hx.1], loop_head_prob R E x, ?_⟩
    rw [loop_head_trace]
    refine band_in_step_cons E _ _ (band_in_step_cons E _ _ hx.2 ?_ ?_ ?_) ?_ ?_ ?_
    · intro i h; cases h; rw [hx.1]; exact hc
    · intro c band ctx node b h; cases h
    · intro c row node b h; cases h
    · intro i h; cases h
    · intro c band ctx node b h; cases h; rw [hx.1]
    · intro c row node b h; cases h
  · intro x hc hx _
    rw [eob_token_trace, loop_head_trace]
    refine band_in_step_cons E _ _ (band_in_step_cons E _ _
      (band_in_step_cons E _ _ hx.2 ?_ ?_ ?_) ?_ ?_ ?_) ?_ ?_ ?_
    · intro i h; cases h; rw [hx.1]; exact hc
    · intro c band ctx node b h; cases h
    · intro c row node b h; cases h
    · intro i h; cases h
    · intro c band ctx node b h; cases h; rw [hx.1]
    · intro c row node b h; cases h
    · intro i h; cases h
    · intro c band ctx node b h; cases h
    · intro c row node b h; cases h
  · intro x _ hx _ _
    rw [zero_token_trace, zero_read_trace]
    refine band_in_step_cons E _ _ (band_in_step_cons E _ _ hx.2.2.2 ?_ ?_ ?_) ?_ ?_ ?_
    · intro i h; cases h
    · intro c band ctx node b h; cases h; exact hx.2.1
    · intro c row node b h; cases h
    · intro i h; cases h
    · intro c band ctx node b h; cases h
    · intro c row node b h; cases h
  · intro x _ hx _ hlt
    refine ⟨by simp [hx.1], by simp [hx.1], zero_next_prob E _, ?_⟩
    rw [zero_next_trace, zero_token_trace, zero_read_trace]
    refine band_in_step_cons E _ _ (band_in_step_cons E _ _ (band_in_step_cons E _ _
      (band_in_step_cons E _ _ hx.2.2.2 ?_ ?_ ?_) ?_ ?_ ?_) ?_ ?_ ?_) ?_ ?_ ?_
    · intro i h; cases h
    · intro c band ctx node b h; cases h; exact hx.2.1
    · intro c row node b h; cases h
    · intro i h; cases h
    · intro c band ctx node b h; cases h
    · intro c row node b h; cases h
    · intro i h; cases h
    · intro c band ctx node b h; cases h
    · intro c row node b h; cases h
    · intro i h
      cases h
      simp only [zero_token_band_translate, zero_read_band_translate, hx.1]
      exact hlt
    · intro c band ctx node b h; cases h
    · intro c row node b h; cases h
  · intro fuel' x t _ hx _ ht
    have hf := token_tree_frame R E fuel' _ t ht
    refine ⟨?_, ?_⟩
    · simp only [WRITE_COEF_CONTINUE_band_translate, WRITE_COEF_CONTINUE_c,
        hf.frame.band_translate, hf.frame.c, zero_read_band_translate, zero_read_c, hx.1]
    · rw [WRITE_COEF_CONTINUE_trace]
      have hbase : band_in_step E (zero_read R x).2.trace := by
        rw [zero_read_trace]
        refine band_in_step_cons E _ _ hx.2.2.2 ?_ ?_ ?_
        · intro i h; cases h
        · intro c band ctx node b h; cases h; exact hx.2.1
        · intro c row node b h; cases h
      have htree : band_in_step E t.2.2.trace := by
        refine band_in_step_extends E _ _ _ hf.frame.trace hbase ?_ ?_ ?_
        · rintro i (⟨j, h⟩ | ⟨src, b, h, _⟩) <;> cases h
        · rintro c band ctx node b (⟨j, h⟩ | ⟨src, b', h, hsrc⟩)
          · cases h
          · cases h
            rcases hsrc with hsrc | ⟨n, _, hsrc⟩ | ⟨k, i, hsrc⟩
            · cases hsrc
              exact hx.2.1
            · cases hsrc
            · cases hsrc
        · rintro c row node b (⟨j, h⟩ | ⟨src, b', h, hsrc⟩)
          · cases h
          · cases h
            rcases hsrc with hsrc | ⟨n, _, hsrc⟩ | ⟨k, i, hsrc⟩
            · cases hsrc
            · cases hsrc
              refine ⟨x.ctx, ?_⟩
              show ((zero_read R x).2.prob PIVOT_NODE : Int) - 1 = _
              rw [zero_read_prob, hx.2.2.1, hx.2.1]
              rfl
            · cases hsrc
      refine band_in_step_cons E _ _ (band_in_step_cons E _ _
        (band_in_step_cons E _ _ htree ?_ ?_ ?_) ?_ ?_ ?_) ?_ ?_ ?_
      · intro i h; cases h
      · intro c band ctx node b h; cases h
      · intro c row node b h; cases h
      · intro i h; cases h
      · intro c band ctx node b h; cases h
      · intro c row node b h; cases h
      · intro i h; cases h
      · intro c band ctx node b h; cases h
      · intro c row node b h; cases h

/-- C19: throughout `decode_coefs` the band-table cursor stays in step with
the running index: every probability row used to read a symbol at scan index
`c` belongs to band `band_translate[c]` (the base rows directly, the pareto
rows through `prob[PIVOT_NODE]` of such a row), and the band table is loaded
only at indices below `max_eob`; for every reader. -/
theorem C19_band_cursor_in_step (R : Reader σ) (E : Env) (inp : Input σ) :
    (∀ fuel res, decode_coefs R E fuel inp = some res → band_in_step E res.2.trace) ∧
    (∀ n6 fuel, E.cat6_ptr n6 = 0 → max_eob E + n6 + 2 ≤ fuel →
      ∃ res, decode_coefs R E fuel inp = some res ∧ band_in_step E res.2.trace) := by
  have hany : ∀ fuel res, decode_coefs R E fuel inp = some res →
      band_in_step E res.2.trace := by
    intro fuel res hres
    unfold decode_coefs at hres
    cases hrun : decode_loop R E fuel (inp.start E) with
    | none => simp [hrun] at hres
    | some s' =>
      simp only [hrun, Option.map_some', Option.some.injEq] at hres
      subst hres
      refine decode_loop_band_inv R E fuel _ s' hrun ⟨rfl, ?_⟩
      simp [band_in_step, Input.start]
  refine ⟨hany, ?_⟩
  intro n6 fuel h6 hfuel
  obtain ⟨s', _, hres⟩ := decode_coefs_some R E n6 h6 fuel hfuel inp
  exact ⟨_, hres, hany fuel _ hres⟩

theorem C19_band_cursor_in_step_witness :
    sample_env.cat6_ptr 14 = 0 ∧ max_eob sample_env + 14 + 2 ≤ 32 ∧
    ∃ res, decode_coefs scripted sample_env 32 (sample_input sample_bits) = some res ∧
      band_in_step sample_env res.2.trace :=
  ⟨by decide, by decide,
    (C19_band_cursor_in_step scripted sample_env (sample_input sample_bits)).2 14 32
      (by decide) (by decide)⟩

theorem TreeFrame.mem_of_not_tree_event {E : Env} {s s' : State σ} {val : Nat}
    (hf : TreeFrame E s val s') {e : Event} (he : e ∈ s'.trace) (hne : ¬ tree_event s e) :
    e ∈ s.trace := by
  rcases hf.mem_trace he with h | h
  · exact h
  · exact absurd h hne

theorem not_tree_event_zero (s : State σ) (c : Nat) : ¬ tree_event s (Event.zero c) := by
  rintro (⟨i, h⟩ | ⟨src, b, h, _⟩) <;> cases h

theorem not_tree_event_context (s : State σ) (c : Nat) : ¬ tree_event s (Event.context c) := by
  rintro (⟨i, h⟩ | ⟨src, b, h, _⟩) <;> cases h

theorem not_tree_event_band (s : State σ) (c : Nat) : ¬ tree_event s (Event.band c) := by
  rintro (⟨i, h⟩ | ⟨src, b, h, _⟩) <;> cases h

theorem decode_loop_zero_inv (R : Reader σ) (E : Env) (d0 : Nat → Int) (fuel : Nat)
    (s s' : State σ) (h : decode_loop R E fuel s = some s') (hs : zero_inv E d0 s) :
    zero_inv E d0 s' := by
  refine decode_loop_invariant R E (zero_inv E d0) (zero_inv E d0) ?_ ?_ ?_ ?_ ?_
    fuel s s' h hs
  · intro x _ hx _
    obtain ⟨h1, h2, h3⟩ := hx
    refine ⟨by simpa using h1, ?_, ?_⟩
    · intro c hmem
      simp only [loop_head_trace, List.mem_cons, reduceCtorEq, false_or] at hmem
      simpa using h2 c hmem
    · intro hinj
      obtain ⟨h4, h5⟩ := h3 hinj
      refine ⟨?_, ?_⟩
      · intro j hj hlt
        rw [loop_head_dqcoeff]
        exact h4 j (by simpa using hj) hlt
      · intro c hmem
        simp only [loop_head_trace, List.mem_cons, reduceCtorEq, false_or] at hmem
        rw [loop_head_dqcoeff, loop_head_token_cache]
        exact h5 c hmem
  · intro x _ hx _
    obtain ⟨h1, h2, h3⟩ := hx
    refine ⟨by simpa using h1, ?_, ?_⟩
    · intro c hmem
      simp only [eob_token_trace, loop_head_trace, List.mem_cons, reduceCtorEq,
        false_or] at hmem
      simpa using h2 c hmem
    · intro hinj
      obtain ⟨h4, h5⟩ := h3 hinj
      refine ⟨?_, ?_⟩
      · intro j hj hlt
        rw [eob_token_dqcoeff, loop_head_dqcoeff]
        exact h4 j (by simpa using hj) hlt
      · intro c hmem
        simp only [eob_token_trace, loop_head_trace, List.mem_cons, reduceCtorEq,
          false_or] at hmem
        have := h5 c hmem
        simpa [eob_token, INCREMENT_COUNT_token_cache] using this
  · intro x hc hx _ _
    obtain ⟨h1, h2, h3⟩ := hx
    refine ⟨by simp; omega, ?_, ?_⟩
    · intro c hmem
      simp only [zero_token_trace, zero_read_trace, zero_read_c, List.mem_cons, reduceCtorEq,
        Event.zero.injEq, false_or] at hmem
      rcases hmem with rfl | hmem
      · simp
      · have := h2 c hmem
        simp; omega
    · intro hinj
      obtain ⟨h4, h5⟩ := h3 hinj
      refine ⟨?_, ?_⟩
      · intro j hj hlt
        rw [zero_token_dqcoeff, zero_read_dqcoeff]
        exact h4 j (by simp at hj; omega) hlt
      · intro c hmem
        simp only [zero_token_trace, zero_read_trace, zero_read_c, List.mem_cons, reduceCtorEq,
          Event.zero.injEq, false_or] at hmem
        rw [zero_token_dqcoeff, zero_read_dqcoeff, zero_token_token_cache,
          zero_read_token_cache, zero_read_c, Function.update_apply]
        rcases hmem with rfl | hmem
        · exact ⟨h4 _ le_rfl hc, by simp⟩
        · refine ⟨(h5 c hmem).1, ?_⟩
          split_ifs
          · rfl
          · exact (h5 c hmem).2
  · intro x hc hx _ hlt
    obtain ⟨h1, h2, h3⟩ := hx
    refine ⟨by simp; omega, ?_, ?_⟩
    · intro c hmem
      simp only [zero_next_trace, zero_token_trace, zero_read_trace, zero_read_c, List.mem_cons,
        reduceCtorEq, Event.zero.injEq, false_or] at hmem
      rcases hmem with rfl | hmem
      · simp
      · have := h2 c hmem
        simp; omega
    · intro hinj
      obtain ⟨h4, h5⟩ := h3 hinj
      refine ⟨?_, ?_⟩
      · intro j hj hlt
        rw [zero_next_dqcoeff, zero_token_dqcoeff, zero_read_dqcoeff]
        exact h4 j (by simp at hj; omega) hlt
      · intro c hmem
        simp only [zero_next_trace, zero_token_trace, zero_read_trace, zero_read_c,
          List.mem_cons, reduceCtorEq, Event.zero.injEq, false_or] at hmem
        rw [zero_next_dqcoeff, zero_token_dqcoeff, zero_read_dqcoeff, zero_next_token_cache,
          zero_token_token_cache, zero_read_token_cache, zero_read_c, Function.update_apply]
        rcases hmem with rfl | hmem
        · exact ⟨h4 _ le_rfl hc, by simp⟩
        · refine ⟨(h5 c hmem).1, ?_⟩
          split_ifs
          · rfl
          · exact (h5 c hmem).2
  · intro x val token x' hc hx _ hf
    obtain ⟨h1, h2, h3⟩ := hx
    have hfc : x'.c = x.c := hf.frame.c
    have hfq : x'.dqcoeff = x.dqcoeff := hf.frame.dqcoeff
    have hft : x'.token_cache = x.token_cache := hf.frame.token_cache
    have hzero : ∀ c, Event.zero c ∈ x'.trace → Event.zero c ∈ x.trace := by
      intro c hmem
      simpa using hf.mem_of_not_tree_event hmem (not_tree_event_zero _ c)
    refine ⟨by simp [hfc]; omega, ?_, ?_⟩
    · intro c hmem
      simp only [WRITE_COEF_CONTINUE_trace, List.mem_cons, reduceCtorEq, false_or] at hmem
      have := h2 c (hzero c hmem)
      simp [hfc]; omega
    · intro hinj
      obtain ⟨h4, h5⟩ := h3 hinj
      refine ⟨?_, ?_⟩
      · intro j hj hlt
        have hj' : x.c + 1 ≤ j := by simpa [hfc] using hj
        have hne : E.scan j ≠ E.scan x'.c := by
          intro heq
          have := hinj j x'.c hlt (by omega) heq
          omega
        rw [WRITE_COEF_CONTINUE_dqcoeff, Function.update_noteq hne, hfq]
        exact h4 j (by omega) hlt
      · intro c hmem
        simp only [WRITE_COEF_CONTINUE_trace, List.mem_cons, reduceCtorEq, false_or] at hmem
        have hlt := h2 c (hzero c hmem)
        have hne : E.scan c ≠ E.scan x'.c := by
          intro heq
          have := hinj c x'.c (by omega) (by omega) heq
          omega
        rw [WRITE_COEF_CONTINUE_dqcoeff, WRITE_COEF_CONTINUE_token_cache,
          Function.update_noteq hne, Function.update_noteq hne, hfq, hft]
        exact h5 c (hzero c hmem)

/-- C15, as stated, fails: the zero-run loop never writes the coefficient
buffer.  With a buffer that holds 7 everywhere, a ZERO token at scan index 0
leaves `dqcoeff[scan[0]] = 7`. -/
theorem C15_counterexample :
    ∃ res, decode_coefs scripted sample_env 32 (sample_input_dirty zero_then_one_bits) =
        some res ∧
      Event.zero 0 ∈ res.2.trace ∧ res.2.dqcoeff (sample_env.scan 0) = 7 ∧
      ¬ (∀ c, Event.zero c ∈ res.2.trace → res.2.dqcoeff (sample_env.scan c) = 0) := by
  refine ⟨_, rfl, by decide, by decide, ?_⟩
  intro hall
  exact absurd (hall 0 (by decide)) (by decide)

/-- C15 (amended): each time the ZERO node reads false at scan index `c`,
`decode_coefs` writes 0 to `token_cache[scan[c]]` and does not write the
coefficient buffer.  With `scan` injective below `max_eob`, after the decode
`dqcoeff[scan[c]]` still holds its initial value for every scan index `c` at
which a ZERO token was decoded, so it is 0 exactly when the buffer held 0 there
on entry (in particular in a zero-initialised buffer), and `c < eob`. -/
theorem C15_zero_token_keeps_buffer (R : Reader σ) (E : Env) (inp : Input σ) :
    (∀ fuel res, decode_coefs R E fuel inp = some res →
      ∀ c, Event.zero c ∈ res.2.trace → c < res.1 ∧
        ((∀ i j, i < max_eob E → j < max_eob E → E.scan i = E.scan j → i = j) →
          res.2.dqcoeff (E.scan c) = inp.dqcoeff (E.scan c) ∧
          res.2.token_cache (E.scan c) = 0 ∧
          ((∀ p, inp.dqcoeff p = 0) → res.2.dqcoeff (E.scan c) = 0))) ∧
    (∀ n6 fuel, E.cat6_ptr n6 = 0 → max_eob E + n6 + 2 ≤ fuel →
      ∃ res, decode_coefs R E fuel inp = some res ∧ zero_inv E inp.dqcoeff res.2) := by
  have hany : ∀ fuel res, decode_coefs R E fuel inp = some res →
      res.1 = res.2.c ∧ zero_inv E inp.dqcoeff res.2 := by
    intro fuel res hres
    unfold decode_coefs at hres
    cases hrun : decode_loop R E fuel (inp.start E) with
    | none => simp [hrun] at hres
    | some s' =>
      simp only [hrun, Option.map_some', Option.some.injEq] at hres
      subst hres
      refine ⟨rfl, decode_loop_zero_inv R E inp.dqcoeff fuel _ s' hrun ?_⟩
      refine ⟨by simp [Input.start], by simp [Input.start], fun _ => ⟨fun _ _ _ => rfl, ?_⟩⟩
      simp [Input.start]
  refine ⟨?_, ?_⟩
  · intro fuel res hres c hmem
    obtain ⟨hc, _, h2, h3⟩ := hany fuel res hres
    refine ⟨by rw [hc]; exact h2 c hmem, fun hinj => ?_⟩
    obtain ⟨ha, hb⟩ := (h3 hinj).2 c hmem
    exact ⟨ha, hb, fun hz => ha.trans (hz _)⟩
  · intro n6 fuel h6 hfuel
    obtain ⟨s', _, hres⟩ := decode_coefs_some R E n6 h6 fuel hfuel inp
    exact ⟨_, hres, (hany fuel _ hres).2⟩

theorem C15_zero_token_keeps_buffer_witness :
    sample_env.cat6_ptr 14 = 0 ∧ max_eob sample_env + 14 + 2 ≤ 32 ∧
    ∃ res, decode_coefs scripted sample_env 32 (sample_input_dirty zero_then_one_bits) =
        some res ∧ zero_inv sample_env (sample_input_dirty zero_then_one_bits).dqcoeff res.2 :=
  ⟨by decide, by decide,
    (C15_zero_token_keeps_buffer scripted sample_env
      (sample_input_dirty zero_then_one_bits)).2 14 32 (by decide) (by decide)⟩

theorem cat6_loop_none (R : Reader σ) (E : Env) (hnz : ∀ j, E.cat6_ptr j ≠ 0) :
    ∀ (fuel i val : Nat) (s : State σ), cat6_loop R E fuel i val s = none := by
  intro fuel
  induction fuel with
  | zero => intro i val s; rfl
  | succ fuel ih =>
    intro i val s
    unfold cat6_loop
    rw [if_pos (hnz i)]
    exact ih _ _ _

theorem cat6_loop_count (R : Reader σ) (E : Env) (n6 : Nat) (h6 : E.cat6_ptr n6 = 0) :
    ∀ (fuel i val : Nat) (s : State σ) (out : Nat × State σ),
      (∀ j, i ≤ j → j < n6 → E.cat6_ptr j ≠ 0) → i ≤ n6 →
      cat6_loop R E fuel i val s = some out →
      cat6_read_count out.2.trace = cat6_read_count s.trace + (n6 - i) ∧
      ∀ k, Event.cat6 k ∈ out.2.trace ↔ Event.cat6 k ∈ s.trace ∨ (i ≤ k ∧ k ≤ n6) := by
  intro fuel
  induction fuel with
  | zero => intro i val s out _ _ h; simp [cat6_loop] at h
  | succ fuel ih =>
    intro i val s out hnz hi h
    unfold cat6_loop at h
    by_cases hz : E.cat6_ptr i = 0
    · have hin : i = n6 := by
        by_contra hne
        exact hnz i le_rfl (by omega) hz
      simp only [ne_eq, hz, not_true_eq_false, if_false, Option.some.injEq] at h
      subst h
      subst hin
      refine ⟨by simp [cat6_read_count, is_cat6_read], fun k => ?_⟩
      simp only [List.mem_cons, Event.cat6.injEq]
      constructor
      · rintro (h | h)
        · exact Or.inr ⟨by omega, by omega⟩
        · exact Or.inl h
      · rintro (h | h)
        · exact Or.inr h
        · exact Or.inl (by omega)
    · have hne : i ≠ n6 := fun h => hz (h ▸ h6)
      simp only [ne_eq, hz, not_false_eq_true, if_true] at h
      obtain ⟨hcnt, hmem⟩ := ih _ _ _ out (fun j hj hlt => hnz j (by omega) hlt) (by omega) h
      refine ⟨?_, fun k => ?_⟩
      · rw [hcnt]
        simp only [rd, cat6_read_count, List.countP_cons, is_cat6_read, decide_True, if_true]
        simp
        omega
      · rw [hmem k]
        simp only [rd, List.mem_cons, reduceCtorEq, false_or, Event.cat6.injEq]
        constructor
        · rintro ((h | h) | h)
          · exact Or.inr ⟨by omega, by omega⟩
          · exact Or.inl h
          · exact Or.inr ⟨by omega, h.2⟩
        · rintro (h | h)
          · exact Or.inl (Or.inr h)
          · by_cases hk : k = i
            · exact Or.inl (Or.inl hk)
            · exact Or.inr ⟨by omega, h.2⟩

theorem cat6_loop_overrun (R : Reader σ) (E : Env) (L : Nat) :
    ∀ (fuel i val : Nat) (s : State σ) (out : Nat × State σ),
      (∀ j, i ≤ j → j < L → E.cat6_ptr j ≠ 0) → i ≤ L →
      cat6_loop R E fuel i val s = some out →
      Event.cat6 L ∈ out.2.trace ∧ cat6_read_count s.trace + (L - i) ≤ cat6_read_count out.2.trace := by
  intro fuel
  induction fuel with
  | zero => intro i val s out _ _ h; simp [cat6_loop] at h
  | succ fuel ih =>
    intro i val s out hnz hi h
    unfold cat6_loop at h
    by_cases hz : E.cat6_ptr i = 0
    · have hin : i = L := by
        by_contra hne
        exact hnz i le_rfl (by omega) hz
      simp only [ne_eq, hz, not_true_eq_false, if_false, Option.some.injEq] at h
      subst h
      subst hin
      exact ⟨by simp, by simp [cat6_read_count, is_cat6_read]⟩
    · simp only [ne_eq, hz, not_false_eq_true, if_true] at h
      by_cases hin : i = L
      · subst hin
        obtain ⟨evs, hevs, _⟩ := (cat6_loop_frame R E (fun _ => True) s.c (fun _ => trivial)
          (fun _ _ => trivial) fuel _ _
          (rd R (Src.cat 6 i) (E.cat6_ptr i) { s with trace := Event.cat6 i :: s.trace }).2
          out rfl h).1.trace.exists_append
        rw [hevs]
        refine ⟨?_, ?_⟩
        · simp [rd]
        · simp only [Nat.sub_self, Nat.add_zero, cat6_read_count, List.countP_append, rd,
            List.countP_cons, is_cat6_read]
          omega
      · obtain ⟨hmem, hcnt⟩ := ih _ _ _ out (fun j hj hlt => hnz j (by omega) hlt)
          (by omega) h
        refine ⟨hmem, le_trans ?_ hcnt⟩
        simp only [rd, cat6_read_count, List.countP_cons, is_cat6_read, decide_True, if_true]
        simp
        omega

/-- C11, as stated, fails: the loop `while (*cat6)` has no iteration cap.  With
a category-6 table of length 15 whose terminator is missing, the loop loads the
cells at offsets 15 and 16, past the end of the table, and performs 16 boolean
reads. -/
theorem C11_counterexample :
    ∃ res, decode_coefs scripted unterminated_env 32 (sample_input cat6_overrun_bits) =
        some res ∧
      (∀ i, i < 15 → unterminated_env.cat6_ptr i ≠ 0) ∧
      Event.cat6 15 ∈ res.2.trace ∧ Event.cat6 16 ∈ res.2.trace ∧
      cat6_read_count res.2.trace = 16 ∧
      ¬ (cat6_read_count res.2.trace ≤ 15 ∧ ∀ i, Event.cat6 i ∈ res.2.trace → i < 15) := by
  refine ⟨_, rfl, by decide, by decide, by decide, by decide, ?_⟩
  rintro ⟨hle, _⟩
  exact absurd hle (by decide)

/-- C11 (amended): the category-6 extra-bit loop has no iteration cap; it
performs one boolean read per table entry until it loads a zero entry.  With
the first zero entry at offset `n6` it performs exactly `n6` reads and loads
exactly the entries `0` to `n6`.  When the entries `0` to `L - 1` of a table of
length `L` are all nonzero (the terminator is missing) every run that returns
has loaded the cell at offset `L`, past the end of the table, after at least
`L` reads; and with no zero entry at all the loop never returns. -/
theorem C11_cat6_loop_runs_to_terminator (R : Reader σ) (E : Env) :
    (∀ n6, (∀ j, j < n6 → E.cat6_ptr j ≠ 0) → E.cat6_ptr n6 = 0 →
      ∀ fuel val (s : State σ), n6 + 1 ≤ fuel →
        ∃ out, cat6_loop R E fuel 0 val s = some out ∧
          cat6_read_count out.2.trace = cat6_read_count s.trace + n6 ∧
          ∀ k, Event.cat6 k ∈ out.2.trace ↔ Event.cat6 k ∈ s.trace ∨ k ≤ n6) ∧
    (∀ L, (∀ j, j < L → E.cat6_ptr j ≠ 0) →
      ∀ fuel val (s : State σ) out, cat6_loop R E fuel 0 val s = some out →
        Event.cat6 L ∈ out.2.trace ∧
        cat6_read_count s.trace + L ≤ cat6_read_count out.2.trace) ∧
    ((∀ j, E.cat6_ptr j ≠ 0) →
      ∀ fuel val (s : State σ), cat6_loop R E fuel 0 val s = none) := by
  refine ⟨?_, ?_, ?_⟩
  · intro n6 hnz h6 fuel val s hfuel
    obtain ⟨out, hout⟩ := cat6_loop_some R E n6 h6 fuel 0 val s (Nat.zero_le _) (by omega)
    obtain ⟨hcnt, hmem⟩ := cat6_loop_count R E n6 h6 fuel 0 val s out
      (fun j _ hlt => hnz j hlt) (Nat.zero_le _) hout
    refine ⟨out, hout, by simpa using hcnt, fun k => ?_⟩
    rw [hmem k]
    simp
  · intro L hnz fuel val s out hout
    have := cat6_loop_overrun R E L fuel 0 val s out (fun j _ hlt => hnz j hlt)
      (Nat.zero_le _) hout
    simpa using this
  · intro hnz fuel val s
    exact cat6_loop_none R E hnz fuel 0 val s

theorem C11_cat6_loop_runs_to_terminator_witness :
    (∀ j, j < 14 → sample_env.cat6_ptr j ≠ 0) ∧ sample_env.cat6_ptr 14 = 0 ∧ 14 + 1 ≤ 15 ∧
    ∃ out, cat6_loop scripted sample_env 15 0 0 (sample_tree_state sample_cat6_bits) =
        some out ∧
      cat6_read_count out.2.trace =
        cat6_read_count (sample_tree_state sample_cat6_bits).trace + 14 ∧
      ∀ k, Event.cat6 k ∈ out.2.trace ↔
        Event.cat6 k ∈ (sample_tree_state sample_cat6_bits).trace ∨ k ≤ 14 :=
  ⟨by decide, by decide, by decide,
    (C11_cat6_loop_runs_to_terminator scripted sample_env).1 14 (by decide) (by decide)
      15 0 (sample_tree_state sample_cat6_bits) (by decide)⟩

theorem max_eob_ge (E : Env) : 16 ≤ max_eob E := by
  unfold max_eob
  rw [Nat.shiftLeft_eq]
  exact Nat.le_mul_of_pos_right 16 (by positivity)

section scripted_steps

variable (E : Env) (s : State Script) (val token : Nat)

theorem loop_head_scripted : (loop_head scripted E s).1 = s.r.bits s.r.pos := by
  simp [loop_head, rd, next_band, scripted, Script.next]

theorem loop_head_scripted_bits : (loop_head scripted E s).2.r.bits = s.r.bits := by
  simp [loop_head, rd, next_band, scripted, Script.next]

theorem loop_head_scripted_pos : (loop_head scripted E s).2.r.pos = s.r.pos + 1 := by
  simp [loop_head, rd, next_band, scripted, Script.next]

theorem zero_read_scripted : (zero_read scripted s).1 = s.r.bits s.r.pos := rfl

theorem zero_read_scripted_bits : (zero_read scripted s).2.r.bits = s.r.bits := rfl

theorem zero_read_scripted_pos : (zero_read scripted s).2.r.pos = s.r.pos + 1 := rfl

theorem WRITE_COEF_CONTINUE_scripted_bits :
    (WRITE_COEF_CONTINUE scripted E val token s).r.bits = s.r.bits := rfl

theorem WRITE_COEF_CONTINUE_scripted_pos :
    (WRITE_COEF_CONTINUE scripted E val token s).r.pos = s.r.pos + 1 := rfl

theorem eob_token_r : (eob_token E s).r = s.r := by simp [eob_token]

end scripted_steps

/-- The token tree when the ONE node reads false: magnitude 1. -/
theorem token_tree_one (R : Reader σ) (E : Env) (fuel : Nat) (s : State σ)
    (h : (rd R (Src.coef s.band s.ctx ONE_CONTEXT_NODE) (s.prob ONE_CONTEXT_NODE) s).1 = false) :
    token_tree R E fuel s = some (1, E.ONE_TOKEN, INCREMENT_COUNT E E.ONE_TOKEN
      (rd R (Src.coef s.band s.ctx ONE_CONTEXT_NODE) (s.prob ONE_CONTEXT_NODE) s).2) := by
  unfold token_tree
  simp only [h, Bool.not_false, if_true]

theorem zero_step_scripted (E : Env) (s : State Script) :
    (zero_next E (zero_token E (zero_read scripted s).2)).c = s.c + 1 ∧
    (zero_next E (zero_token E (zero_read scripted s).2)).r.bits = s.r.bits ∧
    (zero_next E (zero_token E (zero_read scripted s).2)).r.pos = s.r.pos + 1 ∧
    (zero_next E (zero_token E (zero_read scripted s).2)).dqcoeff = s.dqcoeff ∧
    (zero_next E (zero_token E (zero_read scripted s).2)).dqv = E.dq 1 := by
  refine ⟨by simp, ?_, ?_, by simp, by simp⟩
  · rw [zero_next_r, zero_token_r, zero_read_scripted_bits]
  · rw [zero_next_r, zero_token_r, zero_read_scripted_pos]

theorem one_step_scripted (E : Env) (s : State Script) :
    (INCREMENT_COUNT E E.ONE_TOKEN
      (rd scripted (Src.coef s.band s.ctx ONE_CONTEXT_NODE) (s.prob ONE_CONTEXT_NODE) s).2).c
        = s.c ∧
    (INCREMENT_COUNT E E.ONE_TOKEN
      (rd scripted (Src.coef s.band s.ctx ONE_CONTEXT_NODE) (s.prob ONE_CONTEXT_NODE) s).2).r.bits
        = s.r.bits ∧
    (INCREMENT_COUNT E E.ONE_TOKEN
      (rd scripted (Src.coef s.band s.ctx ONE_CONTEXT_NODE) (s.prob ONE_CONTEXT_NODE) s).2).r.pos
        = s.r.pos + 1 ∧
    (INCREMENT_COUNT E E.ONE_TOKEN
      (rd scripted (Src.coef s.band s.ctx ONE_CONTEXT_NODE) (s.prob ONE_CONTEXT_NODE) s).2).dqcoeff
        = s.dqcoeff ∧
    (INCREMENT_COUNT E E.ONE_TOKEN
      (rd scripted (Src.coef s.band s.ctx ONE_CONTEXT_NODE) (s.prob ONE_CONTEXT_NODE) s).2).dqv
        = s.dqv := by
  refine ⟨?_, ?_, ?_, ?_, ?_⟩
  · rw [INCREMENT_COUNT_c]; rfl
  · rw [INCREMENT_COUNT_r]; rfl
  · rw [INCREMENT_COUNT_r]; rfl
  · rw [INCREMENT_COUNT_dqcoeff]; rfl
  · rw [INCREMENT_COUNT_dqv]; rfl

/-- The run of the decode loop on the decisions EOB true, ZERO false, ZERO
false, ZERO true, ONE false, sign, EOB false. -/
theorem decode_loop_scripted_block (E : Env) (inp : Input Script) (k : Nat)
    (h0 : inp.r.bits inp.r.pos = true) (h1 : inp.r.bits (inp.r.pos + 1) = false)
    (h2 : inp.r.bits (inp.r.pos + 2) = false) (h3 : inp.r.bits (inp.r.pos + 3) = true)
    (h4 : inp.r.bits (inp.r.pos + 4) = false) (h6 : inp.r.bits (inp.r.pos + 6) = false) :
    ∃ s', decode_loop scripted E (k + 4) (inp.start E) = some s' ∧ s'.c = 3 ∧
      s'.r.pos = inp.r.pos + 7 ∧
      s'.dqcoeff = Function.update inp.dqcoeff (E.scan 2)
        (if inp.r.bits (inp.r.pos + 5) then -(((1 : Int) * E.dq 1) >>> dq_shift E)
          else ((1 : Int) * E.dq 1) >>> dq_shift E) := by
  have hmax := max_eob_ge E
  obtain ⟨a1, ha1⟩ : ∃ a1, a1 = (loop_head scripted E (inp.start E)).2 := ⟨_, rfl⟩
  have hl0 : (loop_head scripted E (inp.start E)).1 = true := by
    rw [loop_head_scripted]; exact h0
  have a1c : a1.c = 0 := by rw [ha1, loop_head_c]; rfl
  have a1b : a1.r.bits = inp.r.bits := by rw [ha1, loop_head_scripted_bits]; rfl
  have a1p : a1.r.pos = inp.r.pos + 1 := by rw [ha1, loop_head_scripted_pos]; rfl
  have a1d : a1.dqcoeff = inp.dqcoeff := by rw [ha1, loop_head_dqcoeff]; rfl
  have hz1 : (zero_read scripted a1).1 = false := by
    rw [zero_read_scripted, a1b, a1p]; exact h1
  obtain ⟨a2, ha2⟩ : ∃ a2, a2 = zero_next E (zero_token E (zero_read scripted a1).2) :=
    ⟨_, rfl⟩
  obtain ⟨a2c, a2b, a2p, a2d, -⟩ := zero_step_scripted E a1
  rw [← ha2] at a2c a2b a2p a2d
  have hz2 : (zero_read scripted a2).1 = false := by
    rw [zero_read_scripted, a2b, a2p, a1b, a1p]; exact h2
  obtain ⟨a3, ha3⟩ : ∃ a3, a3 = zero_next E (zero_token E (zero_read scripted a2).2) :=
    ⟨_, rfl⟩
  obtain ⟨a3c, a3b, a3p, a3d, a3q⟩ := zero_step_scripted E a2
  rw [← ha3] at a3c a3b a3p a3d a3q
  have hz3 : (zero_read scripted a3).1 = true := by
    rw [zero_read_scripted, a3b, a3p, a2b, a2p, a1b, a1p]; exact h3
  obtain ⟨a4, ha4⟩ : ∃ a4, a4 = (zero_read scripted a3).2 := ⟨_, rfl⟩
  have a4c : a4.c = 2 := by rw [ha4, zero_read_c, a3c, a2c, a1c]
  have a4b : a4.r.bits = inp.r.bits := by rw [ha4, zero_read_scripted_bits, a3b, a2b, a1b]
  have a4p : a4.r.pos = inp.r.pos + 4 := by
    rw [ha4, zero_read_scripted_pos, a3p, a2p, a1p]
  have a4d : a4.dqcoeff = inp.dqcoeff := by rw [ha4, zero_read_dqcoeff, a3d, a2d, a1d]
  have a4q : a4.dqv = E.dq 1 := by rw [ha4, zero_read_dqv, a3q]
  have hrun : zero_run scripted E (k + 3) a1 = some (ZeroRun.token a4) := by
    rw [zero_run, hz1]
    simp only [Bool.not_false, if_true]
    rw [if_neg (by rw [zero_token_c, zero_read_c, a1c]; omega), ← ha2, zero_run, hz2]
    simp only [Bool.not_false, if_true]
    rw [if_neg (by rw [zero_token_c, zero_read_c, a2c, a1c]; omega), ← ha3, zero_run, hz3]
    simp only [Bool.not_true, Bool.false_eq_true, if_false]
    rw [ha4]
  have hone : (rd scripted (Src.coef a4.band a4.ctx ONE_CONTEXT_NODE)
      (a4.prob ONE_CONTEXT_NODE) a4).1 = false := by
    show a4.r.bits a4.r.pos = false
    rw [a4b, a4p]; exact h4
  obtain ⟨t, ht⟩ : ∃ t, t = INCREMENT_COUNT E E.ONE_TOKEN
      (rd scripted (Src.coef a4.band a4.ctx ONE_CONTEXT_NODE) (a4.prob ONE_CONTEXT_NODE) a4).2 :=
    ⟨_, rfl⟩
  obtain ⟨tc, tb, tp, td, tq⟩ := one_step_scripted E a4
  rw [← ht] at tc tb tp td tq
  have htree : token_tree scripted E (k + 3) a4 = some (1, E.ONE_TOKEN, t) := by
    rw [token_tree_one scripted E (k + 3) a4 hone, ht]
  obtain ⟨a5, ha5⟩ : ∃ a5, a5 = WRITE_COEF_CONTINUE scripted E 1 E.ONE_TOKEN t := ⟨_, rfl⟩
  have a5c : a5.c = 3 := by rw [ha5, WRITE_COEF_CONTINUE_c, tc, a4c]
  have a5b : a5.r.bits = inp.r.bits := by
    rw [ha5, WRITE_COEF_CONTINUE_scripted_bits, tb, a4b]
  have a5p : a5.r.pos = inp.r.pos + 6 := by
    rw [ha5, WRITE_COEF_CONTINUE_scripted_pos, tp, a4p]
  have a5d : a5.dqcoeff = Function.update inp.dqcoeff (E.scan 2)
      (if inp.r.bits (inp.r.pos + 5) then -(((1 : Int) * E.dq 1) >>> dq_shift E)
        else ((1 : Int) * E.dq 1) >>> dq_shift E) := by
    rw [ha5, WRITE_COEF_CONTINUE_dqcoeff, td, a4d, tc, a4c, tq, a4q]
    have : (scripted.vp9_read_bit t.r).1 = inp.r.bits (inp.r.pos + 5) := by
      show t.r.bits t.r.pos = _
      rw [tb, tp, a4b, a4p]
    rw [this]
    rfl
  have hl5 : (loop_head scripted E a5).1 = false := by
    rw [loop_head_scripted, a5b, a5p]; exact h6
  have hlast : decode_loop scripted E (k + 3) a5 =
      some (eob_token E (loop_head scripted E a5).2) := by
    rw [decode_loop, if_pos (by rw [a5c]; omega), hl5]
    rfl
  refine ⟨eob_token E (loop_head scripted E a5).2, ?_, ?_, ?_, ?_⟩
  · rw [decode_loop, if_pos (show (inp.start E).c < max_eob E from max_eob_pos E), hl0]
    simp only [Bool.not_true, Bool.false_eq_true, if_false]
    rw [← ha1, hrun]
    simp only []
    rw [htree]
    simp only []
    rw [← ha5, hlast]
  · rw [eob_token_c, loop_head_c, a5c]
  · rw [eob_token_r, loop_head_scripted_pos, a5p]
  · rw [eob_token_dqcoeff, loop_head_dqcoeff, a5d]

/-- C12: on the scripted decisions EOB true, ZERO false, ZERO false, ZERO true,
ONE false, sign bit `sgn`, EOB false, `decode_coefs` returns `eob = 3` after
consuming these seven decisions (`max_eob` is at least 16, so at least 3),
stores at `scan[2]` the value `dq[1] >> shift` when the sign bit is 0 and its
negation when it is 1, with `shift = 1` only for 32x32, and writes no other
position: `scan[0]` and `scan[1]` keep their content, which is zero in a
zero-initialised buffer. -/
theorem C12_scripted_block (E : Env) (inp : Input Script) (sgn : Bool) (fuel : Nat)
    (hfuel : 4 ≤ fuel)
    (h0 : inp.r.bits inp.r.pos = true) (h1 : inp.r.bits (inp.r.pos + 1) = false)
    (h2 : inp.r.bits (inp.r.pos + 2) = false) (h3 : inp.r.bits (inp.r.pos + 3) = true)
    (h4 : inp.r.bits (inp.r.pos + 4) = false) (h5 : inp.r.bits (inp.r.pos + 5) = sgn)
    (h6 : inp.r.bits (inp.r.pos + 6) = false) :
    3 ≤ max_eob E ∧
    ∃ res, decode_coefs scripted E fuel inp = some res ∧ res.1 = 3 ∧
      res.2.r.pos = inp.r.pos + 7 ∧
      res.2.dqcoeff (E.scan 2) =
        (if sgn then -(E.dq 1 >>> (if E.tx_size = TX_32X32 then (1 : Nat) else 0))
          else E.dq 1 >>> (if E.tx_size = TX_32X32 then (1 : Nat) else 0)) ∧
      (∀ p, p ≠ E.scan 2 → res.2.dqcoeff p = inp.dqcoeff p) ∧
      (E.scan 0 ≠ E.scan 2 → E.scan 1 ≠ E.scan 2 →
        res.2.dqcoeff (E.scan 0) = inp.dqcoeff (E.scan 0) ∧
        res.2.dqcoeff (E.scan 1) = inp.dqcoeff (E.scan 1) ∧
        ((∀ p, inp.dqcoeff p = 0) →
          res.2.dqcoeff (E.scan 0) = 0 ∧ res.2.dqcoeff (E.scan 1) = 0)) := by
  obtain ⟨k, rfl⟩ : ∃ k, fuel = k + 4 := ⟨fuel - 4, by omega⟩
  have hmax := max_eob_ge E
  obtain ⟨s', hrun, hc, hp, hd⟩ := decode_loop_scripted_block E inp k h0 h1 h2 h3 h4 h6
  rw [h5, one_mul] at hd
  have hother : ∀ p, p ≠ E.scan 2 → s'.dqcoeff p = inp.dqcoeff p := by
    intro p hne
    rw [hd, Function.update_noteq hne]
  refine ⟨by omega, (s'.c, s'), ?_, hc, hp, ?_, hother, ?_⟩
  · simp only [decode_coefs, hrun, Option.map_some']
  · show s'.dqcoeff (E.scan 2) = _
    rw [hd, Function.update_same]
    rfl
  · intro h02 h12
    refine ⟨hother _ h02, hother _ h12, fun hz => ⟨?_, ?_⟩⟩
    · exact (hother _ h02).trans (hz _)
    · exact (hother _ h12).trans (hz _)

theorem C12_scripted_block_witness :
    3 ≤ max_eob sample_env ∧
    ∃ res, decode_coefs scripted sample_env 32 (sample_input sample_bits) = some res ∧
      res.1 = 3 ∧
      res.2.r.pos = (sample_input sample_bits).r.pos + 7 ∧
      res.2.dqcoeff (sample_env.scan 2) =
        (if true then
          -(sample_env.dq 1 >>> (if sample_env.tx_size = TX_32X32 then (1 : Nat) else 0))
          else sample_env.dq 1 >>> (if sample_env.tx_size = TX_32X32 then (1 : Nat) else 0)) ∧
      (∀ p, p ≠ sample_env.scan 2 →
        res.2.dqcoeff p = (sample_input sample_bits).dqcoeff p) ∧
      (sample_env.scan 0 ≠ sample_env.scan 2 → sample_env.scan 1 ≠ sample_env.scan 2 →
        res.2.dqcoeff (sample_env.scan 0) = (sample_input sample_bits).dqcoeff (sample_env.scan 0) ∧
        res.2.dqcoeff (sample_env.scan 1) = (sample_input sample_bits).dqcoeff (sample_env.scan 1) ∧
        ((∀ p, (sample_input sample_bits).dqcoeff p = 0) →
          res.2.dqcoeff (sample_env.scan 0) = 0 ∧ res.2.dqcoeff (sample_env.scan 1) = 0)) :=
  C12_scripted_block sample_env (sample_input sample_bits) true 32 (by decide)
    (by decide) (by decide) (by decide) (by decide) (by decide) (by decide) (by decide)

@[simp]
theorem read_count_cons_read (c : Nat) (src : Src) (b : Bool) (T : List Event) :
    read_count (Event.read c src b :: T) = read_count T + 1 := by
  simp [read_count, is_read]

theorem rd_read_count (R : Reader σ) (src : Src) (p : Nat) (s : State σ) :
    read_count (rd R src p s).2.trace = read_count s.trace + 1 := by
  simp [rd]

theorem ADJUST_COEF_read_count (R : Reader σ) (k i prob bits_count : Nat)
    (x : Nat × State σ) :
    read_count (ADJUST_COEF R k i prob bits_count x).2.trace = read_count x.2.trace + 1 := by
  simp [ADJUST_COEF, rd]

theorem cat6_loop_read_count (R : Reader σ) (E : Env) (n6 : Nat) (h6 : E.cat6_ptr n6 = 0) :
    ∀ (fuel i val : Nat) (s : State σ) (out : Nat × State σ), i ≤ n6 →
      cat6_loop R E fuel i val s = some out →
      read_count out.2.trace + i ≤ read_count s.trace + n6 := by
  intro fuel
  induction fuel with
  | zero => intro i val s out _ h; simp [cat6_loop] at h
  | succ fuel ih =>
    intro i val s out hi h
    unfold cat6_loop at h
    by_cases hz : E.cat6_ptr i = 0
    · simp only [ne_eq, hz, not_true_eq_false, if_false, Option.some.injEq] at h
      subst h
      simp [read_count, is_read]
      omega
    · have hne : i ≠ n6 := fun h => hz (h ▸ h6)
      simp only [ne_eq, hz, not_false_eq_true, if_true] at h
      have := ih _ _ _ out (by omega) h
      rw [rd_read_count] at this
      simp [read_count, is_read] at this ⊢
      omega

theorem category_read_count (R : Reader σ) (E : Env) (n6 : Nat) (h6 : E.cat6_ptr n6 = 0)
    (row : Int) (fuel : Nat) (s : State σ) (t : Nat × Nat × State σ)
    (h : category R E fuel row s = some t) :
    read_count t.2.2.trace ≤ read_count s.trace + max 8 (3 + n6) := by
  unfold category at h
  lift_lets at h
  extract_lets hl c1 a1 a2 c34 c3 a3 a4 c5 a5 at h
  have rhl : read_count hl.2.trace = read_count s.trace + 1 := rd_read_count R _ _ s
  have rc1 : read_count c1.2.trace = read_count s.trace + 2 :=
    (rd_read_count R _ _ hl.2).trans (by rw [rhl])
  have rc34 : read_count c34.2.trace = read_count s.trace + 2 :=
    (rd_read_count R _ _ hl.2).trans (by rw [rhl])
  have rc3 : read_count c3.2.trace = read_count s.trace + 3 :=
    (rd_read_count R _ _ c34.2).trans (by rw [rc34])
  have rc5 : read_count c5.2.trace = read_count s.trace + 3 :=
    (rd_read_count R _ _ c34.2).trans (by rw [rc34])
  have ra1 : read_count a1.2.trace = read_count s.trace + 3 :=
    (ADJUST_COEF_read_count R 1 0 _ 0 _).trans (by rw [rc1])
  have ra2 : read_count a2.2.trace = read_count s.trace + 4 :=
    (ADJUST_COEF_read_count R 2 1 _ 0 _).trans (by
      rw [ADJUST_COEF_read_count R 2 0 _ 1 _, rc1])
  have ra3 : read_count a3.2.trace = read_count s.trace + 6 :=
    (ADJUST_COEF_read_count R 3 2 _ 0 _).trans (by
      rw [ADJUST_COEF_read_count R 3 1 _ 1 _, ADJUST_COEF_read_count R 3 0 _ 2 _, rc3])
  have ra4 : read_count a4.2.trace = read_count s.trace + 7 :=
    (ADJUST_COEF_read_count R 4 3 _ 0 _).trans (by
      rw [ADJUST_COEF_read_count R 4 2 _ 1 _, ADJUST_COEF_read_count R 4 1 _ 2 _,
        ADJUST_COEF_read_count R 4 0 _ 3 _, rc3])
  have ra5 : read_count a5.2.trace = read_count s.trace + 8 :=
    (ADJUST_COEF_read_count R 5 4 _ 0 _).trans (by
      rw [ADJUST_COEF_read_count R 5 3 _ 1 _, ADJUST_COEF_read_count R 5 2 _ 2 _,
        ADJUST_COEF_read_count R 5 1 _ 3 _, ADJUST_COEF_read_count R 5 0 _ 4 _, rc5])
  have hmax8 : 8 ≤ max 8 (3 + n6) := le_max_left _ _
  have hmax6 : 3 + n6 ≤ max 8 (3 + n6) := le_max_right _ _
  split_ifs at h
  · cases h; show read_count a1.2.trace ≤ _; omega
  · cases h; show read_count a2.2.trace ≤ _; omega
  · cases h; show read_count a3.2.trace ≤ _; omega
  · cases h; show read_count a4.2.trace ≤ _; omega
  · cases h; show read_count a5.2.trace ≤ _; omega
  · split at h
    · cases h
    · rename_i out h6l
      cases h
      have := cat6_loop_read_count R E n6 h6 fuel 0 0 _ out (Nat.zero_le _) h6l
      show read_count out.2.trace ≤ _
      omega

theorem token_tree_read_count (R : Reader σ) (E : Env) (n6 : Nat) (h6 : E.cat6_ptr n6 = 0)
    (fuel : Nat) (s : State σ) (t : Nat × Nat × State σ)
    (h : token_tree R E fuel s = some t) :
    read_count t.2.2.trace ≤ read_count s.trace + max 10 (5 + n6) := by
  unfold token_tree at h
  lift_lets at h
  extract_lets one s1 row s2 low two three at h
  have rone : read_count one.2.trace = read_count s.trace + 1 := rd_read_count R _ _ s
  have rs2 : read_count s2.trace = read_count s.trace + 1 := by
    show read_count (INCREMENT_COUNT E E.TWO_TOKEN one.2).trace = _
    rw [INCREMENT_COUNT_trace, rone]
  have rlow : read_count low.2.trace = read_count s.trace + 2 :=
    (rd_read_count R _ _ s2).trans (by rw [rs2])
  have rtwo : read_count two.2.trace = read_count s.trace + 3 :=
    (rd_read_count R _ _ low.2).trans (by rw [rlow])
  have rthree : read_count three.2.trace = read_count s.trace + 4 :=
    (rd_read_count R _ _ two.2).trans (by rw [rtwo])
  have hmax : 10 ≤ max 10 (5 + n6) := le_max_left _ _
  have hmax6 : 5 + n6 ≤ max 10 (5 + n6) := le_max_right _ _
  split_ifs at h
  · cases h
    show read_count (INCREMENT_COUNT E E.ONE_TOKEN one.2).trace ≤ _
    rw [INCREMENT_COUNT_trace]; omega
  · cases h; show read_count two.2.trace ≤ _; omega
  · cases h; show read_count three.2.trace ≤ _; omega
  · cases h; show read_count three.2.trace ≤ _; omega
  · have := category_read_count R E n6 h6 row fuel low.2 t h
    have h8 : max 8 (3 + n6) + 2 = max 10 (5 + n6) := by
      rcases le_total 8 (3 + n6) with h | h
      · rw [max_eq_right h, max_eq_right (by omega)]; omega
      · rw [max_eq_left h, max_eq_left (by omega)]
    omega

theorem node_reads_cons_none (node : Nat) (e : Event) (T : List Event)
    (h : node_index node e = none) : node_reads node (e :: T) = node_reads node T := by
  simp [node_reads, List.filterMap_cons, h]

theorem node_reads_cons_some (node : Nat) (e : Event) (T : List Event) (c : Nat)
    (h : node_index node e = some c) : node_reads node (e :: T) = c :: node_reads node T := by
  simp [node_reads, List.filterMap_cons, h]

theorem Extends.node_reads {ok : Event → Prop} {T T' : List Event} (node : Nat)
    (h : Extends ok T T') (hok : ∀ e, ok e → node_index node e = none) :
    node_reads node T' = node_reads node T := by
  induction h with
  | refl => rfl
  | cons he _ ih => rw [node_reads_cons_none node _ _ (hok _ he), ih]

theorem tree_event_node_index (s : State σ) (node : Nat) (hnode : node ≠ ONE_CONTEXT_NODE)
    (e : Event) (he : tree_event s e) : node_index node e = none := by
  rcases he with ⟨i, rfl⟩ | ⟨src, b, rfl, hsrc⟩
  · rfl
  · rcases hsrc with rfl | ⟨n, _, rfl⟩ | ⟨k, i, rfl⟩
    · simp only [node_index]
      rw [if_neg (fun h => hnode h.symm)]
    · rfl
    · rfl

section counting

variable (R : Reader σ) (E : Env) (s : State σ) (val token : Nat)

theorem loop_head_read_count :
    read_count (loop_head R E s).2.trace = read_count s.trace + 1 := by
  rw [loop_head_trace]
  simp [read_count, is_read]

theorem loop_head_eob_reads : node_reads EOB_CONTEXT_NODE (loop_head R E s).2.trace =
    s.c :: node_reads EOB_CONTEXT_NODE s.trace := by
  rw [loop_head_trace]
  simp [node_reads, node_index]

theorem loop_head_zero_reads : node_reads ZERO_CONTEXT_NODE (loop_head R E s).2.trace =
    node_reads ZERO_CONTEXT_NODE s.trace := by
  rw [loop_head_trace]
  simp [node_reads, node_index, EOB_CONTEXT_NODE, ZERO_CONTEXT_NODE]

theorem eob_token_read_count : read_count (eob_token E s).trace = read_count s.trace := by
  rw [eob_token_trace]
  simp [read_count, is_read]

theorem eob_token_node_reads (node : Nat) :
    node_reads node (eob_token E s).trace = node_reads node s.trace := by
  rw [eob_token_trace]
  simp [node_reads, node_index]

theorem zero_read_read_count :
    read_count (zero_read R s).2.trace = read_count s.trace + 1 := by
  rw [zero_read_trace]
  simp [read_count, is_read]

theorem zero_read_eob_reads : node_reads EOB_CONTEXT_NODE (zero_read R s).2.trace =
    node_reads EOB_CONTEXT_NODE s.trace := by
  rw [zero_read_trace]
  simp [node_reads, node_index, EOB_CONTEXT_NODE, ZERO_CONTEXT_NODE]

theorem zero_read_zero_reads : node_reads ZERO_CONTEXT_NODE (zero_read R s).2.trace =
    s.c :: node_reads ZERO_CONTEXT_NODE s.trace := by
  rw [zero_read_trace]
  simp [node_reads, node_index]

theorem zero_token_read_count : read_count (zero_token E s).trace = read_count s.trace := by
  rw [zero_token_trace]
  simp [read_count, is_read]

theorem zero_token_node_reads (node : Nat) :
    node_reads node (zero_token E s).trace = node_reads node s.trace := by
  rw [zero_token_trace]
  simp [node_reads, node_index]

theorem zero_next_read_count : read_count (zero_next E s).trace = read_count s.trace := by
  rw [zero_next_trace]
  simp [read_count, is_read]

theorem zero_next_node_reads (node : Nat) :
    node_reads node (zero_next E s).trace = node_reads node s.trace := by
  rw [zero_next_trace]
  simp [node_reads, node_index]

theorem WRITE_COEF_CONTINUE_read_count :
    read_count (WRITE_COEF_CONTINUE R E val token s).trace = read_count s.trace + 1 := by
  rw [WRITE_COEF_CONTINUE_trace]
  simp [read_count, is_read]

theorem WRITE_COEF_CONTINUE_node_reads (node : Nat) :
    node_reads node (WRITE_COEF_CONTINUE R E val token s).trace = node_reads node s.trace := by
  rw [WRITE_COEF_CONTINUE_trace]
  simp [node_reads, node_index]

end counting

theorem decode_loop_progress (R : Reader σ) (E : Env) (n6 : Nat) (hcat6 : E.cat6_ptr n6 = 0)
    (fuel : Nat) (s s' : State σ) (h : decode_loop R E fuel s = some s')
    (hs : progress_top E (max 13 (8 + n6)) s) :
    progress_final E (max 13 (8 + n6)) s'.trace := by
  have hM2 : 2 ≤ max 13 (8 + n6) := le_trans (by decide) (le_max_left _ _)
  have hM3 : max 10 (5 + n6) + 3 = max 13 (8 + n6) := by
    rcases le_total 10 (5 + n6) with h | h
    · rw [max_eq_right h, max_eq_right (by omega)]; omega
    · rw [max_eq_left h, max_eq_left (by omega)]
  generalize max 13 (8 + n6) = M at hs hM2 hM3 ⊢
  have hstep : ∀ c : Nat, (c + 1) * M = c * M + M := fun c => Nat.succ_mul c M
  have hmono : ∀ c : Nat, c + 1 ≤ max_eob E → c * M + M ≤ max_eob E * M := by
    intro c hc
    rw [← hstep]
    exact Nat.mul_le_mul_right M hc
  refine decode_loop_rule R E (progress_top E M) (progress_zero M)
    (fun x => progress_final E M x.trace) ?_ ?_ ?_ ?_ ?_ ?_ fuel s s' h hs
  · rintro x hx ⟨h0, h1, _, _, h4, h5, h6⟩
    have hc : x.c = max_eob E := le_antisymm h0 hx
    exact ⟨by rw [← hc]; exact h1, h4, h5, by rw [← hc]; exact h6⟩
  · rintro x hx ⟨h0, h1, h2, h3, h4, h5, h6⟩ _
    refine ⟨?_, ?_, ?_, ?_, ?_, ?_⟩
    · rw [loop_head_read_count, loop_head_c]; omega
    · rw [loop_head_eob_reads, loop_head_c]
      intro i hi
      rcases List.mem_cons.1 hi with rfl | hi
      · exact le_rfl
      · exact le_of_lt (h2 i hi)
    · rw [loop_head_zero_reads, loop_head_c]; exact h3
    · rw [loop_head_eob_reads]
      exact List.pairwise_cons.2 ⟨h2, h4⟩
    · rw [loop_head_zero_reads]; exact h5
    · rw [loop_head_eob_reads, loop_head_c, List.length_cons]; omega
  · rintro x hx ⟨h0, h1, h2, h3, h4, h5, h6⟩ _
    have := hmono x.c hx
    refine ⟨?_, ?_, ?_, ?_⟩
    · rw [eob_token_read_count, loop_head_read_count]; omega
    · rw [eob_token_node_reads, loop_head_eob_reads]
      exact List.pairwise_cons.2 ⟨h2, h4⟩
    · rw [eob_token_node_reads, loop_head_zero_reads]; exact h5
    · rw [eob_token_node_reads, loop_head_eob_reads, List.length_cons]; omega
  · rintro x hx ⟨h1, h2, h3, h4, h5, h6⟩ _ _
    have := hmono x.c hx
    refine ⟨?_, ?_, ?_, ?_⟩
    · rw [zero_token_read_count, zero_read_read_count]; omega
    · rw [zero_token_node_reads, zero_read_eob_reads]; exact h4
    · rw [zero_token_node_reads, zero_read_zero_reads]
      exact List.pairwise_cons.2 ⟨h3, h5⟩
    · rw [zero_token_node_reads, zero_read_eob_reads]; omega
  · rintro x hx ⟨h1, h2, h3, h4, h5, h6⟩ _ _
    have := hstep x.c
    refine ⟨?_, ?_, ?_, ?_, ?_, ?_⟩
    · rw [zero_next_read_count, zero_token_read_count, zero_read_read_count, zero_next_c,
        zero_token_c, zero_read_c, this]
      omega
    · rw [zero_next_node_reads, zero_token_node_reads, zero_read_eob_reads, zero_next_c,
        zero_token_c, zero_read_c]
      intro i hi
      exact le_trans (h2 i hi) (Nat.le_succ _)
    · rw [zero_next_node_reads, zero_token_node_reads, zero_read_zero_reads, zero_next_c,
        zero_token_c, zero_read_c]
      intro i hi
      rcases List.mem_cons.1 hi with rfl | hi
      · exact Nat.lt_succ_self _
      · exact lt_trans (h3 i hi) (Nat.lt_succ_self _)
    · rw [zero_next_node_reads, zero_token_node_reads, zero_read_eob_reads]; exact h4
    · rw [zero_next_node_reads, zero_token_node_reads, zero_read_zero_reads]
      exact List.pairwise_cons.2 ⟨h3, h5⟩
    · rw [zero_next_node_reads, zero_token_node_reads, zero_read_eob_reads, zero_next_c,
        zero_token_c, zero_read_c]
      omega
  · rintro fuel' x t hx ⟨h1, h2, h3, h4, h5, h6⟩ _ ht
    have hf := token_tree_frame R E fuel' _ t ht
    have hcnt := token_tree_read_count R E n6 hcat6 fuel' _ t ht
    rw [zero_read_read_count] at hcnt
    have hfc : t.2.2.c = x.c := hf.frame.c
    have heob : node_reads EOB_CONTEXT_NODE t.2.2.trace = node_reads EOB_CONTEXT_NODE x.trace :=
      (hf.frame.trace.node_reads _
        (tree_event_node_index _ _ (by decide))).trans (zero_read_eob_reads R x)
    have hzero : node_reads ZERO_CONTEXT_NODE t.2.2.trace =
        x.c :: node_reads ZERO_CONTEXT_NODE x.trace :=
      (hf.frame.trace.node_reads _
        (tree_event_node_index _ _ (by decide))).trans (zero_read_zero_reads R x)
    have := hstep x.c
    refine ⟨?_, ?_, ?_, ?_, ?_, ?_, ?_⟩
    · rw [WRITE_COEF_CONTINUE_c, hfc]; omega
    · rw [WRITE_COEF_CONTINUE_read_count, WRITE_COEF_CONTINUE_c, hfc, this]; omega
    · rw [WRITE_COEF_CONTINUE_node_reads, WRITE_COEF_CONTINUE_c, hfc, heob]
      intro i hi
      exact Nat.lt_succ_of_le (h2 i hi)
    · rw [WRITE_COEF_CONTINUE_node_reads, WRITE_COEF_CONTINUE_c, hfc, hzero]
      intro i hi
      rcases List.mem_cons.1 hi with rfl | hi
      · exact Nat.lt_succ_self _
      · exact lt_trans (h3 i hi) (Nat.lt_succ_self _)
    · rw [WRITE_COEF_CONTINUE_node_reads, heob]; exact h4
    · rw [WRITE_COEF_CONTINUE_node_reads, hzero]
      exact List.pairwise_cons.2 ⟨h3, h5⟩
    · rw [WRITE_COEF_CONTINUE_node_reads, WRITE_COEF_CONTINUE_c, hfc, heob]; exact h6

set_option maxRecDepth 100000 in
/-- C16, as stated, fails in its read bound when the category-6 table has fewer
than five entries: a category-5 token costs 13 boolean reads (EOB, ZERO, ONE,
LOW_VAL, HIGH_LOW, CAT_THREEFOUR, CAT_FIVE, five extra bits, sign).  With an
empty category-6 table (`n6 = 0`) sixteen such tokens make 208 reads, more than
`max_eob * (8 + n6) = 128`. -/
theorem C16_counterexample :
    ∃ res, decode_coefs scripted short_cat6_env 32 (sample_input cat5_block_bits) =
        some res ∧
      short_cat6_env.cat6_ptr 0 = 0 ∧ res.1 = 16 ∧ read_count res.2.trace = 208 ∧
      ¬ (read_count res.2.trace ≤ max_eob short_cat6_env * (8 + 0)) := by
  refine ⟨_, rfl, by decide, by decide, by decide, ?_⟩
  intro hle
  exact absurd hle (by decide)

/-- C16 (amended): provided the category-6 table has a zero terminator at
offset `n6`, `decode_coefs` returns for every reader; the running index strictly
increases from each read of the EOB node to the next (one per iteration of the
outer loop) and from each read of the ZERO node to the next (one per test of
the zero-run loop), the EOB node is read at most `max_eob` times, and the total
number of boolean reads is at most `max_eob * max 13 (8 + n6)`, which is
`max_eob * (8 + n6)` when `n6` is at least 5. -/
theorem C16_terminates_with_read_bound (R : Reader σ) (E : Env) (inp : Input σ)
    (n6 fuel : Nat) (h6 : E.cat6_ptr n6 = 0) (hfuel : max_eob E + n6 + 2 ≤ fuel) :
    ∃ res, decode_coefs R E fuel inp = some res ∧
      progress_final E (max 13 (8 + n6)) res.2.trace ∧
      (5 ≤ n6 → read_count res.2.trace ≤ max_eob E * (8 + n6)) := by
  obtain ⟨s', hs', hres⟩ := decode_coefs_some R E n6 h6 fuel hfuel inp
  have hfin := decode_loop_progress R E n6 h6 fuel _ s' hs'
    (by simp [progress_top, Input.start, read_count, node_reads])
  refine ⟨_, hres, hfin, fun h5 => ?_⟩
  have := hfin.1
  rwa [max_eq_right (by omega : 13 ≤ 8 + n6)] at this

theorem C16_terminates_with_read_bound_witness :
    sample_env.cat6_ptr 14 = 0 ∧ max_eob sample_env + 14 + 2 ≤ 32 ∧
    ∃ res, decode_coefs scripted sample_env 32 (sample_input sample_cat6_bits) = some res ∧
      progress_final sample_env (max 13 (8 + 14)) res.2.trace ∧
      (5 ≤ 14 → read_count res.2.trace ≤ max_eob sample_env * (8 + 14)) :=
  ⟨by decide, by decide,
    C16_terminates_with_read_bound scripted sample_env (sample_input sample_cat6_bits) 14 32
      (by decide) (by decide)⟩

theorem counted_mono (E : Env) (T T' : List Event) (hsub : ∀ e, e ∈ T → e ∈ T')
    (e : Event) (k : Nat × Nat × Nat) (h : counted E T e k) : counted E T' e k := by
  cases e with
  | zero c => exact ⟨h.1, hsub _ h.2⟩
  | coef c val tok sg pos x => exact ⟨h.1, hsub _ h.2⟩
  | eob c => exact ⟨h.1, hsub _ h.2⟩
  | read c src b => exact h.elim
  | band i => exact h.elim
  | context c => exact h.elim
  | cat6 i => exact h.elim

theorem Forall₂_counted_mono (E : Env) (T T' : List Event) (hsub : ∀ e, e ∈ T → e ∈ T')
    (l : List Event) (keys : List (Nat × Nat × Nat))
    (h : List.Forall₂ (counted E T) l keys) : List.Forall₂ (counted E T') l keys :=
  h.imp (fun e k he => counted_mono E T T' hsub e k he)

theorem Extends.tokens {ok : Event → Prop} {T T' : List Event}
    (h : Extends ok T T') (hok : ∀ e, ok e → is_token e = false) :
    tokens T' = tokens T := by
  induction h with
  | refl => rfl
  | cons he _ ih =>
    rw [← ih]
    simp [Vp9.tokens, List.filter_cons, hok _ he]

theorem tree_event_not_token (s : State σ) (e : Event) (he : tree_event s e) :
    is_token e = false := by
  rcases he with ⟨i, rfl⟩ | ⟨src, b, rfl, _⟩ <;> rfl

theorem INCREMENT_COUNT_of_clear (E : Env) (tok : Nat) (s : State σ)
    (h : E.frame_parallel_decoding_mode = false) :
    (INCREMENT_COUNT E tok s).coef_counts = incr3 s.coef_counts s.band s.ctx tok := by
  simp [INCREMENT_COUNT, h]

theorem count_keys_le (keys : List (Nat × Nat × Nat)) (a : Nat → Nat → Nat → Nat)
    (b x t : Nat) : count_keys keys a b x t ≤ a b x t + keys.length := by
  induction keys with
  | nil => simp [count_keys]
  | cons k ks ih =>
    have hrec : count_keys (k :: ks) a = incr3 (count_keys ks a) k.1 k.2.1 k.2.2 := rfl
    rw [hrec, List.length_cons]
    unfold incr3
    split_ifs
    · exact le_trans (Nat.mod_le _ _) (by omega)
    · omega

theorem total_incr3 (K : Finset (Nat × Nat × Nat)) (a : Nat → Nat → Nat → Nat)
    (k : Nat × Nat × Nat) (hk : k ∈ K) (hlt : a k.1 k.2.1 k.2.2 + 1 < 2 ^ 32) :
    total K (incr3 a k.1 k.2.1 k.2.2) = total K a + 1 := by
  unfold total
  rw [← Finset.add_sum_erase K _ hk, ← Finset.add_sum_erase K (fun k => a k.1 k.2.1 k.2.2) hk]
  have hsame : (K.erase k).sum (fun j => incr3 a k.1 k.2.1 k.2.2 j.1 j.2.1 j.2.2) =
      (K.erase k).sum (fun j => a j.1 j.2.1 j.2.2) := by
    refine Finset.sum_congr rfl (fun j hj => ?_)
    have hne : j ≠ k := Finset.ne_of_mem_erase hj
    unfold incr3
    rw [if_neg]
    rintro ⟨h1, h2, h3⟩
    exact hne (Prod.ext h1 (Prod.ext h2 h3))
  rw [hsame]
  have hk1 : incr3 a k.1 k.2.1 k.2.2 k.1 k.2.1 k.2.2 = a k.1 k.2.1 k.2.2 + 1 := by
    unfold incr3
    rw [if_pos ⟨rfl, rfl, rfl⟩, Nat.mod_eq_of_lt hlt]
  show incr3 a k.1 k.2.1 k.2.2 k.1 k.2.1 k.2.2 + _ = a k.1 k.2.1 k.2.2 + _ + 1
  rw [hk1]
  omega

theorem total_count_keys (K : Finset (Nat × Nat × Nat)) (a : Nat → Nat → Nat → Nat)
    (keys : List (Nat × Nat × Nat)) (hK : ∀ k, k ∈ keys → k ∈ K)
    (hlt : ∀ b x t, a b x t + keys.length < 2 ^ 32) :
    total K (count_keys keys a) = total K a + keys.length := by
  induction keys with
  | nil => simp [count_keys]
  | cons k ks ih =>
    have hrec : count_keys (k :: ks) a = incr3 (count_keys ks a) k.1 k.2.1 k.2.2 := rfl
    have hlen : (k :: ks).length = ks.length + 1 := rfl
    rw [hrec, total_incr3 K _ k (hK k (List.mem_cons_self _ _)), ih
      (fun j hj => hK j (List.mem_cons_of_mem _ hj))
      (fun b x t => by have := hlt b x t; rw [hlen] at this; omega), hlen]
    · omega
    · have h1 := count_keys_le ks a k.1 k.2.1 k.2.2
      have h2 := hlt k.1 k.2.1 k.2.2
      rw [hlen] at h2
      omega

section token_lists

variable (R : Reader σ) (E : Env) (s : State σ) (val token : Nat)

theorem loop_head_tokens : tokens (loop_head R E s).2.trace = tokens s.trace := by
  rw [loop_head_trace]
  simp [tokens, is_token]

theorem eob_token_tokens : tokens (eob_token E s).trace = Event.eob s.c :: tokens s.trace := by
  rw [eob_token_trace]
  simp [tokens, is_token]

theorem zero_read_tokens : tokens (zero_read R s).2.trace = tokens s.trace := by
  rw [zero_read_trace]
  simp [tokens, is_token]

theorem zero_token_tokens :
    tokens (zero_token E s).trace = Event.zero s.c :: tokens s.trace := by
  rw [zero_token_trace]
  simp [tokens, is_token]

theorem zero_next_tokens : tokens (zero_next E s).trace = tokens s.trace := by
  rw [zero_next_trace]
  simp [tokens, is_token]

theorem WRITE_COEF_CONTINUE_tokens : tokens (WRITE_COEF_CONTINUE R E val token s).trace =
    Event.coef s.c val token (R.vp9_read_bit s.r).1 (E.scan s.c)
      (if (R.vp9_read_bit s.r).1 then -(((val : Int) * s.dqv) >>> dq_shift E)
        else ((val : Int) * s.dqv) >>> dq_shift E) :: tokens s.trace := by
  rw [WRITE_COEF_CONTINUE_trace]
  simp [tokens, is_token]

end token_lists

theorem eob_token_coef_counts (E : Env) (s : State σ) :
    (eob_token E s).coef_counts = (INCREMENT_COUNT E E.EOB_MODEL_TOKEN s).coef_counts := rfl

theorem decode_loop_count_inv (R : Reader σ) (E : Env)
    (hflag : E.frame_parallel_decoding_mode = false) (a0 : Nat → Nat → Nat → Nat)
    (fuel : Nat) (s s' : State σ) (h : decode_loop R E fuel s = some s')
    (hs : count_inv E a0 s) : count_inv_final E a0 s' := by
  refine decode_loop_rule R E (count_inv E a0) (count_inv E a0) (count_inv_final E a0)
    ?_ ?_ ?_ ?_ ?_ ?_ fuel s s' h hs
  · rintro x hx ⟨h0, h1, h2, keys, h3, h4⟩
    refine ⟨h0, fun _ => le_antisymm h0 hx, ?_, keys, h3, h4⟩
    rw [h1, h2]
    rfl
  · rintro x hx ⟨h0, h1, h2, keys, h3, h4⟩ _
    refine ⟨by rw [loop_head_c]; exact h0, by rw [loop_head_trace]; rfl,
      by rw [loop_head_tokens, loop_head_c]; exact h2, keys, ?_, ?_⟩
    · rw [loop_head_tokens]
      exact Forall₂_counted_mono E _ _ (fun e he => by simp [loop_head_trace, he]) _ _ h3
    · rw [loop_head_coef_counts]; exact h4
  · rintro x hx ⟨h0, h1, h2, keys, h3, h4⟩ hl
    have hends : ends_on_eob (eob_token E (loop_head R E x).2).trace = true := by
      rw [eob_token_trace]; rfl
    refine ⟨by rw [eob_token_c, loop_head_c]; exact h0, ?_, ?_,
      ((loop_head R E x).2.band, (loop_head R E x).2.ctx, E.EOB_MODEL_TOKEN) :: keys, ?_, ?_⟩
    · intro hne
      rw [hends] at hne
      cases hne
    · rw [hends, eob_token_tokens, loop_head_tokens, List.length_cons, h2, eob_token_c,
        loop_head_c]
      rfl
    · rw [eob_token_tokens, loop_head_tokens]
      refine List.Forall₂.cons ⟨rfl, ?_⟩ ?_
      · rw [eob_token_trace, loop_head_trace, loop_head_c, loop_head_band, loop_head_ctx, hl]
        exact List.mem_cons_of_mem _ (List.mem_cons_self _ _)
      · exact Forall₂_counted_mono E _ _
          (fun e he => by simp [eob_token_trace, loop_head_trace, he]) _ _ h3
    · rw [eob_token_coef_counts, INCREMENT_COUNT_of_clear E _ _ hflag, loop_head_coef_counts,
        h4]
      rfl
  · rintro x hx ⟨h0, h1, h2, keys, h3, h4⟩ hz hge
    have hc : x.c + 1 = max_eob E := le_antisymm hx hge
    refine ⟨by rw [zero_token_c, zero_read_c]; exact hx,
      fun _ => by rw [zero_token_c, zero_read_c]; exact hc, ?_,
      (x.band, x.ctx, E.ZERO_TOKEN) :: keys, ?_, ?_⟩
    · rw [zero_token_tokens, zero_read_tokens, List.length_cons, h2, zero_token_c, zero_read_c,
        zero_token_trace]
      rfl
    · rw [zero_token_tokens, zero_read_tokens, zero_read_c]
      refine List.Forall₂.cons ⟨rfl, ?_⟩ ?_
      · rw [zero_token_trace, zero_read_trace, hz]
        exact List.mem_cons_of_mem _ (List.mem_cons_self _ _)
      · exact Forall₂_counted_mono E _ _ (fun e he => by simp [he]) _ _ h3
    · rw [zero_token_coef_counts, INCREMENT_COUNT_of_clear E _ _ hflag, zero_read_coef_counts,
        h4]
      rfl
  · rintro x hx ⟨h0, h1, h2, keys, h3, h4⟩ hz hlt
    refine ⟨by rw [zero_next_c, zero_token_c, zero_read_c]; exact le_of_lt hlt,
      by rw [zero_next_trace]; rfl, ?_, (x.band, x.ctx, E.ZERO_TOKEN) :: keys, ?_, ?_⟩
    · rw [zero_next_tokens, zero_token_tokens, zero_read_tokens, List.length_cons, h2,
        zero_next_c, zero_token_c, zero_read_c]
    · rw [zero_next_tokens, zero_token_tokens, zero_read_tokens, zero_read_c]
      refine List.Forall₂.cons ⟨rfl, ?_⟩ ?_
      · rw [zero_next_trace, zero_token_trace, zero_read_trace, hz]
        exact List.mem_cons_of_mem _ (List.mem_cons_of_mem _
          (List.mem_cons_of_mem _ (List.mem_cons_self _ _)))
      · exact Forall₂_counted_mono E _ _ (fun e he => by simp [he]) _ _ h3
    · rw [zero_next_coef_counts, zero_token_coef_counts, INCREMENT_COUNT_of_clear E _ _ hflag,
        zero_read_coef_counts, h4]
      rfl
  · rintro fuel' x t hx ⟨h0, h1, h2, keys, h3, h4⟩ hz ht
    have hf := token_tree_frame R E fuel' _ t ht
    have hfc : t.2.2.c = x.c := hf.frame.c
    have htok : tokens t.2.2.trace = tokens x.trace :=
      (hf.frame.trace.tokens (tree_event_not_token _)).trans (zero_read_tokens R x)
    have hsub : ∀ e, e ∈ x.trace → e ∈ (WRITE_COEF_CONTINUE R E t.1 t.2.1 t.2.2).trace := by
      intro e he
      have : e ∈ t.2.2.trace := hf.trace_subset (by simp [he])
      simp [this]
    refine ⟨by rw [WRITE_COEF_CONTINUE_c, hfc]; exact hx,
      by rw [WRITE_COEF_CONTINUE_trace]; rfl, ?_,
      (x.band, x.ctx, if t.1 = 1 then E.ONE_TOKEN else E.TWO_TOKEN) :: keys, ?_, ?_⟩
    · rw [WRITE_COEF_CONTINUE_tokens, List.length_cons, htok, h2, WRITE_COEF_CONTINUE_c, hfc]
    · rw [WRITE_COEF_CONTINUE_tokens, htok, hfc]
      refine List.Forall₂.cons ⟨rfl, ?_⟩ ?_
      · have hmem : Event.read x.c (Src.coef x.band x.ctx ZERO_CONTEXT_NODE) true ∈
            (zero_read R x).2.trace := by
          rw [zero_read_trace, hz]
          exact List.mem_cons_self _ _
        have : Event.read x.c (Src.coef x.band x.ctx ZERO_CONTEXT_NODE) true ∈ t.2.2.trace :=
          hf.trace_subset hmem
        rw [WRITE_COEF_CONTINUE_trace]
        exact List.mem_cons_of_mem _ (List.mem_cons_of_mem _ (List.mem_cons_of_mem _ this))
      · exact Forall₂_counted_mono E _ _ hsub _ _ h3
    · rw [WRITE_COEF_CONTINUE_coef_counts, hf.counts, INCREMENT_COUNT_of_clear E _ _ hflag,
        zero_read_coef_counts, h4]
      rfl

/-- C17: when `frame_parallel_decoding_mode` is clear, `decode_coefs`
increments exactly one token counter per resolved symbol, at the band and
context bucket of the base row read at the symbol's scan index: `ZERO_TOKEN`
for a ZERO token, `ONE_TOKEN` for magnitude 1, the single `TWO_TOKEN` for every
magnitude of 2 or more, `EOB_MODEL_TOKEN` for the EOB token.  The number of
increments is `eob` when the decode ends by reaching `max_eob` and `eob + 1`
when it ends on an EOB token; and when no counter wraps around, the sum of the
counters over any finite index set that contains the incremented ones grows by
exactly that number. -/
theorem C17_one_counter_per_symbol (R : Reader σ) (E : Env) (inp : Input σ)
    (hflag : E.frame_parallel_decoding_mode = false) :
    (∀ fuel res, decode_coefs R E fuel inp = some res →
      ∃ keys, List.Forall₂ (counted E res.2.trace) (tokens res.2.trace) keys ∧
        res.2.coef_counts = count_keys keys inp.coef_counts ∧
        keys.length = res.1 + (if ends_on_eob res.2.trace then 1 else 0) ∧
        (ends_on_eob res.2.trace = false → res.1 = max_eob E) ∧
        ((∀ b x t, inp.coef_counts b x t + (max_eob E + 1) < 2 ^ 32) →
          ∀ K : Finset (Nat × Nat × Nat), (∀ k, k ∈ keys → k ∈ K) →
            total K res.2.coef_counts = total K inp.coef_counts + res.1 +
              (if ends_on_eob res.2.trace then 1 else 0))) ∧
    (∀ n6 fuel, E.cat6_ptr n6 = 0 → max_eob E + n6 + 2 ≤ fuel →
      ∃ res, decode_coefs R E fuel inp = some res ∧ count_inv_final E inp.coef_counts res.2) := by
  have hany : ∀ fuel res, decode_coefs R E fuel inp = some res →
      res.1 = res.2.c ∧ count_inv_final E inp.coef_counts res.2 := by
    intro fuel res hres
    unfold decode_coefs at hres
    cases hrun : decode_loop R E fuel (inp.start E) with
    | none => simp [hrun] at hres
    | some s' =>
      simp only [hrun, Option.map_some', Option.some.injEq] at hres
      subst hres
      refine ⟨rfl, decode_loop_count_inv R E hflag inp.coef_counts fuel _ s' hrun ?_⟩
      exact ⟨Nat.zero_le _, rfl, rfl, [], List.Forall₂.nil, rfl⟩
  refine ⟨?_, ?_⟩
  · intro fuel res hres
    obtain ⟨hc, h0, h1, h2, keys, h3, h4⟩ := hany fuel res hres
    have hlen : keys.length = res.1 + (if ends_on_eob res.2.trace then 1 else 0) := by
      rw [← h3.length_eq, h2, hc]
    refine ⟨keys, h3, h4, hlen, fun hne => by rw [hc]; exact h1 hne, ?_⟩
    intro hwrap K hK
    have hle : keys.length ≤ max_eob E + 1 := by
      rw [hlen, hc]
      split_ifs <;> omega
    rw [h4, total_count_keys K _ keys hK (fun b x t => by have := hwrap b x t; omega), hlen,
      Nat.add_assoc]
  · intro n6 fuel h6 hfuel
    obtain ⟨s', _, hres⟩ := decode_coefs_some R E n6 h6 fuel hfuel inp
    exact ⟨_, hres, (hany fuel _ hres).2⟩

theorem C17_one_counter_per_symbol_witness :
    sample_env.frame_parallel_decoding_mode = false ∧ sample_env.cat6_ptr 14 = 0 ∧
    max_eob sample_env + 14 + 2 ≤ 32 ∧
    ∃ res, decode_coefs scripted sample_env 32 (sample_input sample_bits) = some res ∧
      count_inv_final sample_env (sample_input sample_bits).coef_counts res.2 :=
  ⟨rfl, by decide, by decide,
    (C17_one_counter_per_symbol scripted sample_env (sample_input sample_bits) rfl).2 14 32
      (by decide) (by decide)⟩

theorem replay_apply (T : List Event) (d : Nat → Int) (p : Nat) :
    replay T d p = (last_write T p).getD (d p) := by
  induction T with
  | nil => rfl
  | cons e T ih =>
    cases e with
    | coef c m tok sg pos x =>
      simp only [replay, last_write, Function.update_apply]
      split_ifs
      · rfl
      · exact ih
    | read c src b => exact ih
    | band i => exact ih
    | context c => exact ih
    | cat6 i => exact ih
    | eob c => exact ih
    | zero c => exact ih

theorem replay_idem (T : List Event) (d : Nat → Int) : replay T (replay T d) = replay T d := by
  funext p
  rw [replay_apply T (replay T d) p, replay_apply T d p]
  cases last_write T p <;> rfl

section aux

variable (R : Reader σ) (E : Env) (b : Bool) (a : Nat → Nat → Nat → Nat) (e : Nat → Nat → Nat)
  (d : Nat → Int) (s : State σ)

theorem rd_with_aux (src : Src) (p : Nat) :
    rd R src p (with_aux a e d s) = ((rd R src p s).1, with_aux a e d (rd R src p s).2) := rfl

@[simp]
theorem with_aux_prob : (with_aux a e d s).prob = s.prob := rfl

@[simp]
theorem with_aux_c : (with_aux a e d s).c = s.c := rfl

@[simp]
theorem with_aux_band : (with_aux a e d s).band = s.band := rfl

@[simp]
theorem with_aux_ctx : (with_aux a e d s).ctx = s.ctx := rfl

@[simp]
theorem with_aux_trace : (with_aux a e d s).trace = s.trace := rfl

@[simp]
theorem with_aux_r : (with_aux a e d s).r = s.r := rfl

@[simp]
theorem with_aux_dqcoeff : (with_aux a e d s).dqcoeff = d := rfl

theorem ADJUST_COEF_with_aux (k i p n val : Nat) :
    ADJUST_COEF R k i p n (val, with_aux a e d s) =
      ((ADJUST_COEF R k i p n (val, s)).1, with_aux a e d (ADJUST_COEF R k i p n (val, s)).2) :=
  rfl

theorem INCREMENT_COUNT_with_aux (tok : Nat) :
    INCREMENT_COUNT (with_flag E b) tok (with_aux a e d s) =
      with_aux (INCREMENT_COUNT (with_flag E b) tok (with_aux a e d s)).coef_counts e d
        (INCREMENT_COUNT E tok s) := by
  unfold INCREMENT_COUNT
  split <;> split <;> rfl

theorem count_eob_branch_with_aux :
    count_eob_branch (with_flag E b) (with_aux a e d s) =
      with_aux a (count_eob_branch (with_flag E b) (with_aux a e d s)).eob_branch_count d
        (count_eob_branch E s) := by
  unfold count_eob_branch
  split <;> split <;> rfl

theorem cat6_loop_with_aux : ∀ (fuel i val : Nat) (s : State σ),
    cat6_loop R (with_flag E b) fuel i val (with_aux a e d s) =
      (cat6_loop R E fuel i val s).map (fun o => (o.1, with_aux a e d o.2)) := by
  intro fuel
  induction fuel with
  | zero => intro i val s; rfl
  | succ fuel ih =>
    intro i val s
    unfold cat6_loop
    by_cases hz : E.cat6_ptr i = 0
    · have hz' : (with_flag E b).cat6_ptr i = 0 := hz
      simp only [ne_eq, hz, hz', not_true_eq_false, if_false, Option.map_some']
      rfl
    · have hz' : ¬ (with_flag E b).cat6_ptr i = 0 := hz
      simp only [ne_eq, hz, hz', not_false_eq_true, if_true]
      exact ih (i + 1) _
        (rd R (Src.cat 6 i) (E.cat6_ptr i) { s with trace := Event.cat6 i :: s.trace }).2

end aux

section aux_tree

variable (R : Reader σ) (E : Env) (b : Bool) (a : Nat → Nat → Nat → Nat) (e : Nat → Nat → Nat)
  (d : Nat → Int) (s : State σ)

theorem INCREMENT_COUNT_push (tok : Nat) :
    INCREMENT_COUNT (with_flag E b) tok (with_aux a e d s) =
      with_aux (if b then a else incr3 a s.band s.ctx tok) e d (INCREMENT_COUNT E tok s) := by
  unfold INCREMENT_COUNT
  cases b <;> cases h : E.frame_parallel_decoding_mode <;> simp [with_flag, with_aux]

theorem count_eob_branch_push :
    count_eob_branch (with_flag E b) (with_aux a e d s) =
      with_aux a (if b then e else incr2 e s.band s.ctx) d (count_eob_branch E s) := by
  unfold count_eob_branch
  cases b <;> cases h : E.frame_parallel_decoding_mode <;> simp [with_flag, with_aux]

theorem set_prob_with_aux (p : Nat → Nat) :
    ({ with_aux a e d s with prob := p } : State σ) = with_aux a e d { s with prob := p } := rfl

theorem category_with_aux (fuel : Nat) (row : Int) :
    category R (with_flag E b) fuel row (with_aux a e d s) =
      (category R E fuel row s).map (fun t => (t.1, t.2.1, with_aux a e d t.2.2)) := by
  unfold category
  simp only [rd_with_aux, with_aux_prob, ADJUST_COEF_with_aux, cat6_loop_with_aux]
  split_ifs
  · rfl
  · rfl
  · rfl
  · rfl
  · rfl
  · cases cat6_loop R E fuel 0 0 _ <;> rfl

end aux_tree

theorem token_tree_with_aux (R : Reader σ) (E : Env) (b : Bool) (a : Nat → Nat → Nat → Nat)
    (e : Nat → Nat → Nat) (d : Nat → Int) (s : State σ) (fuel : Nat) :
    ∃ a', token_tree R (with_flag E b) fuel (with_aux a e d s) =
      (token_tree R E fuel s).map (fun t => (t.1, t.2.1, with_aux a' e d t.2.2)) := by
  unfold token_tree
  simp only [rd_with_aux, INCREMENT_COUNT_push, set_prob_with_aux, category_with_aux,
    with_aux_prob]
  simp only [with_aux_band, with_aux_ctx, with_flag]
  split_ifs <;> exact ⟨_, rfl⟩

section aux_blocks

variable (R : Reader σ) (E : Env) (b : Bool) (a : Nat → Nat → Nat → Nat) (e : Nat → Nat → Nat)
  (d : Nat → Int) (s : State σ)

theorem max_eob_with_flag : max_eob (with_flag E b) = max_eob E := rfl

theorem next_band_with_aux :
    next_band (with_flag E b) (with_aux a e d s) = with_aux a e d (next_band E s) := rfl

theorem loop_head_with_aux : ∃ e', loop_head R (with_flag E b) (with_aux a e d s) =
    ((loop_head R E s).1, with_aux a e' d (loop_head R E s).2) := by
  unfold loop_head
  simp only [next_band_with_aux, count_eob_branch_push, rd_with_aux, with_aux_prob,
    with_aux_band, with_aux_ctx]
  exact ⟨_, rfl⟩

theorem eob_token_with_aux : ∃ a', eob_token (with_flag E b) (with_aux a e d s) =
    with_aux a' e d (eob_token E s) := by
  unfold eob_token
  rw [INCREMENT_COUNT_push]
  exact ⟨_, rfl⟩

theorem zero_read_with_aux : zero_read R (with_aux a e d s) =
    ((zero_read R s).1, with_aux a e d (zero_read R s).2) := rfl

theorem zero_token_with_aux : ∃ a', zero_token (with_flag E b) (with_aux a e d s) =
    with_aux a' e d (zero_token E s) := by
  unfold zero_token
  rw [INCREMENT_COUNT_push]
  exact ⟨_, rfl⟩

theorem zero_next_with_aux :
    zero_next (with_flag E b) (with_aux a e d s) = with_aux a e d (zero_next E s) := rfl

theorem WRITE_COEF_CONTINUE_with_aux (val token : Nat) :
    WRITE_COEF_CONTINUE R (with_flag E b) val token (with_aux a e d s) =
      with_aux a e (WRITE_COEF_CONTINUE R (with_flag E b) val token (with_aux a e d s)).dqcoeff
        (WRITE_COEF_CONTINUE R E val token s) := rfl

end aux_blocks

theorem zero_run_with_aux (R : Reader σ) (E : Env) (b : Bool) (e : Nat → Nat → Nat)
    (d : Nat → Int) : ∀ (fuel : Nat) (s : State σ) (a : Nat → Nat → Nat → Nat),
    (∀ t, zero_run R E fuel s = some (ZeroRun.token t) →
      ∃ a', zero_run R (with_flag E b) fuel (with_aux a e d s) =
        some (ZeroRun.token (with_aux a' e d t))) ∧
    (∀ t, zero_run R E fuel s = some (ZeroRun.ret t) →
      ∃ a', zero_run R (with_flag E b) fuel (with_aux a e d s) =
        some (ZeroRun.ret (with_aux a' e d t))) := by
  intro fuel
  induction fuel with
  | zero => intro s a; constructor <;> intro t h <;> simp [zero_run] at h
  | succ fuel ih =>
    intro s a
    obtain ⟨a1, ha1⟩ := zero_token_with_aux E b a e d (zero_read R s).2
    have hstep : zero_run R (with_flag E b) (fuel + 1) (with_aux a e d s) =
        if !(zero_read R s).1 then
          if (zero_token E (zero_read R s).2).c ≥ max_eob E then
            some (ZeroRun.ret (with_aux a1 e d (zero_token E (zero_read R s).2)))
          else zero_run R (with_flag E b) fuel
            (with_aux a1 e d (zero_next E (zero_token E (zero_read R s).2)))
        else some (ZeroRun.token (with_aux a e d (zero_read R s).2)) := by
      rw [zero_run, zero_read_with_aux]
      simp only [ha1, zero_next_with_aux, with_aux_c, max_eob_with_flag]
    rw [hstep]
    constructor
    · intro t h
      rw [zero_run] at h
      split_ifs at h ⊢ with h1 h2
      · cases h
      · exact (ih _ a1).1 t h
      · cases h
        exact ⟨_, rfl⟩
    · intro t h
      rw [zero_run] at h
      split_ifs at h ⊢ with h1 h2
      · cases h
        exact ⟨_, rfl⟩
      · exact (ih _ a1).2 t h
      · cases h

theorem decode_loop_with_aux (R : Reader σ) (E : Env) (b : Bool) :
    ∀ (fuel : Nat) (s t : State σ) (a : Nat → Nat → Nat → Nat) (e : Nat → Nat → Nat)
      (d : Nat → Int), decode_loop R E fuel s = some t →
      ∃ a' e' d', decode_loop R (with_flag E b) fuel (with_aux a e d s) =
        some (with_aux a' e' d' t) := by
  intro fuel
  induction fuel with
  | zero => intro s t a e d h; simp [decode_loop] at h
  | succ fuel ih =>
    intro s t a e d h
    obtain ⟨e1, he1⟩ := loop_head_with_aux R E b a e d s
    obtain ⟨a1, ha1⟩ := eob_token_with_aux E b a e1 d (loop_head R E s).2
    rw [decode_loop] at h ⊢
    simp only [he1, with_aux_c, max_eob_with_flag, ha1]
    split_ifs at h ⊢ with hc hl
    · cases h
      exact ⟨_, _, _, rfl⟩
    · cases hz : zero_run R E fuel (loop_head R E s).2 with
      | none => simp [hz] at h
      | some out =>
        rw [hz] at h
        cases out with
        | ret s1 =>
          simp only [Option.some.injEq] at h
          subst h
          obtain ⟨a2, ha2⟩ := (zero_run_with_aux R E b e1 d fuel _ a).2 s1 hz
          rw [ha2]
          exact ⟨_, _, _, rfl⟩
        | token s1 =>
          simp only at h
          obtain ⟨a2, ha2⟩ := (zero_run_with_aux R E b e1 d fuel _ a).1 s1 hz
          obtain ⟨a3, ha3⟩ := token_tree_with_aux R E b a2 e1 d s1 fuel
          rw [ha2]
          simp only [ha3]
          cases ht : token_tree R E fuel s1 with
          | none => simp [ht] at h
          | some tt =>
            rw [ht] at h
            simp only [Option.map_some']
            rw [WRITE_COEF_CONTINUE_with_aux]
            exact ih _ t _ _ _ h
    · cases h
      exact ⟨_, _, _, rfl⟩

theorem tree_replay {s : State σ} {T T' : List Event} (d : Nat → Int)
    (h : Extends (tree_event s) T T') : replay T' d = replay T d := by
  induction h with
  | refl => rfl
  | cons he _ ih =>
    rcases he with ⟨i, rfl⟩ | ⟨src, b, rfl, _⟩
    · exact ih
    · exact ih

/-- The coefficient buffer is the initial buffer after the logged stores. -/
theorem decode_loop_replay (R : Reader σ) (E : Env) (d0 : Nat → Int) (fuel : Nat)
    (s s' : State σ) (h : decode_loop R E fuel s = some s')
    (hs : s.dqcoeff = replay s.trace d0) : s'.dqcoeff = replay s'.trace d0 := by
  refine decode_loop_invariant R E (fun x => x.dqcoeff = replay x.trace d0)
    (fun x => x.dqcoeff = replay x.trace d0) ?_ ?_ ?_ ?_ ?_ fuel s s' h hs
  · intro x _ hx _
    rw [loop_head_dqcoeff, loop_head_trace, hx]
    rfl
  · intro x _ hx _
    rw [eob_token_dqcoeff, loop_head_dqcoeff, eob_token_trace, loop_head_trace, hx]
    rfl
  · intro x _ hx _ _
    rw [zero_token_dqcoeff, zero_read_dqcoeff, zero_token_trace, zero_read_trace, hx]
    rfl
  · intro x _ hx _ _
    rw [zero_next_dqcoeff, zero_token_dqcoeff, zero_read_dqcoeff, zero_next_trace,
      zero_token_trace, zero_read_trace, hx]
    rfl
  · intro x val token x' _ hx _ hf
    have hd : x'.dqcoeff = replay x'.trace d0 := by
      rw [hf.frame.dqcoeff, zero_read_dqcoeff, hx, tree_replay d0 hf.frame.trace,
        zero_read_trace]
      rfl
    rw [WRITE_COEF_CONTINUE_dqcoeff, WRITE_COEF_CONTINUE_trace, hd]
    rfl

/-- C13: `decode_coefs` is deterministic and idempotent on the buffer.  A run
with the same reader and decisions, tables, transform size and entry context,
but any value `b` of the frame-parallel flag and any frame counters `a`, `e`,
returns the same `eob` and produces the same coefficient buffer (and the same
log); and a run that decodes again into the buffer produced by the first run
returns the same `eob` and leaves that buffer unchanged.  With a terminated
category-6 table a first run exists, and its buffer is the initial buffer
after the logged stores. -/
theorem C13_deterministic_and_idempotent (R : Reader σ) (E : Env) (inp : Input σ) (b : Bool)
    (a : Nat → Nat → Nat → Nat) (e : Nat → Nat → Nat) :
    (∀ fuel res, decode_coefs R E fuel inp = some res →
      (∃ res', decode_coefs R (with_flag E b) fuel
          { inp with coef_counts := a, eob_branch_count := e } = some res' ∧
        res'.1 = res.1 ∧ res'.2.dqcoeff = res.2.dqcoeff ∧ res'.2.trace = res.2.trace) ∧
      (∃ res', decode_coefs R (with_flag E b) fuel
          { inp with coef_counts := a, eob_branch_count := e, dqcoeff := res.2.dqcoeff } =
            some res' ∧
        res'.1 = res.1 ∧ res'.2.dqcoeff = res.2.dqcoeff)) ∧
    (∀ n6 fuel, E.cat6_ptr n6 = 0 → max_eob E + n6 + 2 ≤ fuel →
      ∃ res, decode_coefs R E fuel inp = some res ∧
        res.2.dqcoeff = replay res.2.trace inp.dqcoeff) := by
  have hany : ∀ fuel res, decode_coefs R E fuel inp = some res →
      decode_loop R E fuel (inp.start E) = some res.2 ∧ res.1 = res.2.c ∧
      res.2.dqcoeff = replay res.2.trace inp.dqcoeff := by
    intro fuel res hres
    unfold decode_coefs at hres
    cases hrun : decode_loop R E fuel (inp.start E) with
    | none => simp [hrun] at hres
    | some s' =>
      simp only [hrun, Option.map_some', Option.some.injEq] at hres
      subst hres
      exact ⟨rfl, rfl, decode_loop_replay R E inp.dqcoeff fuel _ s' hrun rfl⟩
  have hsim : ∀ fuel res (d : Nat → Int), decode_coefs R E fuel inp = some res →
      ∃ res', decode_coefs R (with_flag E b) fuel
          { inp with coef_counts := a, eob_branch_count := e, dqcoeff := d } = some res' ∧
        res'.1 = res.1 ∧ res'.2.trace = res.2.trace ∧
        res'.2.dqcoeff = replay res.2.trace d := by
    intro fuel res d hres
    obtain ⟨hrun, hc, _⟩ := hany fuel res hres
    obtain ⟨a', e', d', hrun'⟩ := decode_loop_with_aux R E b fuel _ _ a e d hrun
    have hstart : (Input.start (with_flag E b)
        { inp with coef_counts := a, eob_branch_count := e, dqcoeff := d }) =
        with_aux a e d (inp.start E) := rfl
    have hd := decode_loop_replay R (with_flag E b) d fuel _ _ hrun' rfl
    refine ⟨((with_aux a' e' d' res.2).c, with_aux a' e' d' res.2), ?_, ?_, rfl, hd⟩
    · unfold decode_coefs
      rw [hstart, hrun']
      rfl
    · exact hc.symm
  refine ⟨?_, ?_⟩
  · intro fuel res hres
    obtain ⟨_, _, hd⟩ := hany fuel res hres
    refine ⟨?_, ?_⟩
    · obtain ⟨res', h1, h2, h3, h4⟩ := hsim fuel res inp.dqcoeff hres
      exact ⟨res', h1, h2, by rw [h4, hd], h3⟩
    · obtain ⟨res', h1, h2, _, h4⟩ := hsim fuel res res.2.dqcoeff hres
      refine ⟨res', h1, h2, ?_⟩
      rw [h4, hd, replay_idem]
  · intro n6 fuel h6 hfuel
    obtain ⟨s', _, hres⟩ := decode_coefs_some R E n6 h6 fuel hfuel inp
    exact ⟨_, hres, (hany fuel _ hres).2.2⟩

theorem C13_deterministic_and_idempotent_witness :
    sample_env.cat6_ptr 14 = 0 ∧ max_eob sample_env + 14 + 2 ≤ 32 ∧
    ∃ res, decode_coefs scripted sample_env 32 (sample_input sample_bits) = some res ∧
      res.2.dqcoeff = replay res.2.trace (sample_input sample_bits).dqcoeff :=
  ⟨by decide, by decide,
    (C13_deterministic_and_idempotent scripted sample_env (sample_input sample_bits) true
      (fun _ _ _ => 7) (fun _ _ => 9)).2 14 32 (by decide) (by decide)⟩

theorem tree_code_low (E : Env) (fuel : Nat) (s : State Script)
    (h : s.r.bits s.r.pos = false ∨ s.r.bits (s.r.pos + 1) = false) :
    tree_code E fuel s = some (spec_code 0 s.r.bits s.r.pos) := by
  cases h0 : s.r.bits s.r.pos
  · simp [tree_code, token_tree, rd, scripted, Script.next, h0, spec_code, spec_leaf, spec_min,
      spec_ctrl, spec_extra, msb_value]
  · have h1 : s.r.bits (s.r.pos + 1) = false := by
      rcases h with h | h
      · rw [h0] at h; cases h
      · exact h
    cases h2 : s.r.bits (s.r.pos + 2)
    · simp [tree_code, token_tree, rd, scripted, Script.next, h0, h1, h2, spec_code, spec_leaf,
        spec_min, spec_ctrl, spec_extra, msb_value]
      omega
    · cases h3 : s.r.bits (s.r.pos + 3)
      · simp [tree_code, token_tree, rd, scripted, Script.next, h0, h1, h2, h3, spec_code,
          spec_leaf, spec_min, spec_ctrl, spec_extra, msb_value]
        omega
      · simp [tree_code, token_tree, rd, scripted, Script.next, h0, h1, h2, h3, spec_code,
          spec_leaf, spec_min, spec_ctrl, spec_extra, msb_value]
        omega

theorem tree_code_cat (E : Env) (fuel n6 : Nat) (s : State Script)
    (h0 : s.r.bits s.r.pos = true) (h1 : s.r.bits (s.r.pos + 1) = true)
    (h : s.r.bits (s.r.pos + 2) = false ∨ s.r.bits (s.r.pos + 3) = false ∨
      s.r.bits (s.r.pos + 4) = false) :
    tree_code E fuel s = some (spec_code n6 s.r.bits s.r.pos) := by
  cases h2 : s.r.bits (s.r.pos + 2)
  · cases h3 : s.r.bits (s.r.pos + 3)
    · simp [tree_code, token_tree, category, ADJUST_COEF, rd, scripted, Script.next, h0, h1,
        h2, h3, spec_code, spec_leaf, spec_min, spec_ctrl, spec_extra, msb_value,
        CAT1_MIN_VAL]
      omega
    · simp [tree_code, token_tree, category, ADJUST_COEF, rd, scripted, Script.next, h0, h1,
        h2, h3, spec_code, spec_leaf, spec_min, spec_ctrl, spec_extra, msb_value,
        CAT2_MIN_VAL]
      simp only [Nat.add_assoc, Nat.reduceAdd, Nat.shiftLeft_eq, Nat.reducePow]
      omega
  · cases h3 : s.r.bits (s.r.pos + 3)
    · cases h4 : s.r.bits (s.r.pos + 4)
      · simp [tree_code, token_tree, category, ADJUST_COEF, rd, scripted, Script.next, h0, h1,
          h2, h3, h4, spec_code, spec_leaf, spec_min, spec_ctrl, spec_extra, msb_value,
          CAT3_MIN_VAL]
        simp only [Nat.add_assoc, Nat.reduceAdd, Nat.shiftLeft_eq, Nat.reducePow]
        omega
      · simp [tree_code, token_tree, category, ADJUST_COEF, rd, scripted, Script.next, h0, h1,
          h2, h3, h4, spec_code, spec_leaf, spec_min, spec_ctrl, spec_extra, msb_value,
          CAT4_MIN_VAL]
        simp only [Nat.add_assoc, Nat.reduceAdd, Nat.shiftLeft_eq, Nat.reducePow]
        omega
    · have h4 : s.r.bits (s.r.pos + 4) = false := by
        rcases h with h | h | h
        · rw [h2] at h; cases h
        · rw [h3] at h; cases h
        · exact h
      simp [tree_code, token_tree, category, ADJUST_COEF, rd, scripted, Script.next, h0, h1,
        h2, h3, h4, spec_code, spec_leaf, spec_min, spec_ctrl, spec_extra, msb_value,
        CAT5_MIN_VAL]
      simp only [Nat.add_assoc, Nat.reduceAdd, Nat.shiftLeft_eq, Nat.reducePow]
      omega

theorem tree_code_cat6 (E : Env) (fuel n6 : Nat) (s : State Script)
    (hnz : ∀ j, j < n6 → E.cat6_ptr j ≠ 0) (h6 : E.cat6_ptr n6 = 0) (hfuel : n6 + 1 ≤ fuel)
    (h0 : s.r.bits s.r.pos = true) (h1 : s.r.bits (s.r.pos + 1) = true)
    (h2 : s.r.bits (s.r.pos + 2) = true) (h3 : s.r.bits (s.r.pos + 3) = true)
    (h4 : s.r.bits (s.r.pos + 4) = true) :
    tree_code E fuel s = some (spec_code n6 s.r.bits s.r.pos) := by
  have hspec : spec_code n6 s.r.bits s.r.pos =
      (67 + msb_value s.r.bits (s.r.pos + 5) n6, 5 + n6) := by
    simp [spec_code, spec_leaf, spec_min, spec_ctrl, spec_extra, h0, h1, h2, h3, h4]
  rw [hspec]
  unfold tree_code token_tree category
  lift_lets
  extract_lets one s1 row s2 low two three hl c1 a1 a2 c34 c3 a3 a4 c5 a5
  have e1 : one.1 = true := by simp [one, rd, scripted, Script.next, h0]
  have e2 : low.1 = true := by
    simp [low, s2, s1, one, rd, scripted, Script.next, h1]
  have e3 : hl.1 = true := by
    simp [hl, low, s2, s1, one, rd, scripted, Script.next, h2]
  have e4 : c34.1 = true := by
    simp [c34, hl, low, s2, s1, one, rd, scripted, Script.next, h3]
  have e5 : c5.1 = true := by
    simp [c5, c34, hl, low, s2, s1, one, rd, scripted, Script.next, h4]
  have key := cat6_loop_scripted E n6 hnz h6 s.r.bits (s.r.pos + 5) c5.2.c c5.2.trace
    fuel 0 c5.2 (Nat.zero_le _) (by omega)
    (by simp [c5, c34, hl, low, s2, s1, one, rd, scripted, Script.next])
    (by simp [c5, c34, hl, low, s2, s1, one, rd, scripted, Script.next])
    rfl (by simp [cat6_reads])
  simp only [e1, e2, e3, e4, e5, Bool.not_true, Bool.false_eq_true, if_false]
  cases hcl : cat6_loop scripted E fuel 0 0 c5.2 with
  | none => simp [hcl, msb_value] at key
  | some a =>
    simp only [hcl, msb_value, Option.map_some', Option.some.injEq, Prod.mk.injEq] at key
    obtain ⟨k1, k2, _, _⟩ := key
    simp only [Option.map_some', k1, k2, CAT6_MIN_VAL, Option.some.injEq, Prod.mk.injEq]
    constructor <;> omega

/-- The magnitude tree refines the prefix code `spec_code`. -/
theorem tree_code_eq (E : Env) (fuel n6 : Nat) (s : State Script)
    (hnz : ∀ j, j < n6 → E.cat6_ptr j ≠ 0) (h6 : E.cat6_ptr n6 = 0) (hfuel : n6 + 1 ≤ fuel) :
    tree_code E fuel s = some (spec_code n6 s.r.bits s.r.pos) := by
  cases h0 : s.r.bits s.r.pos
  · have := tree_code_low E fuel s (Or.inl h0)
    rw [this]
    simp [spec_code, spec_leaf, spec_min, spec_ctrl, spec_extra, h0]
  · cases h1 : s.r.bits (s.r.pos + 1)
    · have := tree_code_low E fuel s (Or.inr h1)
      rw [this]
      cases h2 : s.r.bits (s.r.pos + 2) <;> cases h3 : s.r.bits (s.r.pos + 3) <;>
        simp [spec_code, spec_leaf, spec_min, spec_ctrl, spec_extra, h0, h1, h2, h3]
    · cases h2 : s.r.bits (s.r.pos + 2)
      · exact tree_code_cat E fuel n6 s h0 h1 (Or.inl h2)
      · cases h3 : s.r.bits (s.r.pos + 3)
        · exact tree_code_cat E fuel n6 s h0 h1 (Or.inr (Or.inl h3))
        · cases h4 : s.r.bits (s.r.pos + 4)
          · exact tree_code_cat E fuel n6 s h0 h1 (Or.inr (Or.inr h4))
          · exact tree_code_cat6 E fuel n6 s hnz h6 hfuel h0 h1 h2 h3 h4

theorem msb_value_lt (bits : Nat → Bool) (p : Nat) : ∀ k, msb_value bits p k < 2 ^ k := by
  intro k
  induction k with
  | zero => simp [msb_value]
  | succ k ih =>
    have hb : (bits (p + k)).toNat ≤ 1 := by cases bits (p + k) <;> simp
    rw [msb_value, pow_succ]
    omega

theorem msb_value_congr (bits bits' : Nat → Bool) (p p' : Nat) :
    ∀ k, (∀ i, i < k → bits (p + i) = bits' (p' + i)) →
      msb_value bits p k = msb_value bits' p' k := by
  intro k
  induction k with
  | zero => intro _; rfl
  | succ k ih =>
    intro h
    rw [msb_value, msb_value, ih (fun i hi => h i (by omega)), h k (by omega)]

theorem msb_value_inj (bits bits' : Nat → Bool) (p p' : Nat) :
    ∀ k, msb_value bits p k = msb_value bits' p' k →
      ∀ i, i < k → bits (p + i) = bits' (p' + i) := by
  intro k
  induction k with
  | zero => intro _ i hi; omega
  | succ k ih =>
    intro h i hi
    rw [msb_value, msb_value] at h
    have hb : (bits (p + k)).toNat ≤ 1 := by cases bits (p + k) <;> simp
    have hb' : (bits' (p' + k)).toNat ≤ 1 := by cases bits' (p' + k) <;> simp
    have hv : msb_value bits p k = msb_value bits' p' k := by omega
    have hl : (bits (p + k)).toNat = (bits' (p' + k)).toNat := by omega
    by_cases hik : i < k
    · exact ih hv i hik
    · have : i = k := by omega
      subst this
      revert hl
      cases bits (p + i) <;> cases bits' (p' + i) <;> simp

theorem msb_value_testBit (bits : Nat → Bool) (q : Nat) :
    ∀ k x, (∀ i, i < k → bits (q + i) = x.testBit (k - 1 - i)) →
      msb_value bits q k = x % 2 ^ k := by
  intro k
  induction k with
  | zero => intro x _; simp [msb_value, Nat.mod_one]
  | succ k ih =>
    intro x h
    have hrec : msb_value bits q k = (x / 2) % 2 ^ k := by
      refine ih (x / 2) (fun i hi => ?_)
      rw [h i (by omega), ← Nat.testBit_succ]
      congr 1
      omega
    have hlast : (bits (q + k)).toNat = x % 2 := by
      rw [h k (by omega)]
      have : k + 1 - 1 - k = 0 := by omega
      rw [this, Nat.testBit_zero]
      rcases Nat.mod_two_eq_zero_or_one x with h0 | h1
      · simp [h0]
      · simp [h1]
    rw [msb_value, hrec, hlast, pow_succ, Nat.mul_comm (2 ^ k) 2, Nat.mod_mul]
    omega

theorem spec_leaf_lt (bits : Nat → Bool) (p : Nat) : spec_leaf bits p < 10 := by
  unfold spec_leaf
  split_ifs <;> decide

theorem spec_min_separated (n6 : Nat) (L L' : Nat) (hL' : L' < 10) (hlt : L < L') :
    spec_min L + 2 ^ spec_extra n6 L ≤ spec_min L' := by
  have hL : L < 9 := by omega
  interval_cases L <;> interval_cases L' <;> simp [spec_min, spec_extra] at hlt ⊢

theorem spec_ctrl_reads (bits : Nat → Bool) (p : Nat) :
    ∀ i, i < (spec_ctrl (spec_leaf bits p)).length →
      bits (p + i) = (spec_ctrl (spec_leaf bits p)).getD i false := by
  cases h0 : bits p <;> cases h1 : bits (p + 1) <;> cases h2 : bits (p + 2) <;>
    cases h3 : bits (p + 3) <;> cases h4 : bits (p + 4) <;>
    simp only [spec_leaf, h0, h1, h2, h3, h4, Bool.not_true, Bool.not_false,
      Bool.false_eq_true, if_true, if_false, spec_ctrl, List.length_cons, List.length_nil] <;>
    intro i hi <;> interval_cases i <;> simp [h0, h1, h2, h3, h4]

theorem spec_leaf_of_reads (bits : Nat → Bool) (p L : Nat) (hL : L < 10)
    (h : ∀ i, i < (spec_ctrl L).length → bits (p + i) = (spec_ctrl L).getD i false) :
    spec_leaf bits p = L := by
  interval_cases L
  all_goals
    have b0 := h 0 (by simp [spec_ctrl])
    simp only [spec_ctrl, Nat.add_zero, List.getD_cons_zero] at b0
  · simp [spec_leaf, b0]
  all_goals
    have b1 := h 1 (by simp [spec_ctrl])
    have b2 := h 2 (by simp [spec_ctrl])
    simp [spec_ctrl] at b1 b2
  · simp [spec_leaf, b0, b1, b2]
  all_goals
    have b3 := h 3 (by simp [spec_ctrl])
    simp [spec_ctrl] at b3
  · simp [spec_leaf, b0, b1, b2, b3]
  · simp [spec_leaf, b0, b1, b2, b3]
  · simp [spec_leaf, b0, b1, b2, b3]
  · simp [spec_leaf, b0, b1, b2, b3]
  all_goals
    have b4 := h 4 (by simp [spec_ctrl])
    simp [spec_ctrl] at b4
    simp [spec_leaf, b0, b1, b2, b3, b4]

theorem spec_code_range (n6 : Nat) (bits : Nat → Bool) (p : Nat) :
    spec_min (spec_leaf bits p) ≤ (spec_code n6 bits p).1 ∧
    (spec_code n6 bits p).1 < spec_min (spec_leaf bits p) + 2 ^ spec_extra n6 (spec_leaf bits p) := by
  have := msb_value_lt bits (p + (spec_ctrl (spec_leaf bits p)).length)
    (spec_extra n6 (spec_leaf bits p))
  constructor
  · exact Nat.le_add_right _ _
  · show spec_min _ + msb_value _ _ _ < _
    omega

theorem spec_code_leaf_eq (n6 : Nat) (bits bits' : Nat → Bool) (p p' : Nat)
    (h : (spec_code n6 bits p).1 = (spec_code n6 bits' p').1) :
    spec_leaf bits p = spec_leaf bits' p' := by
  obtain ⟨h1, h2⟩ := spec_code_range n6 bits p
  obtain ⟨h3, h4⟩ := spec_code_range n6 bits' p'
  rcases Nat.lt_trichotomy (spec_leaf bits p) (spec_leaf bits' p') with hlt | heq | hgt
  · have := spec_min_separated n6 _ _ (spec_leaf_lt bits' p') hlt
    omega
  · exact heq
  · have := spec_min_separated n6 _ _ (spec_leaf_lt bits p) hgt
    omega

/-- Two scripts that decode to the same magnitude use the same number of
decisions and agree on each of them. -/
theorem spec_code_unique (n6 : Nat) (bits bits' : Nat → Bool) (p p' : Nat)
    (h : (spec_code n6 bits p).1 = (spec_code n6 bits' p').1) :
    (spec_code n6 bits p).2 = (spec_code n6 bits' p').2 ∧
    ∀ i, i < (spec_code n6 bits p).2 → bits (p + i) = bits' (p' + i) := by
  have hleaf := spec_code_leaf_eq n6 bits bits' p p' h
  have hc := spec_ctrl_reads bits p
  have hc' := spec_ctrl_reads bits' p'
  have hval : msb_value bits (p + (spec_ctrl (spec_leaf bits p)).length)
      (spec_extra n6 (spec_leaf bits p)) =
      msb_value bits' (p' + (spec_ctrl (spec_leaf bits p)).length)
        (spec_extra n6 (spec_leaf bits p)) := by
    have h' := h
    simp only [spec_code, ← hleaf] at h'
    omega
  have hinj := msb_value_inj bits bits' _ _ _ hval
  rw [← hleaf] at hc'
  refine ⟨by simp only [spec_code, ← hleaf], fun i hi => ?_⟩
  by_cases hlt : i < (spec_ctrl (spec_leaf bits p)).length
  · rw [hc i hlt, hc' i hlt]
  · have hi' : i - (spec_ctrl (spec_leaf bits p)).length < spec_extra n6 (spec_leaf bits p) := by
      simp only [spec_code] at hi
      omega
    have := hinj _ hi'
    have e1 : p + (spec_ctrl (spec_leaf bits p)).length +
        (i - (spec_ctrl (spec_leaf bits p)).length) = p + i := by omega
    have e2 : p' + (spec_ctrl (spec_leaf bits p)).length +
        (i - (spec_ctrl (spec_leaf bits p)).length) = p' + i := by omega
    rwa [e1, e2] at this

/-- Every value of every path is decoded from some script. -/
theorem spec_code_onto (n6 L x : Nat) (hL : L < 10) (hx : x < 2 ^ spec_extra n6 L) :
    spec_leaf (code_stream (spec_ctrl L) (spec_extra n6 L) x) 0 = L ∧
    spec_code n6 (code_stream (spec_ctrl L) (spec_extra n6 L) x) 0 =
      (spec_min L + x, (spec_ctrl L).length + spec_extra n6 L) := by
  have hleaf : spec_leaf (code_stream (spec_ctrl L) (spec_extra n6 L) x) 0 = L := by
    refine spec_leaf_of_reads _ 0 L hL (fun i hi => ?_)
    simp [code_stream, hi]
  have hval : msb_value (code_stream (spec_ctrl L) (spec_extra n6 L) x)
      (0 + (spec_ctrl L).length) (spec_extra n6 L) = x := by
    rw [msb_value_testBit _ _ _ x, Nat.mod_eq_of_lt hx]
    intro i hi
    simp only [code_stream]
    rw [if_neg (by omega)]
    congr 1
    omega
  refine ⟨hleaf, ?_⟩
  simp only [spec_code, hleaf, hval]

theorem spec_leaf_exists (n6 m : Nat) (h1 : 1 ≤ m) (h2 : m ≤ 66 + 2 ^ n6) :
    ∃ L x, L < 10 ∧ x < 2 ^ spec_extra n6 L ∧ m = spec_min L + x := by
  by_cases c0 : m ≤ 4
  · refine ⟨m - 1, 0, by omega, by positivity, ?_⟩
    interval_cases m <;> rfl
  by_cases c1 : m ≤ 6
  · exact ⟨4, m - 5, by decide, by simp [spec_extra]; omega, by simp [spec_min]; omega⟩
  by_cases c2 : m ≤ 10
  · exact ⟨5, m - 7, by decide, by simp [spec_extra]; omega, by simp [spec_min]; omega⟩
  by_cases c3 : m ≤ 18
  · exact ⟨6, m - 11, by decide, by simp [spec_extra]; omega, by simp [spec_min]; omega⟩
  by_cases c4 : m ≤ 34
  · exact ⟨7, m - 19, by decide, by simp [spec_extra]; omega, by simp [spec_min]; omega⟩
  by_cases c5 : m ≤ 66
  · exact ⟨8, m - 35, by decide, by simp [spec_extra]; omega, by simp [spec_min]; omega⟩
  · exact ⟨9, m - 67, by decide, by simp [spec_extra]; omega, by simp [spec_min]; omega⟩

theorem spec_min_pos (L : Nat) : 1 ≤ spec_min L := by
  unfold spec_min
  split <;> decide

theorem spec_set_le (n6 L : Nat) (hL : L < 10) :
    spec_min L + 2 ^ spec_extra n6 L ≤ 67 + 2 ^ n6 := by
  have := Nat.one_le_two_pow (n := n6)
  interval_cases L <;> simp [spec_min, spec_extra] <;> omega

/-- C20: the magnitude tree is a prefix code onto a contiguous range.  With
the first zero entry of the category-6 table at offset `n6`, the paths ONE, TWO,
THREE, FOUR, CAT1 to CAT6 (numbered 0 to 9) have the magnitude sets {1}, {2},
{3}, {4}, [5,6], [7,10], [11,18], [19,34], [35,66], [67, 66 + 2^n6]; the sets
are pairwise disjoint; every run of the tree returns a magnitude in the set of
the path its decisions select; every magnitude of every set, so every magnitude
in [1, 66 + 2^n6], is produced by some script; and two scripts that produce the
same magnitude consume the same number of decisions and agree on each of them,
so the sequence of decisions is unique. -/
theorem C20_magnitude_tree_prefix_code (E : Env) (n6 : Nat)
    (hnz : ∀ j, j < n6 → E.cat6_ptr j ≠ 0) (h6 : E.cat6_ptr n6 = 0) :
    ((List.range 10).map spec_min = [1, 2, 3, 4, 5, 7, 11, 19, 35, 67] ∧
      (List.range 10).map (fun L => spec_min L + 2 ^ spec_extra n6 L - 1) =
        [1, 2, 3, 4, 6, 10, 18, 34, 66, 66 + 2 ^ n6]) ∧
    (∀ L L', L' < 10 → L < L' → spec_min L + 2 ^ spec_extra n6 L - 1 < spec_min L') ∧
    (∀ fuel (s : State Script), n6 + 1 ≤ fuel →
      ∃ v len, tree_code E fuel s = some (v, len) ∧
        spec_leaf s.r.bits s.r.pos < 10 ∧
        spec_min (spec_leaf s.r.bits s.r.pos) ≤ v ∧
        v ≤ spec_min (spec_leaf s.r.bits s.r.pos) +
          2 ^ spec_extra n6 (spec_leaf s.r.bits s.r.pos) - 1 ∧
        1 ≤ v ∧ v ≤ 66 + 2 ^ n6) ∧
    (∀ L x, L < 10 → x < 2 ^ spec_extra n6 L →
      ∃ bits, spec_leaf bits 0 = L ∧ ∀ fuel, n6 + 1 ≤ fuel →
        tree_code E fuel (script_state bits) =
          some (spec_min L + x, (spec_ctrl L).length + spec_extra n6 L)) ∧
    (∀ m, 1 ≤ m → m ≤ 66 + 2 ^ n6 →
      ∃ bits, ∀ fuel, n6 + 1 ≤ fuel →
        (tree_code E fuel (script_state bits)).map Prod.fst = some m) ∧
    (∀ fuel (s s' : State Script) v len len', n6 + 1 ≤ fuel →
      tree_code E fuel s = some (v, len) → tree_code E fuel s' = some (v, len') →
      len = len' ∧ ∀ i, i < len → s.r.bits (s.r.pos + i) = s'.r.bits (s'.r.pos + i)) := by
  have honto : ∀ L x, L < 10 → x < 2 ^ spec_extra n6 L →
      ∃ bits, spec_leaf bits 0 = L ∧ ∀ fuel, n6 + 1 ≤ fuel →
        tree_code E fuel (script_state bits) =
          some (spec_min L + x, (spec_ctrl L).length + spec_extra n6 L) := by
    intro L x hL hx
    obtain ⟨hleaf, hcode⟩ := spec_code_onto n6 L x hL hx
    refine ⟨code_stream (spec_ctrl L) (spec_extra n6 L) x, hleaf, fun fuel hfuel => ?_⟩
    rw [tree_code_eq E fuel n6 _ hnz h6 hfuel]
    exact congrArg some hcode
  refine ⟨⟨?_, ?_⟩, ?_, ?_, honto, ?_, ?_⟩
  · simp [List.range_succ, spec_min]
  · simp [List.range_succ, spec_min, spec_extra]
  · intro L L' hL' hlt
    have := spec_min_separated n6 L L' hL' hlt
    have := Nat.one_le_two_pow (n := spec_extra n6 L)
    omega
  · intro fuel s hfuel
    obtain ⟨h1, h2⟩ := spec_code_range n6 s.r.bits s.r.pos
    have h3 := spec_set_le n6 _ (spec_leaf_lt s.r.bits s.r.pos)
    have h4 := spec_min_pos (spec_leaf s.r.bits s.r.pos)
    exact ⟨(spec_code n6 s.r.bits s.r.pos).1, (spec_code n6 s.r.bits s.r.pos).2,
      tree_code_eq E fuel n6 s hnz h6 hfuel, spec_leaf_lt _ _, h1, by omega, by omega,
      by omega⟩
  · intro m h1 h2
    obtain ⟨L, x, hL, hx, rfl⟩ := spec_leaf_exists n6 m h1 h2
    obtain ⟨bits, _, hb⟩ := honto L x hL hx
    exact ⟨bits, fun fuel hfuel => by rw [hb fuel hfuel]; rfl⟩
  · intro fuel s s' v len len' hfuel hs hs'
    rw [tree_code_eq E fuel n6 s hnz h6 hfuel] at hs
    rw [tree_code_eq E fuel n6 s' hnz h6 hfuel] at hs'
    have hs1 : (spec_code n6 s.r.bits s.r.pos).1 = v := by
      rw [Option.some.inj hs]
    have hs2 : (spec_code n6 s.r.bits s.r.pos).2 = len := by
      rw [Option.some.inj hs]
    have hs1' : (spec_code n6 s'.r.bits s'.r.pos).1 = v := by
      rw [Option.some.inj hs']
    have hs2' : (spec_code n6 s'.r.bits s'.r.pos).2 = len' := by
      rw [Option.some.inj hs']
    obtain ⟨hlen, hbits⟩ := spec_code_unique n6 s.r.bits s'.r.bits s.r.pos s'.r.pos
      (hs1.trans hs1'.symm)
    rw [hs2, hs2'] at hlen
    rw [hs2] at hbits
    exact ⟨hlen, hbits⟩

theorem C20_magnitude_tree_prefix_code_witness :
    (∀ j, j < 14 → sample_env.cat6_ptr j ≠ 0) ∧ sample_env.cat6_ptr 14 = 0 ∧
    1 ≤ 72 ∧ 72 ≤ 66 + 2 ^ 14 ∧
    ∃ bits, ∀ fuel, 14 + 1 ≤ fuel →
      (tree_code sample_env fuel (script_state bits)).map Prod.fst = some 72 :=
  ⟨by decide, by decide, by decide, by decide,
    (C20_magnitude_tree_prefix_code sample_env 14 (by decide) (by decide)).2.2.2.2.1 72
      (by decide) (by decide)⟩

end Vp9
